import Mathlib

/-!
Verification of the study-plan scheduling engine (`src/utils/scheduling.ts` and
the lock-day management module).

Shallow embedding conventions:
* Calendar dates are `Nat` day indices (days since an arbitrary epoch); the
  source's ISO date strings compare lexicographically exactly as the day
  indices compare, and `new Date(d).getDay()` becomes `d % 7` (the epoch is
  aligned with a Sunday).
* Clock times are rational minutes from midnight (`timeStringToMinutes` /
  `minutesToTimeString` are the identity under this representation; the source
  stores times as "HH:MM" strings but converts to minute numbers for all
  arithmetic and comparisons).
* Hours are rationals (`ℚ`); JavaScript `Math.floor`/`Math.round` become
  `Int.floor` with the half-up convention `Math.round x = ⌊x + 1/2⌋`.
* The clock (`new Date()`, `getLocalDateString()`) is passed explicitly:
  `today : Nat` is the current day index and `nowAbs : ℚ` the current instant
  in minutes since the epoch (so the instant of midnight of day `d` is
  `d * 1440`).
* In-place mutation of the caller's array (in `lockDay`, `unlockDay`) is made
  explicit by returning the caller's collection after the call alongside the
  source's return value.
-/

namespace Sched

/-- Session status strings `'scheduled'|'completed'|'skipped'|'missed'|'rescheduled'`. -/
inductive SessionStatus where
  | scheduled | completed | skipped | missed | rescheduled
deriving DecidableEq, Repr

/-- A study session (`StudySession` in `types.ts`); only the fields the engine
reads or writes are modelled.  Times are rational minutes from midnight. -/
structure StudySession where
  taskId : Nat
  startTime : ℚ
  endTime : ℚ
  allocatedHours : ℚ
  sessionNumber : Nat
  status : SessionStatus
  done : Bool
  originalDate : Option Nat := none
  originalTime : Option ℚ := none
deriving DecidableEq, Repr

/-- A per-date study plan (`StudyPlan` in `types.ts`). -/
structure StudyPlan where
  date : Nat
  plannedTasks : List StudySession
  totalStudyHours : ℚ
  availableHours : ℚ
  isLocked : Bool
deriving DecidableEq, Repr

/-- Task status; the engine only ever tests `status === 'pending'`. -/
inductive TaskStatus where
  | pending | completed
deriving DecidableEq, Repr

/-- A task (`Task` in `types.ts`); `deadline` is a day index. -/
structure Task where
  id : Nat
  estimatedHours : ℚ
  deadline : Nat
  importance : Bool
  status : TaskStatus
deriving DecidableEq, Repr

/-- The study-plan mode strings `'even'|'balanced'|'eisenhower'`. -/
inductive StudyPlanMode where
  | even | balanced | eisenhower
deriving DecidableEq, Repr

/-- User settings fields read by the engine. -/
structure UserSettings where
  studyPlanMode : StudyPlanMode
  dailyAvailableHours : ℚ
  workDays : List Nat
  bufferDays : Nat
  studyWindowStartHour : Nat
  studyWindowEndHour : Nat
  minSessionLength : Nat
deriving DecidableEq, Repr

/-- A per-date override of a commitment occurrence (`modifiedOccurrences[date]`). -/
structure ModifiedOccurrence where
  date : Nat
  startTime : ℚ
  endTime : ℚ
deriving DecidableEq, Repr

/-- A fixed commitment (`FixedCommitment` in `types.ts`). -/
structure FixedCommitment where
  id : Nat
  startTime : ℚ
  endTime : ℚ
  recurring : Bool
  daysOfWeek : List Nat
  specificDates : List Nat
  deletedOccurrences : List Nat
  modifiedOccurrences : List ModifiedOccurrence
deriving DecidableEq, Repr

/-- Stable insertion: place `a` before the first element `b` with `le a b`.
Used to model `Array.prototype.sort(comparator)`, which is stable; a stable
sort of a total preorder is unique, so insertion sort yields exactly the
source's sort result. -/
def insertSorted (le : α → α → Bool) (a : α) : List α → List α
  | [] => [a]
  | b :: bs => if le a b then a :: b :: bs else b :: insertSorted le a bs

/-- Stable sort by the boolean relation `le` (`le a b` meaning "`a` may come
before `b`"). -/
def stableSort (le : α → α → Bool) (l : List α) : List α :=
  l.foldr (insertSorted le) []

/-- A busy interval in minutes (the `{start, end}` records of the source;
`end` is a Lean keyword, rendered here as `stop`). -/
structure Interval where
  start : ℚ
  stop : ℚ
deriving DecidableEq, Repr

/-- A free time slot (`TimeSlot`): start/end minutes and duration in hours. -/
structure TimeSlot where
  start : ℚ
  stop : ℚ
  duration : ℚ
deriving DecidableEq, Repr

/-- JavaScript `Math.round` (round half toward +∞). -/
def jsRound (x : ℚ) : ℤ := ⌊x + 1/2⌋

/-- `Math.round (x * 100) / 100` — round to two decimal places. -/
def round2 (x : ℚ) : ℚ := (jsRound (x * 100) : ℚ) / 100

/-! ### Distribution strategies (`distributeEvenly`, `distributeFrontLoad`,
`distributeBackLoad`, `calculateDailyHoursDistribution`) -/

/-- The remainder loop of `distributeEvenly`: starting from an array filled
with `baseHours`, add the remainder in increments of at most 0.25h to the
leading days while any remainder is left. -/
def distributeRemainder (baseHours : ℚ) : Nat → ℚ → List ℚ
  | 0, _ => []
  | k + 1, r =>
    if r > 0 then
      let inc := min (1/4) r
      (baseHours + inc) :: distributeRemainder baseHours k (round2 (r - inc))
    else
      baseHours :: distributeRemainder baseHours k r

/-- `distributeEvenly(totalHours, days)`:
`base = Math.floor(totalHours*100/days)/100`, remainder
`Math.round((totalHours - base*days)*100)/100` assigned in 0.25h increments
to leading days. -/
def distributeEvenly (totalHours : ℚ) (days : Nat) : List ℚ :=
  let baseHours : ℚ := (⌊totalHours * 100 / days⌋ : ℚ) / 100
  let remainder := round2 (totalHours - baseHours * days)
  distributeRemainder baseHours days remainder

/-- `Math.ceil(days/3)` for `Nat` days. -/
def firstThirdLen (days : Nat) : Nat := (days + 2) / 3

/-- `Math.ceil(days*2/3)` for `Nat` days. -/
def secondThirdMark (days : Nat) : Nat := (2 * days + 2) / 3

/-- `distributeFrontLoad`: 70% of the hours on the first third of the days,
20% on the second third, 10% on the final third, each third distributed
evenly internally; a third with zero days receives (and drops) nothing. -/
def distributeFrontLoad (totalHours : ℚ) (days : Nat) : List ℚ :=
  let firstThird := firstThirdLen days
  let secondThird := secondThirdMark days
  let d1 := distributeEvenly (totalHours * (7/10)) firstThird
  let d2 := if secondThird - firstThird > 0 then
      distributeEvenly (totalHours * (2/10)) (secondThird - firstThird) else []
  let d3 := if days - secondThird > 0 then
      distributeEvenly (totalHours * (1/10)) (days - secondThird) else []
  d1 ++ d2 ++ d3

/-- `distributeBackLoad`: mirror weights 10%/20%/70%. -/
def distributeBackLoad (totalHours : ℚ) (days : Nat) : List ℚ :=
  let firstThird := firstThirdLen days
  let secondThird := secondThirdMark days
  let d1 := distributeEvenly (totalHours * (1/10)) firstThird
  let d2 := if secondThird - firstThird > 0 then
      distributeEvenly (totalHours * (2/10)) (secondThird - firstThird) else []
  let d3 := if days - secondThird > 0 then
      distributeEvenly (totalHours * (7/10)) (days - secondThird) else []
  d1 ++ d2 ++ d3

/-- The distribution strategy tags `'front-load'|'even'|'back-load'`. -/
inductive Strategy where
  | frontLoad | even | backLoad
deriving DecidableEq, Repr

/-- `calculateDailyHoursDistribution(totalHours, availableDays, strategy)`. -/
def calculateDailyHoursDistribution (totalHours : ℚ) (availableDays : Nat)
    (strategy : Strategy) : List ℚ :=
  if availableDays = 0 then []
  else
    match strategy with
    | .frontLoad => distributeFrontLoad totalHours availableDays
    | .backLoad => distributeBackLoad totalHours availableDays
    | .even => distributeEvenly totalHours availableDays

/-! ### Availability engine (`getDailyAvailableTimeSlots`,
`findNextAvailableTimeSlot`) -/

/-- `settings.minSessionLength || 15` (in JavaScript `0` is falsy). -/
def minSessionLengthEff (settings : UserSettings) : ℚ :=
  ((if settings.minSessionLength = 0 then 15 else settings.minSessionLength : Nat) : ℚ)

/-- The first plan of the collection for a given date (`Array.prototype.find`). -/
def findPlan (date : Nat) (studyPlans : List StudyPlan) : Option StudyPlan :=
  studyPlans.find? (fun p => p.date == date)

/-- Whether the plan found for this date (if any) is locked. -/
def dateIsLocked (date : Nat) (studyPlans : List StudyPlan) : Bool :=
  match findPlan date studyPlans with
  | some p => p.isLocked
  | none => false

/-- Busy intervals contributed by the fixed commitments applicable to a date:
recurring commitments matching the weekday or one-off commitments listing the
date, minus deleted occurrences, with per-date overrides applied. -/
def commitmentIntervals (date : Nat) (fixedCommitments : List FixedCommitment) :
    List Interval :=
  fixedCommitments.filterMap fun c =>
    let shouldInclude :=
      (c.recurring && c.daysOfWeek.contains (date % 7)) ||
      (!c.recurring && c.specificDates.contains date)
    if shouldInclude && !c.deletedOccurrences.contains date then
      match c.modifiedOccurrences.find? (fun m => m.date == date) with
      | some m => some ⟨m.startTime, m.endTime⟩
      | none => some ⟨c.startTime, c.endTime⟩
    else none

/-- Sort intervals by start (stable, like `Array.prototype.sort` with
comparator `a.start - b.start`) and merge overlapping ones, extending the
last merged interval when the next one starts no later than its end. -/
def mergeIntervals (intervals : List Interval) : List Interval :=
  let sorted := stableSort (fun a b => a.start ≤ b.start) intervals
  (sorted.foldl (fun merged i =>
    match merged with
    | [] => [i]
    | last :: rest =>
      if last.stop < i.start then i :: last :: rest
      else { last with stop := max last.stop i.stop } :: rest) []).reverse

/-- Walk the merged busy intervals left to right inside the study window,
collecting each gap of at least the minimum session length as a free slot
(durations in hours). -/
def collectSlots (mergedIntervals : List Interval)
    (windowStart windowStop minSessionLen : ℚ) : List TimeSlot :=
  let step := mergedIntervals.foldl
    (fun (acc : List TimeSlot × ℚ) i =>
      let slots := acc.1
      let currentTime := acc.2
      let slots :=
        if i.start > currentTime then
          let duration := (i.start - currentTime) / 60
          if duration ≥ minSessionLen / 60 then
            slots ++ [⟨currentTime, i.start, duration⟩]
          else slots
        else slots
      (slots, max currentTime i.stop))
    ([], windowStart)
  if step.2 < windowStop then
    let duration := (windowStop - step.2) / 60
    if duration ≥ minSessionLen / 60 then
      step.1 ++ [⟨step.2, windowStop, duration⟩]
    else step.1
  else step.1

/-- `getDailyAvailableTimeSlots(date, studyPlans, settings, fixedCommitments)`:
empty for a locked day; otherwise gaps between the merged busy intervals of
the day's non-skipped sessions and applicable commitments, within the study
window. -/
def getDailyAvailableTimeSlots (date : Nat) (studyPlans : List StudyPlan)
    (settings : UserSettings) (fixedCommitments : List FixedCommitment) :
    List TimeSlot :=
  let dayPlan := findPlan date studyPlans
  match dayPlan with
  | some p =>
    if p.isLocked then []
    else
      let existingSessions := p.plannedTasks.filter (fun s => s.status != .skipped)
      let busy := existingSessions.map (fun s => (⟨s.startTime, s.endTime⟩ : Interval))
        ++ commitmentIntervals date fixedCommitments
      collectSlots (mergeIntervals busy)
        (settings.studyWindowStartHour * 60) (settings.studyWindowEndHour * 60)
        (minSessionLengthEff settings)
  | none =>
      let busy := commitmentIntervals date fixedCommitments
      collectSlots (mergeIntervals busy)
        (settings.studyWindowStartHour * 60) (settings.studyWindowEndHour * 60)
        (minSessionLengthEff settings)

/-- Result record of `findNextAvailableTimeSlot`. -/
structure FoundSlot where
  date : Nat
  startTime : ℚ
  endTime : ℚ
deriving DecidableEq, Repr

/-- `findNextAvailableTimeSlot(requiredHours, startDate, …, maxDaysToSearch)`:
scan forward day by day, skipping non-work weekdays and locked days, and
return the first slot whose duration is at least `requiredHours`, truncated
to exactly `requiredHours` (`addHoursToTime(slot.start, requiredHours)`). -/
def findNextAvailableTimeSlot (requiredHours : ℚ) (startDate : Nat)
    (studyPlans : List StudyPlan) (settings : UserSettings)
    (fixedCommitments : List FixedCommitment)
    (maxDaysToSearch : Nat := 30) : Option FoundSlot :=
  (List.range maxDaysToSearch).findSome? fun dayOffset =>
    let dateString := startDate + dayOffset
    if !settings.workDays.contains (dateString % 7) then none
    else if dateIsLocked dateString studyPlans then none
    else
      (getDailyAvailableTimeSlots dateString studyPlans settings
          fixedCommitments).findSome? fun slot =>
        if slot.duration ≥ requiredHours then
          some ⟨dateString, slot.start, slot.start + requiredHours * 60⟩
        else none

/-! ### Remaining-work accountant (`calculateRemainingTaskHours`,
`isSessionLocked`, `removeUnlockedTaskSessions`) and plan mutation
primitives (`addSessionToPlan`, `getNextSessionNumber`) -/

/-- Sum of `allocatedHours` over the non-skipped sessions of a list — the
recomputation `plan.plannedTasks.filter(s => s.status !== 'skipped')
.reduce((sum, s) => sum + s.allocatedHours, 0)` that the source performs
after each structural mutation. -/
def sessionsTotal (sessions : List StudySession) : ℚ :=
  ((sessions.filter (fun s => s.status != .skipped)).map
    (fun s => s.allocatedHours)).sum

/-- `isSessionLocked(session, studyPlans)`: find the first plan containing a
session with the same `taskId` and `sessionNumber` and report its lock flag. -/
def isSessionLocked (session : StudySession) (studyPlans : List StudyPlan) : Bool :=
  match studyPlans.find? (fun plan => plan.plannedTasks.any fun s =>
      s.taskId == session.taskId && s.sessionNumber == session.sessionNumber) with
  | some plan => plan.isLocked
  | none => false

/-- `calculateRemainingTaskHours(task, studyPlans)`: estimated hours minus the
hours of the task's sessions that are done, completed, skipped, or on a
locked day, floored at zero. -/
def calculateRemainingTaskHours (task : Task) (studyPlans : List StudyPlan) : ℚ :=
  let taskSessions := studyPlans.flatMap
    (fun plan => plan.plannedTasks.filter (fun s => s.taskId == task.id))
  let allocatedHours :=
    ((taskSessions.filter (fun s =>
        s.done || s.status == .completed || s.status == .skipped ||
        isSessionLocked s studyPlans)).map (fun s => s.allocatedHours)).sum
  max 0 (task.estimatedHours - allocatedHours)

/-- The session filter of `removeUnlockedTaskSessions`: a session survives the
purge for `taskId` iff it belongs to another task or is done, completed, or
skipped. -/
def keepSession (taskId : Nat) (s : StudySession) : Bool :=
  s.taskId != taskId || s.done || s.status == .completed || s.status == .skipped

/-- `removeUnlockedTaskSessions(taskId, studyPlans)`: on every unlocked plan,
drop the task's pending sessions and recompute `totalStudyHours`; locked
plans are untouched. -/
def removeUnlockedTaskSessions (taskId : Nat) (studyPlans : List StudyPlan) :
    List StudyPlan :=
  studyPlans.map fun plan =>
    if plan.isLocked then plan
    else
      let kept := plan.plannedTasks.filter (keepSession taskId)
      { plan with plannedTasks := kept, totalStudyHours := sessionsTotal kept }

/-- `getNextSessionNumber(taskId, studyPlans)`: one more than the maximum
`sessionNumber` of the task's sessions across all plans (a `sessionNumber`
of `0` is falsy in `session.taskId === taskId && session.sessionNumber` and
is ignored by the maximum). -/
def getNextSessionNumber (taskId : Nat) (studyPlans : List StudyPlan) : Nat :=
  (studyPlans.foldl (fun m plan =>
    plan.plannedTasks.foldl (fun m s =>
      if s.taskId == taskId && s.sessionNumber != 0 then max m s.sessionNumber
      else m) m) 0) + 1

/-- A fresh plan as created by `addSessionToPlan` when no plan exists for the
date yet. -/
def freshPlan (date : Nat) (settings : UserSettings) : StudyPlan :=
  { date := date, plannedTasks := [], totalStudyHours := 0,
    availableHours := settings.dailyAvailableHours, isLocked := false }

/-- Append a session to a plan and recompute its total. -/
def pushSession (session : StudySession) (plan : StudyPlan) : StudyPlan :=
  let tasks := plan.plannedTasks ++ [session]
  { plan with plannedTasks := tasks, totalStudyHours := sessionsTotal tasks }

/-- `addSessionToPlan(session, date, workingPlans, settings)`: find the first
plan for the date (creating and appending a fresh one if none exists); if
that plan is locked the insertion is rejected (warn, no-op), otherwise the
session is appended and the total recomputed. -/
def addSessionToPlan (session : StudySession) (date : Nat)
    (settings : UserSettings) : List StudyPlan → List StudyPlan
  | [] => [pushSession session (freshPlan date settings)]
  | p :: ps =>
    if p.date == date then
      (if p.isLocked then p else pushSession session p) :: ps
    else p :: addSessionToPlan session date settings ps

/-- `getAvailableDaysForTask(task, workingPlans, settings)`: all work-weekday
dates from today through the task's deadline minus the buffer days whose
plan (if any) is not locked. -/
def getAvailableDaysForTask (task : Task) (workingPlans : List StudyPlan)
    (settings : UserSettings) (today : Nat) : List Nat :=
  let deadline := task.deadline - settings.bufferDays
  ((List.range (deadline + 1 - today)).map (fun i => today + i)).filter fun d =>
    settings.workDays.contains (d % 7) && !dateIsLocked d workingPlans

/-! ### `checkSessionStatus` -/

/-- The return values of `checkSessionStatus`. -/
inductive CheckedStatus where
  | scheduled | overdue | missed | completed
deriving DecidableEq, Repr

/-- The instant (in minutes since the epoch) at which a session on a given
date ends: `new Date(planDate + "T" + session.endTime)`. -/
def sessionEndInstant (planDate : Nat) (session : StudySession) : ℚ :=
  planDate * 1440 + session.endTime

/-- `checkSessionStatus(session, planDate)` with the clock passed explicitly:
done/completed sessions are completed; `status === 'missed'` is missed; a
session on a past day whose end instant has passed is missed; a session today
whose end instant has passed is overdue; otherwise scheduled. -/
def checkSessionStatus (session : StudySession) (planDate today : Nat)
    (nowAbs : ℚ) : CheckedStatus :=
  if session.done || session.status == .completed then .completed
  else if session.status == .missed then .missed
  else if planDate < today && sessionEndInstant planDate session < nowAbs then
    .missed
  else if planDate == today && sessionEndInstant planDate session < nowAbs then
    .overdue
  else .scheduled

/-! ### Plan generation (`generateNewStudyPlan` and its helpers).

A task paired with its ephemeral `remainingHours` field is modelled as
`Task × ℚ`.  The `console.warn` emitted when a strategy allocation finds no
slot on its day is modelled as an explicit list of failed allocations so that
"every per-day allocation found a free window" is statable; the public
`generateNewStudyPlan` projects the plan collection only. -/

/-- A per-day allocation that found no free window (the
`console.warn('Could not find time slot …')` branch). -/
structure FailedAllocation where
  taskId : Nat
  date : Nat
  hours : ℚ
deriving DecidableEq, Repr

/-- Result of scheduling one task (updated plans plus failed allocations). -/
structure ScheduleResult where
  plans : List StudyPlan
  failed : List FailedAllocation
deriving Repr

/-- The day loop of `scheduleTaskWithStrategy`: for each `(day, hours)` pair
with positive hours, search that single day for a slot; on success create a
session with the running session number and append it via `addSessionToPlan`,
on failure record the allocation as failed. -/
def scheduleSessionsOnDays (taskId : Nat) (settings : UserSettings)
    (fixedCommitments : List FixedCommitment) :
    List (Nat × ℚ) → Nat → List StudyPlan → ScheduleResult
  | [], _, plans => ⟨plans, []⟩
  | (dayDate, hoursForDay) :: rest, sessionNumber, plans =>
    if hoursForDay > 0 then
      match findNextAvailableTimeSlot hoursForDay dayDate plans settings
          fixedCommitments 1 with
      | some timeSlot =>
        if timeSlot.date == dayDate then
          let session : StudySession :=
            { taskId := taskId, startTime := timeSlot.startTime,
              endTime := timeSlot.endTime, allocatedHours := hoursForDay,
              sessionNumber := sessionNumber, status := .scheduled,
              done := false }
          scheduleSessionsOnDays taskId settings fixedCommitments rest
            (sessionNumber + 1) (addSessionToPlan session dayDate settings plans)
        else
          let r := scheduleSessionsOnDays taskId settings fixedCommitments rest
            sessionNumber plans
          ⟨r.plans, ⟨taskId, dayDate, hoursForDay⟩ :: r.failed⟩
      | none =>
        let r := scheduleSessionsOnDays taskId settings fixedCommitments rest
          sessionNumber plans
        ⟨r.plans, ⟨taskId, dayDate, hoursForDay⟩ :: r.failed⟩
    else scheduleSessionsOnDays taskId settings fixedCommitments rest
      sessionNumber plans

/-- `scheduleTaskWithStrategy(task, strategy, workingPlans, settings,
fixedCommitments)` for a task with attached `remainingHours`. -/
def scheduleTaskWithStrategy (task : Task × ℚ) (strategy : Strategy)
    (workingPlans : List StudyPlan) (settings : UserSettings)
    (fixedCommitments : List FixedCommitment) (today : Nat) : ScheduleResult :=
  if task.2 ≤ 0 then ⟨workingPlans, []⟩
  else
    let availableDays := getAvailableDaysForTask task.1 workingPlans settings today
    if availableDays.isEmpty then ⟨workingPlans, []⟩
    else
      let dailyHoursDistribution :=
        calculateDailyHoursDistribution task.2 availableDays.length strategy
      scheduleSessionsOnDays task.1.id settings fixedCommitments
        (availableDays.zip dailyHoursDistribution)
        (getNextSessionNumber task.1.id workingPlans) workingPlans

/-- Fold the scheduling of a list of tasks (all with the same strategy),
accumulating failed allocations. -/
def scheduleTasks (tasks : List (Task × ℚ)) (strategyOf : Task × ℚ → Strategy)
    (workingPlans : List StudyPlan) (settings : UserSettings)
    (fixedCommitments : List FixedCommitment) (today : Nat) : ScheduleResult :=
  tasks.foldl (fun acc t =>
    let r := scheduleTaskWithStrategy t (strategyOf t) acc.plans settings
      fixedCommitments today
    ⟨r.plans, acc.failed ++ r.failed⟩) ⟨workingPlans, []⟩

/-- The task comparator of `generateEvenDistributionPlan` (importance
descending, then deadline ascending), as the `le` relation of a stable merge
sort — this matches the stable `Array.prototype.sort`. -/
def evenTaskLE (a b : Task × ℚ) : Bool :=
  if a.1.importance != b.1.importance then a.1.importance
  else a.1.deadline ≤ b.1.deadline

/-- `generateEvenDistributionPlan`: sort by importance then deadline and
schedule every task with the even strategy. -/
def generateEvenDistributionPlan (tasks : List (Task × ℚ))
    (workingPlans : List StudyPlan) (settings : UserSettings)
    (fixedCommitments : List FixedCommitment) (today : Nat) : ScheduleResult :=
  scheduleTasks (stableSort evenTaskLE tasks) (fun _ => .even) workingPlans
    settings fixedCommitments today

/-- `generateBalancedPriorityPlan`: important tasks first, then the rest,
each scheduled with the even strategy. -/
def generateBalancedPriorityPlan (tasks : List (Task × ℚ))
    (workingPlans : List StudyPlan) (settings : UserSettings)
    (fixedCommitments : List FixedCommitment) (today : Nat) : ScheduleResult :=
  scheduleTasks (tasks.filter (fun t => t.1.importance) ++
      tasks.filter (fun t => !t.1.importance))
    (fun _ => .even) workingPlans settings fixedCommitments today

/-- `Math.ceil((deadline.getTime() - now.getTime()) / 86400000)` with the
deadline at midnight of its day index. -/
def daysUntilDeadlineCeil (deadline : Nat) (nowAbs : ℚ) : ℤ :=
  ⌈((deadline : ℚ) * 1440 - nowAbs) / 1440⌉

/-- A task is urgent for the Eisenhower categorization iff its deadline is at
most 3 (ceiled) days away. -/
def isUrgent (t : Task × ℚ) (nowAbs : ℚ) : Bool :=
  daysUntilDeadlineCeil t.1.deadline nowAbs ≤ 3

/-- `categorizeTasksEisenhower` followed by the Q1→Q2→Q3→Q4 concatenation of
`generateEisenhowerPlan`. -/
def eisenhowerOrder (tasks : List (Task × ℚ)) (nowAbs : ℚ) : List (Task × ℚ) :=
  tasks.filter (fun t => t.1.importance && isUrgent t nowAbs) ++
  tasks.filter (fun t => t.1.importance && !isUrgent t nowAbs) ++
  tasks.filter (fun t => !t.1.importance && isUrgent t nowAbs) ++
  tasks.filter (fun t => !t.1.importance && !isUrgent t nowAbs)

/-- `getTaskDistributionStrategy`: front-load for both urgent quadrants, even
for important-not-urgent, back-load for the rest. -/
def getTaskDistributionStrategy (t : Task × ℚ) (nowAbs : ℚ) : Strategy :=
  if t.1.importance && isUrgent t nowAbs then .frontLoad
  else if t.1.importance && !isUrgent t nowAbs then .even
  else if !t.1.importance && isUrgent t nowAbs then .frontLoad
  else .backLoad

/-- `generateEisenhowerPlan`. -/
def generateEisenhowerPlan (tasks : List (Task × ℚ))
    (workingPlans : List StudyPlan) (settings : UserSettings)
    (fixedCommitments : List FixedCommitment) (today : Nat) (nowAbs : ℚ) :
    ScheduleResult :=
  scheduleTasks (eisenhowerOrder tasks nowAbs)
    (fun t => getTaskDistributionStrategy t nowAbs) workingPlans settings
    fixedCommitments today

/-- The pending tasks with positive remaining hours, paired with those hours
(step 2 of `generateNewStudyPlan`). -/
def tasksWithRemainingHours (tasks : List Task) (workingPlans : List StudyPlan) :
    List (Task × ℚ) :=
  ((tasks.filter (fun t => t.status == .pending)).map
    (fun t => (t, calculateRemainingTaskHours t workingPlans))).filter
    (fun t => t.2 > 0)

/-- `generateNewStudyPlan` including the failed-allocation log: deep-copy the
existing plans, compute remaining hours, purge the unlocked sessions of every
task to be scheduled, then dispatch on the study-plan mode. -/
def generateNewStudyPlanFull (tasks : List Task) (settings : UserSettings)
    (fixedCommitments : List FixedCommitment) (existingPlans : List StudyPlan)
    (today : Nat) (nowAbs : ℚ) : ScheduleResult :=
  let workingPlans := existingPlans
  let tasksR := tasksWithRemainingHours tasks workingPlans
  if tasksR.isEmpty then ⟨workingPlans, []⟩
  else
    let workingPlans := tasksR.foldl
      (fun ps t => removeUnlockedTaskSessions t.1.id ps) workingPlans
    match settings.studyPlanMode with
    | .eisenhower =>
        generateEisenhowerPlan tasksR workingPlans settings fixedCommitments
          today nowAbs
    | .balanced =>
        generateBalancedPriorityPlan tasksR workingPlans settings
          fixedCommitments today
    | .even =>
        generateEvenDistributionPlan tasksR workingPlans settings
          fixedCommitments today

/-- `generateNewStudyPlan(tasks, settings, fixedCommitments, existingPlans)`:
the updated plan collection. -/
def generateNewStudyPlan (tasks : List Task) (settings : UserSettings)
    (fixedCommitments : List FixedCommitment) (existingPlans : List StudyPlan)
    (today : Nat) (nowAbs : ℚ) : List StudyPlan :=
  (generateNewStudyPlanFull tasks settings fixedCommitments existingPlans
    today nowAbs).plans

/-! ### Missed-session redistribution
(`redistributeMissedSessionsWithFeedback`) -/

/-- An entry of the `missedSessions` collection. -/
structure MissedEntry where
  session : StudySession
  planDate : Nat
  task : Task
  priority : ℚ
deriving DecidableEq, Repr

/-- The priority computed for a collected missed session: `1000` if the task
is important, then `daysUntilDeadline = Math.max(0, (deadline − now)/day)`
and `+2000` if `daysUntilDeadline < 0` (dead branch: the value was already
clamped to be non-negative) else `+ Math.max(0, 100 − daysUntilDeadline)`. -/
def missedSessionPriority (task : Task) (nowAbs : ℚ) : ℚ :=
  let base : ℚ := if task.importance then 1000 else 0
  let daysUntilDeadline : ℚ := max 0 (((task.deadline : ℚ) * 1440 - nowAbs) / 1440)
  if daysUntilDeadline < 0 then base + 2000
  else base + max 0 (100 - daysUntilDeadline)

/-- Collect the missed sessions to redistribute: from every unlocked plan
dated strictly before today, the sessions whose checked status is missed and
whose status is not skipped, provided their task exists and is pending. -/
def collectMissedSessions (workingPlans : List StudyPlan) (tasks : List Task)
    (today : Nat) (nowAbs : ℚ) : List MissedEntry :=
  workingPlans.flatMap fun plan =>
    if plan.isLocked || plan.date ≥ today then []
    else
      plan.plannedTasks.filterMap fun session =>
        if checkSessionStatus session plan.date today nowAbs == .missed &&
            session.status != .skipped then
          match tasks.find? (fun t => t.id == session.taskId) with
          | some task =>
            if task.status == .pending then
              some ⟨session, plan.date, task, missedSessionPriority task nowAbs⟩
            else none
          | none => none
        else none

/-- Remove the first session matching the given session's `taskId` and
`sessionNumber` from a list (the `findIndex`/`splice` pair of the source);
`none` when no session matches. -/
def spliceSession (session : StudySession) :
    List StudySession → Option (List StudySession)
  | [] => none
  | s :: ss =>
    if s.taskId == session.taskId && s.sessionNumber == session.sessionNumber then
      some ss
    else (spliceSession session ss).map (s :: ·)

/-- Remove a moved session from its origin plan: find the first plan for the
origin date; if it exists and is not locked, splice the session out and
recompute the plan's total. -/
def removeFromOriginPlan (session : StudySession) (planDate : Nat) :
    List StudyPlan → List StudyPlan
  | [] => []
  | p :: ps =>
    if p.date == planDate then
      (if p.isLocked then p
       else
         match spliceSession session p.plannedTasks with
         | some tasks =>
             { p with plannedTasks := tasks, totalStudyHours := sessionsTotal tasks }
         | none => p) :: ps
    else p :: removeFromOriginPlan session planDate ps

/-- The structured feedback details of the redistribution call (the
free-text `issues`/`suggestions` strings are not modelled). -/
structure RedistDetails where
  totalMissed : Nat
  successfullyMoved : Nat
  failedToMove : Nat
  conflictsDetected : Bool
  priorityOrderUsed : Bool
deriving DecidableEq, Repr

/-- The feedback record (`success` flag and details). -/
structure RedistFeedback where
  success : Bool
  details : RedistDetails
deriving DecidableEq, Repr

/-- The full result of `redistributeMissedSessionsWithFeedback`. -/
structure RedistResult where
  updatedPlans : List StudyPlan
  movedSessions : List StudySession
  failedSessions : List StudySession
  feedback : RedistFeedback
deriving Repr

/-- Process the priority-sorted missed sessions: search forward from today
(bounded by the task's buffered deadline) for a slot; on success remove the
original from its unlocked origin plan and append a rescheduled replacement
carrying provenance, on failure record the session as failed. -/
def processMissedSessions (settings : UserSettings)
    (fixedCommitments : List FixedCommitment) (today : Nat) (nowAbs : ℚ) :
    List MissedEntry → List StudyPlan →
    List StudyPlan × List StudySession × List StudySession
  | [], plans => (plans, [], [])
  | e :: rest, plans =>
    match findNextAvailableTimeSlot e.session.allocatedHours today plans settings
        fixedCommitments
        (daysUntilDeadlineCeil (e.task.deadline - settings.bufferDays) nowAbs).toNat with
    | some timeSlot =>
      let newSession : StudySession :=
        { e.session with
          startTime := timeSlot.startTime
          endTime := timeSlot.endTime
          status := .rescheduled
          originalTime := some e.session.startTime
          originalDate := some e.planDate }
      let r := processMissedSessions settings fixedCommitments today nowAbs rest
        (addSessionToPlan newSession timeSlot.date settings
          (removeFromOriginPlan e.session e.planDate plans))
      (r.1, newSession :: r.2.1, r.2.2)
    | none =>
      let r := processMissedSessions settings fixedCommitments today nowAbs rest plans
      (r.1, r.2.1, e.session :: r.2.2)

/-- The descending-priority comparator, as the `le` relation of a stable
merge sort (matching the stable `sort((a, b) => b.priority - a.priority)`). -/
def priorityDescLE (a b : MissedEntry) : Bool := b.priority ≤ a.priority

/-- `redistributeMissedSessionsWithFeedback(studyPlans, settings,
fixedCommitments, tasks)` with the clock passed explicitly. -/
def redistributeMissedSessionsWithFeedback (studyPlans : List StudyPlan)
    (settings : UserSettings) (fixedCommitments : List FixedCommitment)
    (tasks : List Task) (today : Nat) (nowAbs : ℚ) : RedistResult :=
  let workingPlans := studyPlans
  let missedSessions := collectMissedSessions workingPlans tasks today nowAbs
  if missedSessions.isEmpty then
    { updatedPlans := workingPlans
      movedSessions := []
      failedSessions := []
      feedback :=
        { success := true
          details :=
            { totalMissed := 0
              successfullyMoved := 0
              failedToMove := 0
              conflictsDetected := false
              priorityOrderUsed := false } } }
  else
    let sorted := stableSort priorityDescLE missedSessions
    let r := processMissedSessions settings fixedCommitments today nowAbs sorted
      workingPlans
    let movedSessions := r.2.1
    let failedSessions := r.2.2
    { updatedPlans := r.1
      movedSessions := movedSessions
      failedSessions := failedSessions
      feedback :=
        { success := decide (movedSessions.length > 0)
          details :=
            { totalMissed := missedSessions.length
              successfullyMoved := movedSessions.length
              failedToMove := failedSessions.length
              conflictsDetected := decide (failedSessions.length > 0)
              priorityOrderUsed := true } } }

/-! ### Locked-day integrity validator (`validateLockedDaysIntegrity`) -/

/-- The violation messages, as tags carrying the offending date. -/
inductive Violation where
  | removed (date : Nat)
  | lostLock (date : Nat)
  | countChanged (date : Nat)
  | sessionModified (date : Nat)
deriving DecidableEq, Repr

/-- The violations contributed by one originally locked plan. -/
def planViolations (originalPlan : StudyPlan) (updatedPlans : List StudyPlan) :
    List Violation :=
  match findPlan originalPlan.date updatedPlans with
  | none => [.removed originalPlan.date]
  | some updatedPlan =>
    (if !updatedPlan.isLocked then [.lostLock originalPlan.date] else []) ++
    (if originalPlan.plannedTasks.length != updatedPlan.plannedTasks.length then
      [.countChanged originalPlan.date] else []) ++
    (originalPlan.plannedTasks.enum.filterMap fun ie =>
      match updatedPlan.plannedTasks[ie.1]? with
      | none => some (.sessionModified originalPlan.date)
      | some us =>
        if ie.2.startTime != us.startTime || ie.2.endTime != us.endTime ||
            ie.2.allocatedHours != us.allocatedHours then
          some (.sessionModified originalPlan.date)
        else none)

/-- `validateLockedDaysIntegrity(originalPlans, updatedPlans)`: the flat list
of violations over all originally locked plans, with `isValid` iff empty. -/
def validateLockedDaysIntegrity (originalPlans updatedPlans : List StudyPlan) :
    Bool × List Violation :=
  let violations := originalPlans.flatMap fun op =>
    if op.isLocked then planViolations op updatedPlans else []
  (violations.isEmpty, violations)

/-! ### Lock governance (`canLockDay`, `lockDay`, `unlockDay`).

`lockDay` and `unlockDay` mutate the caller's array in place and return a
boolean; they are modelled as returning the boolean together with the
caller's collection after the call. -/

/-- Result of `canLockDay` (the human-readable `reason` string is not
modelled; `pendingSessions` is reported only in the failure case, as in the
source). -/
structure CanLockResult where
  canLock : Bool
  pendingSessions : Option Nat
deriving DecidableEq, Repr

/-- The sessions that block locking a day: neither done, nor completed,
skipped or missed. -/
def pendingForLock (plan : StudyPlan) : List StudySession :=
  plan.plannedTasks.filter fun s =>
    !s.done && s.status != .completed && s.status != .skipped &&
    s.status != .missed

/-- `canLockDay(date, studyPlans)`: a date with no plan is lockable; a date
whose plan has pending sessions is not, with their count reported. -/
def canLockDay (date : Nat) (studyPlans : List StudyPlan) : CanLockResult :=
  match findPlan date studyPlans with
  | none => ⟨true, none⟩
  | some plan =>
    let pending := pendingForLock plan
    if pending.length > 0 then ⟨false, some pending.length⟩
    else ⟨true, none⟩

/-- Set `isLocked := true` on the first plan matching the date (the
`plan.isLocked = true` write on the plan found by `find`). -/
def setLockedOnDate (date : Nat) : List StudyPlan → List StudyPlan
  | [] => []
  | p :: ps =>
    if p.date == date then { p with isLocked := true } :: ps
    else p :: setLockedOnDate date ps

/-- `lockDay(date, studyPlans)`: refuse when `canLockDay` fails; otherwise
flip the flag on the existing plan, or push a fresh empty locked plan with
`availableHours = 0`.  Returns the source's boolean and the caller's
collection after the in-place mutation. -/
def lockDay (date : Nat) (studyPlans : List StudyPlan) :
    Bool × List StudyPlan :=
  if !(canLockDay date studyPlans).canLock then (false, studyPlans)
  else
    match findPlan date studyPlans with
    | none =>
      (true, studyPlans ++
        [{ date := date, plannedTasks := [], totalStudyHours := 0,
           availableHours := 0, isLocked := true }])
    | some _ => (true, setLockedOnDate date studyPlans)

/-- Unlock the first plan matching the date and reset its capacity to the
settings default. -/
def setUnlockedOnDate (date : Nat) (settings : UserSettings) :
    List StudyPlan → List StudyPlan
  | [] => []
  | p :: ps =>
    if p.date == date then
      { p with
        isLocked := false
        availableHours := settings.dailyAvailableHours } :: ps
    else p :: setUnlockedOnDate date settings ps

/-- `unlockDay(date, studyPlans, settings)`: `false` (no mutation) when no
plan exists for the date. -/
def unlockDay (date : Nat) (studyPlans : List StudyPlan)
    (settings : UserSettings) : Bool × List StudyPlan :=
  match findPlan date studyPlans with
  | none => (false, studyPlans)
  | some _ => (true, setUnlockedOnDate date settings studyPlans)

/-! ### Session merging (`combineSessionsOnSameDay`).

The source shallow-copies the array (`[...studyPlans]`) and then mutates the
shared plan objects in place, so the returned list is also the content of the
caller's collection after the call. -/

/-- A session is eligible for combination iff it is not skipped, not done and
not completed. -/
def combinable (s : StudySession) : Bool :=
  s.status != .skipped && !s.done && s.status != .completed

/-- Deduplicate, keeping first occurrences (the key order of the
`taskGroups` object, whose string keys iterate in insertion order). -/
def dedupFirst : List Nat → List Nat
  | [] => []
  | a :: as => a :: dedupFirst (as.filter (fun b => b != a))
termination_by l => l.length
decreasing_by
  exact Nat.lt_succ_of_le (List.length_filter_le _ _)

/-- Group the eligible sessions of a plan by task, in first-seen key order. -/
def sessionGroups (sessions : List StudySession) :
    List (Nat × List StudySession) :=
  let eligible := sessions.filter combinable
  (dedupFirst (eligible.map (fun s => s.taskId))).map fun taskId =>
    (taskId, eligible.filter (fun s => s.taskId == taskId))

/-- `session.sessionNumber || 1` (`0` is falsy). -/
def sessionNumberOr1 (s : StudySession) : Nat :=
  if s.sessionNumber = 0 then 1 else s.sessionNumber

/-- Minimum of a list of session numbers (`Math.min(...)`; the group always
has at least two elements when used). -/
def minSessionNumber : List Nat → Nat
  | [] => 1
  | n :: ns => ns.foldl min n

/-- Combine one task's group of sessions inside a plan's task list: sort the
group by start time, and if the summed hours fit between the minimum session
length and `min(4, dailyAvailableHours)`, drop the group's sessions from the
list and append one merged session starting at the earliest start. -/
def combineGroup (settings : UserSettings) (tasks : List StudySession)
    (group : Nat × List StudySession) : List StudySession :=
  if group.2.length > 1 then
    let sorted := stableSort (fun a b => a.startTime ≤ b.startTime) group.2
    let totalHours := (group.2.map (fun s => s.allocatedHours)).sum
    let maxSessionLength := min 4 settings.dailyAvailableHours
    let minSessionLength := minSessionLengthEff settings / 60
    if minSessionLength ≤ totalHours && totalHours ≤ maxSessionLength then
      match sorted with
      | [] => tasks
      | first :: _ =>
        let combinedSession : StudySession :=
          { first with
            endTime := first.startTime + totalHours * 60
            allocatedHours := totalHours
            sessionNumber := minSessionNumber (group.2.map sessionNumberOr1) }
        (tasks.filter (keepSession group.1)) ++ [combinedSession]
    else tasks
  else tasks

/-- Combine the same-task sessions of one plan and recompute its total;
locked plans are untouched. -/
def combinePlan (settings : UserSettings) (plan : StudyPlan) : StudyPlan :=
  if plan.isLocked then plan
  else
    let finalTasks := (sessionGroups plan.plannedTasks).foldl
      (combineGroup settings) plan.plannedTasks
    { plan with
      plannedTasks := finalTasks
      totalStudyHours := sessionsTotal finalTasks }

/-- `combineSessionsOnSameDay(studyPlans, settings)`. -/
def combineSessionsOnSameDay (studyPlans : List StudyPlan)
    (settings : UserSettings) : List StudyPlan :=
  studyPlans.map (combinePlan settings)

/-! ### Lock-induced eviction (`redistributeFromLockedDays`,
`findBestRedistributionSlot`, and its local `findAvailableTimeSlot`) -/

/-- The local `findAvailableTimeSlot` helper of the lock-day manager: sort the
busy intervals of the given sessions (all of them, skipped included) and the
applicable commitments, then find the first gap of at least
`Math.ceil(requiredHours * 60)` minutes inside the study window. -/
def findAvailableTimeSlot (requiredHours : ℚ)
    (existingSessions : List StudySession)
    (fixedCommitments : List FixedCommitment) (settings : UserSettings)
    (date : Nat) : Option (ℚ × ℚ) :=
  let busyIntervals :=
    existingSessions.map (fun s => (⟨s.startTime, s.endTime⟩ : Interval)) ++
    commitmentIntervals date fixedCommitments
  let sorted := stableSort (fun a b => a.start ≤ b.start) busyIntervals
  let requiredMinutes : ℚ := (⌈requiredHours * 60⌉ : ℚ)
  let endOfDay : ℚ := settings.studyWindowEndHour * 60
  let walk := sorted.foldl
    (fun (acc : Option (ℚ × ℚ) × ℚ) i =>
      match acc.1 with
      | some _ => acc
      | none =>
        if i.start - acc.2 ≥ requiredMinutes then
          (some (acc.2, acc.2 + requiredMinutes), acc.2)
        else (none, max acc.2 i.stop))
    (none, (settings.studyWindowStartHour * 60 : ℚ))
  match walk.1 with
  | some slot => some slot
  | none =>
    if endOfDay - walk.2 ≥ requiredMinutes then
      some (walk.2, walk.2 + requiredMinutes)
    else none

/-- `findBestRedistributionSlot(session, task, studyPlans, settings,
fixedCommitments, originalDate)`: scan up to 14 days from today, stopping at
the buffered deadline, skipping non-work days, locked days, the origin date,
and days without spare capacity (`currentLoad + sessionHours ≤
dailyAvailableHours` over all sessions), and return the first day with a
fitting gap. -/
def findBestRedistributionSlotGo (session : StudySession) (deadline : Nat)
    (studyPlans : List StudyPlan) (settings : UserSettings)
    (fixedCommitments : List FixedCommitment) (originalDate today : Nat) :
    Nat → Nat → Option (Nat × ℚ × ℚ)
  | _, 0 => none
  | dayOffset, fuel + 1 =>
    let targetDate := today + dayOffset
    if targetDate > deadline then none
    else if !settings.workDays.contains (targetDate % 7) then
      findBestRedistributionSlotGo session deadline studyPlans settings
        fixedCommitments originalDate today (dayOffset + 1) fuel
    else if dateIsLocked targetDate studyPlans then
      findBestRedistributionSlotGo session deadline studyPlans settings
        fixedCommitments originalDate today (dayOffset + 1) fuel
    else if targetDate == originalDate then
      findBestRedistributionSlotGo session deadline studyPlans settings
        fixedCommitments originalDate today (dayOffset + 1) fuel
    else
      let existingSessions := match findPlan targetDate studyPlans with
        | some p => p.plannedTasks
        | none => []
      let currentLoad := (existingSessions.map (fun s => s.allocatedHours)).sum
      if currentLoad + session.allocatedHours > settings.dailyAvailableHours then
        findBestRedistributionSlotGo session deadline studyPlans settings
          fixedCommitments originalDate today (dayOffset + 1) fuel
      else
        match findAvailableTimeSlot session.allocatedHours existingSessions
            fixedCommitments settings targetDate with
        | some slot => some (targetDate, slot.1, slot.2)
        | none =>
          findBestRedistributionSlotGo session deadline studyPlans settings
            fixedCommitments originalDate today (dayOffset + 1) fuel

/-- `findBestRedistributionSlot` proper (14-day horizon). -/
def findBestRedistributionSlot (session : StudySession) (task : Task)
    (studyPlans : List StudyPlan) (settings : UserSettings)
    (fixedCommitments : List FixedCommitment) (originalDate today : Nat) :
    Option (Nat × ℚ × ℚ) :=
  findBestRedistributionSlotGo session (task.deadline - settings.bufferDays)
    studyPlans settings fixedCommitments originalDate today 0 14

/-- The eviction priority of a session on a locked day: importance `+1000`;
deadline within 1/3/7 (fractional) days adds `500`/`300`/`200`. -/
def lockedEvictionPriority (task : Task) (nowAbs : ℚ) : ℚ :=
  let base : ℚ := if task.importance then 1000 else 0
  let daysUntilDeadline : ℚ := ((task.deadline : ℚ) * 1440 - nowAbs) / 1440
  if daysUntilDeadline ≤ 1 then base + 500
  else if daysUntilDeadline ≤ 3 then base + 300
  else if daysUntilDeadline ≤ 7 then base + 200
  else base

/-- An entry of the locked-day eviction worklist. -/
structure LockedEntry where
  session : StudySession
  originalDate : Nat
  task : Task
  priority : ℚ
deriving DecidableEq, Repr

/-- Collect every session on a locked, non-empty plan whose task is still
pending, with its eviction priority. -/
def collectLockedDaysSessions (modifiedPlans : List StudyPlan)
    (tasks : List Task) (nowAbs : ℚ) : List LockedEntry :=
  modifiedPlans.flatMap fun plan =>
    if plan.isLocked && !plan.plannedTasks.isEmpty then
      plan.plannedTasks.filterMap fun session =>
        match tasks.find? (fun t => t.id == session.taskId) with
        | some task =>
          if task.status == .pending then
            some ⟨session, plan.date, task, lockedEvictionPriority task nowAbs⟩
          else none
        | none => none
    else []

/-- Remove an evicted session from its origin plan: splice the first
`(taskId, sessionNumber)` match out of the first plan for the origin date and
decrement that plan's running total by the session's hours (no recompute, no
lock guard — this path intentionally edits a locked plan). -/
def evictFromOriginPlan (session : StudySession) (originalDate : Nat) :
    List StudyPlan → List StudyPlan
  | [] => []
  | p :: ps =>
    if p.date == originalDate then
      (match spliceSession session p.plannedTasks with
       | some tasks =>
         { p with
           plannedTasks := tasks
           totalStudyHours := p.totalStudyHours - session.allocatedHours }
       | none => p) :: ps
    else p :: evictFromOriginPlan session originalDate ps

/-- Append a redistributed session to the target plan (creating it with the
settings' default capacity and no lock flag if absent), incrementing the
running total rather than recomputing it. -/
def appendToTargetPlan (session : StudySession) (targetDate : Nat)
    (settings : UserSettings) : List StudyPlan → List StudyPlan
  | [] =>
    [{ date := targetDate, plannedTasks := [session],
       totalStudyHours := 0 + session.allocatedHours,
       availableHours := settings.dailyAvailableHours, isLocked := false }]
  | p :: ps =>
    if p.date == targetDate then
      { p with
        plannedTasks := p.plannedTasks ++ [session]
        totalStudyHours := p.totalStudyHours + session.allocatedHours } :: ps
    else p :: appendToTargetPlan session targetDate settings ps

/-- The comparator of the eviction worklist sort (descending priority). -/
def lockedPriorityDescLE (a b : LockedEntry) : Bool := b.priority ≤ a.priority

/-- Result of `redistributeFromLockedDays` (failure reasons are not
modelled). -/
structure LockedRedistResult where
  success : Bool
  redistributedSessions : List StudySession
  failedSessions : List StudySession
  modifiedPlans : List StudyPlan
deriving Repr

/-- Process the priority-sorted eviction worklist. -/
def processLockedEntries (settings : UserSettings)
    (fixedCommitments : List FixedCommitment) (today : Nat) :
    List LockedEntry → List StudyPlan →
    List StudyPlan × List StudySession × List StudySession
  | [], plans => (plans, [], [])
  | e :: rest, plans =>
    match findBestRedistributionSlot e.session e.task plans settings
        fixedCommitments e.originalDate today with
    | some slot =>
      let plans := evictFromOriginPlan e.session e.originalDate plans
      let redistributedSession : StudySession :=
        { e.session with
          startTime := slot.2.1
          endTime := slot.2.2
          originalDate := some e.originalDate
          originalTime := some e.session.startTime
          status := .rescheduled }
      let plans := appendToTargetPlan redistributedSession slot.1 settings plans
      let r := processLockedEntries settings fixedCommitments today rest plans
      (r.1, redistributedSession :: r.2.1, r.2.2)
    | none =>
      let r := processLockedEntries settings fixedCommitments today rest plans
      (r.1, r.2.1, e.session :: r.2.2)

/-- `redistributeFromLockedDays(studyPlans, tasks, settings,
fixedCommitments)` with the clock passed explicitly. -/
def redistributeFromLockedDays (studyPlans : List StudyPlan)
    (tasks : List Task) (settings : UserSettings)
    (fixedCommitments : List FixedCommitment) (today : Nat) (nowAbs : ℚ) :
    LockedRedistResult :=
  let modifiedPlans := studyPlans
  let lockedDaysSessions := collectLockedDaysSessions modifiedPlans tasks nowAbs
  let sorted := stableSort lockedPriorityDescLE lockedDaysSessions
  let r := processLockedEntries settings fixedCommitments today sorted
    modifiedPlans
  { success := decide (r.2.1.length > 0)
    redistributedSessions := r.2.1
    failedSessions := r.2.2
    modifiedPlans := r.1 }

/-! ## Lemmas about the distribution strategies -/

/-- A rational that is a whole number of cents (two decimal places). -/
def Cent (x : ℚ) : Prop := ∃ k : ℤ, x = (k : ℚ) / 100

theorem cent_round2 (x : ℚ) : Cent (round2 x) := ⟨jsRound (x * 100), rfl⟩

theorem round2_eq_self {x : ℚ} (hx : Cent x) : round2 x = x := by
  obtain ⟨k, rfl⟩ := hx
  unfold round2 jsRound
  have h100 : ((k : ℚ) / 100) * 100 = (k : ℚ) := by field_simp
  rw [h100]
  have : ⌊(k : ℚ) + 1/2⌋ = k := by
    rw [Int.floor_eq_iff]
    constructor
    · linarith
    · linarith
  rw [this]

theorem round2_sub_le (x : ℚ) : |round2 x - x| ≤ 1/200 := by
  unfold round2 jsRound
  have h1 : (x * 100 + 1/2) - 1 < (⌊x * 100 + 1/2⌋ : ℚ) := Int.sub_one_lt_floor _
  have h2 : (⌊x * 100 + 1/2⌋ : ℚ) ≤ x * 100 + 1/2 := Int.floor_le _
  rw [abs_le]
  constructor <;> [nlinarith; nlinarith]

theorem round2_nonneg {x : ℚ} (hx : 0 ≤ x) : 0 ≤ round2 x := by
  unfold round2 jsRound
  have : (0 : ℤ) ≤ ⌊x * 100 + 1/2⌋ := by
    apply Int.floor_nonneg.mpr; nlinarith
  positivity

theorem cent_sub_inc {r : ℚ} (hr : Cent r) : Cent (r - min (1/4) r) := by
  rcases le_total ((1:ℚ)/4) r with h | h
  · rw [min_eq_left h]
    obtain ⟨k, rfl⟩ := hr
    exact ⟨k - 25, by push_cast; ring⟩
  · rw [min_eq_right h]; exact ⟨0, by norm_num⟩

theorem distributeRemainder_length (b : ℚ) (n : Nat) (r : ℚ) :
    (distributeRemainder b n r).length = n := by
  induction n generalizing r with
  | zero => rfl
  | succ k ih =>
    unfold distributeRemainder
    split <;> simp [ih]

theorem distributeRemainder_sum (b : ℚ) (n : Nat) (r : ℚ)
    (h0 : 0 ≤ r) (hc : Cent r) (hn : r ≤ n / 4) :
    (distributeRemainder b n r).sum = n * b + r := by
  induction n generalizing r with
  | zero =>
    have : r = 0 := le_antisymm (by simpa using hn) h0
    simp [distributeRemainder, this]
  | succ k ih =>
    unfold distributeRemainder
    by_cases hr : r > 0
    · simp only [if_pos hr, List.sum_cons]
      have hinc0 : 0 ≤ min (1/4) r := le_min (by norm_num) h0
      have hincr : min (1/4) r ≤ r := min_le_right _ _
      have hc2 : Cent (r - min (1/4) r) := cent_sub_inc hc
      have heq : round2 (r - min (1/4) r) = r - min (1/4) r := round2_eq_self hc2
      rw [heq, ih (r - min (1/4) r) (by linarith) hc2 ?bound]
      case bound =>
        rcases le_total ((1:ℚ)/4) r with h | h
        · rw [min_eq_left h]
          push_cast at hn
          linarith
        · rw [min_eq_right h]
          simp only [sub_self]
          positivity
      push_cast; ring
    · simp only [if_neg hr, List.sum_cons]
      have hr0 : r = 0 := le_antisymm (le_of_not_lt hr) h0
      rw [ih r h0 hc (by rw [hr0]; positivity)]
      push_cast; ring

theorem distributeRemainder_nonneg (b : ℚ) (n : Nat) (r : ℚ)
    (hb : 0 ≤ b) (h0 : 0 ≤ r) :
    ∀ x ∈ distributeRemainder b n r, 0 ≤ x := by
  induction n generalizing r with
  | zero => simp [distributeRemainder]
  | succ k ih =>
    unfold distributeRemainder
    by_cases hr : r > 0
    · simp only [if_pos hr, List.mem_cons]
      rintro x (rfl | hx)
      · have : 0 ≤ min (1/4) r := le_min (by norm_num) h0
        linarith
      · exact ih _ (round2_nonneg (by
          have := min_le_right ((1:ℚ)/4) r; linarith)) x hx
    · simp only [if_neg hr, List.mem_cons]
      rintro x (rfl | hx)
      · exact hb
      · exact ih r h0 x hx

/-- The base of `distributeEvenly`. -/
theorem distributeEvenly_eq (H : ℚ) (n : Nat) :
    distributeEvenly H n =
      distributeRemainder ((⌊H * 100 / n⌋ : ℚ) / 100) n
        (round2 (H - (⌊H * 100 / n⌋ : ℚ) / 100 * n)) := rfl

theorem distributeEvenly_length (H : ℚ) (n : Nat) :
    (distributeEvenly H n).length = n := distributeRemainder_length _ _ _

theorem evenBase_nonneg {H : ℚ} (n : Nat) (hH : 0 ≤ H) :
    (0 : ℚ) ≤ (⌊H * 100 / n⌋ : ℚ) / 100 := by
  have : (0 : ℤ) ≤ ⌊H * 100 / (n : ℚ)⌋ := Int.floor_nonneg.mpr (by positivity)
  positivity

/-- The pre-rounding remainder `H - base * n` lies in `[0, n/100)`. -/
theorem evenRemainder_range {H : ℚ} {n : Nat} (_hH : 0 ≤ H) (hn : 1 ≤ n) :
    0 ≤ H - (⌊H * 100 / n⌋ : ℚ) / 100 * n ∧
    H - (⌊H * 100 / n⌋ : ℚ) / 100 * n < n / 100 := by
  have hnQ : (0 : ℚ) < n := by exact_mod_cast hn
  have h1 : (⌊H * 100 / n⌋ : ℚ) ≤ H * 100 / n := Int.floor_le _
  have h2 : H * 100 / n - 1 < (⌊H * 100 / n⌋ : ℚ) := Int.sub_one_lt_floor _
  constructor
  · have : (⌊H * 100 / n⌋ : ℚ) * n ≤ H * 100 := by
      calc (⌊H * 100 / n⌋ : ℚ) * n ≤ (H * 100 / n) * n := by
            exact mul_le_mul_of_nonneg_right h1 (le_of_lt hnQ)
        _ = H * 100 := by field_simp
    nlinarith
  · have : H * 100 - n < (⌊H * 100 / n⌋ : ℚ) * n := by
      have := mul_lt_mul_of_pos_right h2 hnQ
      calc H * 100 - n = (H * 100 / n - 1) * n := by field_simp
        _ < (⌊H * 100 / n⌋ : ℚ) * n := this
    nlinarith

theorem distributeEvenly_sum {H : ℚ} {n : Nat} (hH : 0 ≤ H) (hn : 1 ≤ n) :
    |(distributeEvenly H n).sum - H| ≤ 1/200 := by
  have hnQ : (1 : ℚ) ≤ n := by exact_mod_cast hn
  obtain ⟨hr0, hr1⟩ := evenRemainder_range hH hn
  set y := H - (⌊H * 100 / n⌋ : ℚ) / 100 * n with hy
  have hsum : (distributeEvenly H n).sum =
      n * ((⌊H * 100 / n⌋ : ℚ) / 100) + round2 y := by
    rw [distributeEvenly_eq]
    apply distributeRemainder_sum _ _ _ (round2_nonneg hr0) (cent_round2 _)
    have hjs : |round2 y - y| ≤ 1/200 := round2_sub_le y
    rw [abs_le] at hjs
    have : round2 y ≤ y + 1/200 := by linarith [hjs.2]
    have hnn : y + 1/200 ≤ n / 100 + 1/200 := by linarith
    have : round2 y < n / 100 + 1/100 := by linarith
    nlinarith
  rw [hsum]
  have hformula : n * ((⌊H * 100 / n⌋ : ℚ) / 100) + round2 y - H
      = round2 y - y := by rw [hy]; ring
  rw [hformula]
  exact round2_sub_le y

theorem distributeEvenly_nonneg {H : ℚ} (n : Nat) (hH : 0 ≤ H) :
    ∀ x ∈ distributeEvenly H n, 0 ≤ x := by
  rcases Nat.eq_zero_or_pos n with rfl | hn
  · simp [distributeEvenly, distributeRemainder]
  · rw [distributeEvenly_eq]
    exact distributeRemainder_nonneg _ _ _ (evenBase_nonneg n hH)
      (round2_nonneg (evenRemainder_range hH hn).1)

theorem thirds_le (n : Nat) : firstThirdLen n ≤ secondThirdMark n ∧
    secondThirdMark n ≤ n ∨ n = 0 := by
  rcases Nat.eq_zero_or_pos n with rfl | hn
  · right; rfl
  · left; unfold firstThirdLen secondThirdMark; omega

theorem distributeFrontLoad_length (H : ℚ) {n : Nat} (hn : 1 ≤ n) :
    (distributeFrontLoad H n).length = n := by
  unfold distributeFrontLoad
  have h := thirds_le n
  rcases h with ⟨h1, h2⟩ | rfl
  · simp only [List.length_append, distributeEvenly_length]
    split <;> split <;>
      simp only [distributeEvenly_length, List.length_nil] <;> omega
  · omega

theorem distributeBackLoad_length (H : ℚ) {n : Nat} (hn : 1 ≤ n) :
    (distributeBackLoad H n).length = n := by
  unfold distributeBackLoad
  have h := thirds_le n
  rcases h with ⟨h1, h2⟩ | rfl
  · simp only [List.length_append, distributeEvenly_length]
    split <;> split <;>
      simp only [distributeEvenly_length, List.length_nil] <;> omega
  · omega

theorem distributeFrontLoad_nonneg {H : ℚ} (n : Nat) (hH : 0 ≤ H) :
    ∀ x ∈ distributeFrontLoad H n, 0 ≤ x := by
  unfold distributeFrontLoad
  intro x hx
  simp only [List.mem_append] at hx
  rcases hx with (hx | hx) | hx
  · exact distributeEvenly_nonneg _ (by positivity) x hx
  · split at hx
    · exact distributeEvenly_nonneg _ (by positivity) x hx
    · simp at hx
  · split at hx
    · exact distributeEvenly_nonneg _ (by positivity) x hx
    · simp at hx

theorem distributeBackLoad_nonneg {H : ℚ} (n : Nat) (hH : 0 ≤ H) :
    ∀ x ∈ distributeBackLoad H n, 0 ≤ x := by
  unfold distributeBackLoad
  intro x hx
  simp only [List.mem_append] at hx
  rcases hx with (hx | hx) | hx
  · exact distributeEvenly_nonneg _ (by positivity) x hx
  · split at hx
    · exact distributeEvenly_nonneg _ (by positivity) x hx
    · simp at hx
  · split at hx
    · exact distributeEvenly_nonneg _ (by positivity) x hx
    · simp at hx

theorem calculateDailyHoursDistribution_length (H : ℚ) {n : Nat}
    (strategy : Strategy) (hn : 1 ≤ n) :
    (calculateDailyHoursDistribution H n strategy).length = n := by
  unfold calculateDailyHoursDistribution
  rw [if_neg (by omega)]
  cases strategy with
  | frontLoad => exact distributeFrontLoad_length H hn
  | backLoad => exact distributeBackLoad_length H hn
  | even => exact distributeEvenly_length H n

theorem calculateDailyHoursDistribution_nonneg {H : ℚ} (n : Nat)
    (strategy : Strategy) (hH : 0 ≤ H) :
    ∀ x ∈ calculateDailyHoursDistribution H n strategy, 0 ≤ x := by
  unfold calculateDailyHoursDistribution
  split
  · simp
  · cases strategy with
    | frontLoad => exact distributeFrontLoad_nonneg n hH
    | backLoad => exact distributeBackLoad_nonneg n hH
    | even => exact distributeEvenly_nonneg n hH

/-- C3 counterexample: `calculateDailyHoursDistribution(1, 1, 'front-load')`
returns `[0.7]` — with a single available day the second and third thirds of
the day range are empty, so 30% of the hours are dropped and the entries sum
to 0.7 instead of 1, off by far more than the claimed 0.01 tolerance. -/
theorem C3_counterexample_frontLoad_drops_hours :
    calculateDailyHoursDistribution 1 1 .frontLoad = [7/10] ∧
    ¬ |(calculateDailyHoursDistribution 1 1 .frontLoad).sum - 1| ≤ (1/100 : ℚ) := by
  have h : calculateDailyHoursDistribution 1 1 .frontLoad = [7/10] := by
    norm_num [calculateDailyHoursDistribution, distributeFrontLoad, firstThirdLen,
      secondThirdMark, distributeEvenly, distributeRemainder, round2, jsRound]
  refine ⟨h, ?_⟩
  rw [h]
  intro hc
  rw [abs_le] at hc
  have h1 := hc.1
  norm_num at h1

/-- C3 (amended): for every `totalHours ≥ 0` and `dayCount ≥ 1` and each
strategy, `calculateDailyHoursDistribution` returns a vector of length
`dayCount` with no negative entries; for the `even` strategy the entries
additionally sum to `totalHours` within the 0.01-hour tolerance.  (For
front-load/back-load the sum property fails: the share of an empty third of
the day range is dropped.) -/
theorem C3_distribution_amended (H : ℚ) (n : Nat) (strategy : Strategy)
    (hH : 0 ≤ H) (hn : 1 ≤ n) :
    (calculateDailyHoursDistribution H n strategy).length = n ∧
    (∀ x ∈ calculateDailyHoursDistribution H n strategy, 0 ≤ x) ∧
    |(calculateDailyHoursDistribution H n .even).sum - H| ≤ 1/100 := by
  refine ⟨calculateDailyHoursDistribution_length H strategy hn,
    calculateDailyHoursDistribution_nonneg n strategy hH, ?_⟩
  have h := distributeEvenly_sum hH hn
  unfold calculateDailyHoursDistribution
  rw [if_neg (by omega)]
  calc |(distributeEvenly H n).sum - H| ≤ 1/200 := h
    _ ≤ 1/100 := by norm_num

/-- Witness for the amended C3 theorem at `totalHours = 3`, `dayCount = 2`,
even strategy. -/
theorem C3_distribution_amended_witness :
    (calculateDailyHoursDistribution 3 2 .even).length = 2 ∧
    (∀ x ∈ calculateDailyHoursDistribution 3 2 .even, 0 ≤ x) ∧
    |(calculateDailyHoursDistribution 3 2 .even).sum - 3| ≤ 1/100 :=
  C3_distribution_amended 3 2 .even (by norm_num) (by norm_num)

/-! ## C9: `canLockDay` -/

/-- The number of lock-blocking sessions on a date: zero when no plan exists,
otherwise the count of sessions that are neither done nor of status
completed/skipped/missed. -/
def pendingLockCount (date : Nat) (studyPlans : List StudyPlan) : Nat :=
  match findPlan date studyPlans with
  | none => 0
  | some plan => (pendingForLock plan).length

/-- C9 (confirmed): `canLockDay(date, plans)` returns `canLock = true` iff the
plan for that date (a date with no plan is always lockable) has zero sessions
that are neither done nor completed/skipped/missed, and in the failure case
it reports exactly the count of those pending sessions. -/
theorem C9_canLockDay_pending_sessions (date : Nat)
    (studyPlans : List StudyPlan) :
    ((canLockDay date studyPlans).canLock = true ↔
      pendingLockCount date studyPlans = 0) ∧
    (canLockDay date studyPlans).pendingSessions =
      (if pendingLockCount date studyPlans = 0 then none
        else some (pendingLockCount date studyPlans)) := by
  unfold canLockDay pendingLockCount
  cases h : findPlan date studyPlans with
  | none => simp
  | some plan =>
    by_cases hl : (pendingForLock plan).length > 0
    · simp only [if_pos hl]
      refine ⟨⟨fun hf => absurd hf (by decide), fun h0 => absurd h0 (by omega)⟩, ?_⟩
      rw [if_neg (by omega)]
    · simp only [if_neg hl]
      refine ⟨⟨fun _ => by omega, fun _ => by trivial⟩, ?_⟩
      rw [if_pos (by omega)]

/-! ## C10: the success flag of missed-session redistribution -/

/-- C10 (confirmed): `redistributeMissedSessionsWithFeedback` reports
`feedback.success = true` iff at least one session was moved or no missed
session was collected at all; in particular a partially failed run still
reports success, and a fully failed run reports failure. -/
theorem C10_redistribution_success_flag (studyPlans : List StudyPlan)
    (settings : UserSettings) (fixedCommitments : List FixedCommitment)
    (tasks : List Task) (today : Nat) (nowAbs : ℚ) :
    (redistributeMissedSessionsWithFeedback studyPlans settings
        fixedCommitments tasks today nowAbs).feedback.success = true ↔
      ((redistributeMissedSessionsWithFeedback studyPlans settings
          fixedCommitments tasks today nowAbs).movedSessions ≠ [] ∨
        collectMissedSessions studyPlans tasks today nowAbs = []) := by
  unfold redistributeMissedSessionsWithFeedback
  by_cases h : (collectMissedSessions studyPlans tasks today nowAbs).isEmpty = true
  · have h2 := List.isEmpty_iff.mp h
    simp [h, h2]
  · have h2 : collectMissedSessions studyPlans tasks today nowAbs ≠ [] := by
      simpa [List.isEmpty_iff] using h
    simp only [if_neg h, h2, or_false, decide_eq_true_eq, ne_eq]
    exact List.length_pos_iff_ne_nil

/-! ## C5: the priority formula for missed sessions -/

/-- The concrete missed-session scenario used to exhibit the dead
past-deadline branch: an unimportant pending task whose deadline (day 10)
lies ten days before today (day 20). -/
def pastDeadlineTask : Task :=
  { id := 1, estimatedHours := 5, deadline := 10, importance := false,
    status := .pending }

/-- Yesterday's plan holding the one missed session of `pastDeadlineTask`. -/
def pastDeadlineSession : StudySession :=
  { taskId := 1, startTime := 480, endTime := 540, allocatedHours := 1,
    sessionNumber := 1, status := .scheduled, done := false }

def pastDeadlinePlan : StudyPlan :=
  { date := 19, plannedTasks := [pastDeadlineSession], totalStudyHours := 1,
    availableHours := 8, isLocked := false }

/-- C5 (code bug): the source comments the `+2000` branch with "Very high
priority for past deadlines", but `daysUntilDeadline` is clamped with
`Math.max(0, …)` *before* the `< 0` test, so the branch is dead: a missed
session of a task whose deadline has already passed is collected with
priority `100` (= `max(0, 100 - 0)`), not `2000`, as evaluated here on a
concrete overdue scenario. -/
theorem C5_past_deadline_priority_is_100 :
    (collectMissedSessions [pastDeadlinePlan] [pastDeadlineTask] 20
        (20 * 1440 + 600)).map (fun e => e.priority) = [100] ∧
    missedSessionPriority pastDeadlineTask (20 * 1440 + 600) = 100 ∧
    (100 : ℚ) ≠ 2000 := by
  refine ⟨?_, ?_, by norm_num⟩
  · norm_num +decide [collectMissedSessions, pastDeadlinePlan, pastDeadlineTask,
      pastDeadlineSession, checkSessionStatus, sessionEndInstant,
      missedSessionPriority, List.flatMap_cons, List.flatMap_nil,
      List.filterMap]
  · norm_num [missedSessionPriority, pastDeadlineTask]

/-! ## C1: locked-day immutability.

Every engine pass transforms the plan collection by pointwise edits that
preserve each plan's date and leave locked plans untouched, followed by
appending plans for dates that did not previously exist.  `Evolved` captures
this shape; it is reflexive, transitive, and preserved by each primitive, and
it implies both that locked plans survive verbatim and that
`validateLockedDaysIntegrity` stays clean. -/

/-- One plan evolving: the date is kept, and a locked plan is untouched. -/
def PlanStep (p q : StudyPlan) : Prop :=
  q.date = p.date ∧ (p.isLocked = true → q = p)

/-- The collection `Q` is an evolution of `P`: a pointwise `PlanStep` image
of `P` followed by appended plans whose dates do not occur in `P`. -/
def Evolved (P Q : List StudyPlan) : Prop :=
  ∃ Q1 app, Q = Q1 ++ app ∧ List.Forall₂ PlanStep P Q1 ∧
    ∀ a ∈ app, ∀ p ∈ P, a.date ≠ p.date

theorem evolved_refl (P : List StudyPlan) : Evolved P P :=
  ⟨P, [], by simp, List.forall₂_same.mpr (fun p _ => ⟨rfl, fun _ => rfl⟩),
    by simp⟩

theorem forall₂_mem_left {R : StudyPlan → StudyPlan → Prop}
    {P Q : List StudyPlan} (h : List.Forall₂ R P Q) {p : StudyPlan}
    (hp : p ∈ P) : ∃ q ∈ Q, R p q := by
  induction h with
  | nil => cases hp
  | cons hr _ ih =>
    rcases List.mem_cons.mp hp with rfl | hp2
    · exact ⟨_, List.mem_cons_self _ _, hr⟩
    · obtain ⟨q, hq, hrq⟩ := ih hp2
      exact ⟨q, List.mem_cons_of_mem _ hq, hrq⟩

theorem forall₂_mem_right {R : StudyPlan → StudyPlan → Prop}
    {P Q : List StudyPlan} (h : List.Forall₂ R P Q) {q : StudyPlan}
    (hq : q ∈ Q) : ∃ p ∈ P, R p q := by
  induction h with
  | nil => cases hq
  | cons hr _ ih =>
    rcases List.mem_cons.mp hq with rfl | hq2
    · exact ⟨_, List.mem_cons_self _ _, hr⟩
    · obtain ⟨p, hp, hrp⟩ := ih hq2
      exact ⟨p, List.mem_cons_of_mem _ hp, hrp⟩

theorem forall₂_append_split {R : StudyPlan → StudyPlan → Prop}
    {P1 P2 Q : List StudyPlan} (h : List.Forall₂ R (P1 ++ P2) Q) :
    ∃ Q1 Q2, Q = Q1 ++ Q2 ∧ List.Forall₂ R P1 Q1 ∧ List.Forall₂ R P2 Q2 := by
  induction P1 generalizing Q with
  | nil => exact ⟨[], Q, rfl, .nil, by simpa using h⟩
  | cons p ps ih =>
    rw [List.cons_append] at h
    cases h with
    | cons hr htail =>
      obtain ⟨Q1, Q2, rfl, h1, h2⟩ := ih htail
      exact ⟨_ :: Q1, Q2, rfl, .cons hr h1, h2⟩

theorem planStep_trans {p q r : StudyPlan} (h1 : PlanStep p q)
    (h2 : PlanStep q r) : PlanStep p r := by
  refine ⟨h2.1.trans h1.1, fun hl => ?_⟩
  have hq := h1.2 hl
  subst hq
  exact h2.2 hl

theorem forall₂_planStep_trans {P Q R : List StudyPlan}
    (h1 : List.Forall₂ PlanStep P Q) (h2 : List.Forall₂ PlanStep Q R) :
    List.Forall₂ PlanStep P R := by
  induction h1 generalizing R with
  | nil => cases h2; exact .nil
  | cons hr _ ih =>
    cases h2 with
    | cons hr2 htail2 => exact .cons (planStep_trans hr hr2) (ih htail2)

theorem evolved_trans {P Q R : List StudyPlan} (h1 : Evolved P Q)
    (h2 : Evolved Q R) : Evolved P R := by
  obtain ⟨Q1, app1, rfl, hf1, hfresh1⟩ := h1
  obtain ⟨R1, app2, rfl, hf2, hfresh2⟩ := h2
  obtain ⟨Ra, Rb, rfl, hfa, hfb⟩ := forall₂_append_split hf2
  refine ⟨Ra, Rb ++ app2, by simp, forall₂_planStep_trans hf1 hfa, ?_⟩
  intro a ha p hp
  rcases List.mem_append.mp ha with ha1 | ha2
  · obtain ⟨b, hb, hrb⟩ := forall₂_mem_right hfb ha1
    rw [hrb.1]
    exact hfresh1 b hb p hp
  · obtain ⟨q, hq, hrq⟩ := forall₂_mem_left hf1 hp
    have := hfresh2 a ha2 q (List.mem_append.mpr (Or.inl hq))
    rw [hrq.1] at this
    exact this

/-- A pointwise map that preserves dates and fixes locked plans evolves the
collection. -/
theorem evolved_map {f : StudyPlan → StudyPlan}
    (hf : ∀ p, (f p).date = p.date ∧ (p.isLocked = true → f p = p))
    (P : List StudyPlan) : Evolved P (P.map f) :=
  ⟨P.map f, [], by simp,
    List.forall₂_map_right_iff.mpr
      (List.forall₂_same.mpr (fun p _ => hf p)), by simp⟩

theorem evolved_removeUnlockedTaskSessions (tid : Nat) (P : List StudyPlan) :
    Evolved P (removeUnlockedTaskSessions tid P) := by
  apply evolved_map
  intro p
  constructor
  · by_cases h : p.isLocked <;> simp [h]
  · intro h
    simp [h]

theorem evolved_combinePlan (settings : UserSettings) (P : List StudyPlan) :
    Evolved P (combineSessionsOnSameDay P settings) := by
  apply evolved_map
  intro p
  constructor
  · unfold combinePlan
    by_cases h : p.isLocked <;> simp [h]
  · intro h
    simp [combinePlan, h]

/-- When no plan exists for the date, `addSessionToPlan` appends a fresh one
holding the session. -/
theorem addSessionToPlan_of_findPlan_none {d : Nat} {P : List StudyPlan}
    (h : findPlan d P = none) (s : StudySession) (st : UserSettings) :
    addSessionToPlan s d st P = P ++ [pushSession s (freshPlan d st)] := by
  induction P with
  | nil => rfl
  | cons p ps ih =>
    unfold findPlan at h ih
    rw [List.find?_cons] at h
    cases hd : (p.date == d) with
    | true => rw [hd] at h; cases h
    | false =>
      rw [hd] at h
      unfold addSessionToPlan
      rw [if_neg (by simp [hd]), ih h]
      rfl

/-- When a plan exists for the date, `addSessionToPlan` edits the first one
pointwise (and rejects the insertion when it is locked). -/
theorem addSessionToPlan_forall₂_of_findPlan_some {d : Nat}
    {P : List StudyPlan} {q : StudyPlan} (h : findPlan d P = some q)
    (s : StudySession) (st : UserSettings) :
    List.Forall₂ PlanStep P (addSessionToPlan s d st P) := by
  induction P with
  | nil => cases h
  | cons p ps ih =>
    unfold findPlan at h ih
    rw [List.find?_cons] at h
    cases hd : (p.date == d) with
    | true =>
      unfold addSessionToPlan
      rw [if_pos hd]
      refine .cons ⟨?_, ?_⟩
        (List.forall₂_same.mpr (fun r _ => ⟨rfl, fun _ => rfl⟩))
      · by_cases hl : p.isLocked <;> simp [hl, pushSession]
      · intro hl; rw [if_pos hl]
    | false =>
      rw [hd] at h
      unfold addSessionToPlan
      rw [if_neg (by simp [hd])]
      exact .cons ⟨rfl, fun _ => rfl⟩ (ih h)

theorem evolved_addSessionToPlan (s : StudySession) (d : Nat)
    (st : UserSettings) (P : List StudyPlan) :
    Evolved P (addSessionToPlan s d st P) := by
  cases h : findPlan d P with
  | none =>
    refine ⟨P, [pushSession s (freshPlan d st)],
      addSessionToPlan_of_findPlan_none h s st,
      List.forall₂_same.mpr (fun p _ => ⟨rfl, fun _ => rfl⟩), ?_⟩
    intro a ha p hp
    rcases List.mem_singleton.mp ha with rfl
    have hnone := List.find?_eq_none.mp h p hp
    intro hdate
    apply hnone
    show (p.date == d) = true
    simp only [pushSession, freshPlan] at hdate
    simp [hdate]
  | some q =>
    exact ⟨addSessionToPlan s d st P, [], by simp,
      addSessionToPlan_forall₂_of_findPlan_some h s st, by simp⟩

theorem forall₂_removeFromOriginPlan (s : StudySession) (planDate : Nat)
    (P : List StudyPlan) :
    List.Forall₂ PlanStep P (removeFromOriginPlan s planDate P) := by
  induction P with
  | nil => exact .nil
  | cons p ps ih =>
    unfold removeFromOriginPlan
    by_cases h : (p.date == planDate) = true
    · rw [if_pos h]
      refine .cons ⟨?_, ?_⟩
        (List.forall₂_same.mpr (fun r _ => ⟨rfl, fun _ => rfl⟩))
      · by_cases hl : p.isLocked = true
        · simp [hl]
        · simp only [if_neg hl]
          cases spliceSession s p.plannedTasks <;> simp
      · intro hl; rw [if_pos hl]
    · rw [if_neg h]
      exact .cons ⟨rfl, fun _ => rfl⟩ ih

theorem evolved_removeFromOriginPlan (s : StudySession) (planDate : Nat)
    (P : List StudyPlan) : Evolved P (removeFromOriginPlan s planDate P) :=
  ⟨removeFromOriginPlan s planDate P, [], by simp,
    forall₂_removeFromOriginPlan s planDate P, by simp⟩

theorem evolved_scheduleSessionsOnDays (tid : Nat) (st : UserSettings)
    (comms : List FixedCommitment) (items : List (Nat × ℚ)) (num : Nat)
    (plans : List StudyPlan) :
    Evolved plans (scheduleSessionsOnDays tid st comms items num plans).plans := by
  induction items generalizing num plans with
  | nil => exact evolved_refl plans
  | cons item rest ih =>
    unfold scheduleSessionsOnDays
    split
    · split
      · split
        · exact evolved_trans (evolved_addSessionToPlan _ _ _ _) (ih _ _)
        · exact ih _ _
      · exact ih _ _
    · exact ih _ _

theorem evolved_scheduleTaskWithStrategy (t : Task × ℚ) (strategy : Strategy)
    (plans : List StudyPlan) (st : UserSettings)
    (comms : List FixedCommitment) (today : Nat) :
    Evolved plans (scheduleTaskWithStrategy t strategy plans st comms today).plans := by
  unfold scheduleTaskWithStrategy
  by_cases h : t.2 ≤ 0
  · rw [if_pos h]; exact evolved_refl plans
  · rw [if_neg h]
    by_cases h2 : (getAvailableDaysForTask t.1 plans st today).isEmpty
    · rw [if_pos h2]; exact evolved_refl plans
    · rw [if_neg h2]; exact evolved_scheduleSessionsOnDays _ _ _ _ _ _

theorem evolved_scheduleTasks (l : List (Task × ℚ))
    (strategyOf : Task × ℚ → Strategy) (st : UserSettings)
    (comms : List FixedCommitment) (today : Nat) (acc : ScheduleResult) :
    Evolved acc.plans
      (l.foldl (fun acc t =>
        let r := scheduleTaskWithStrategy t (strategyOf t) acc.plans st comms today
        ⟨r.plans, acc.failed ++ r.failed⟩) acc).plans := by
  induction l generalizing acc with
  | nil => exact evolved_refl acc.plans
  | cons t rest ih =>
    rw [List.foldl_cons]
    exact evolved_trans (evolved_scheduleTaskWithStrategy t (strategyOf t)
      acc.plans st comms today) (ih _)

theorem evolved_scheduleTasksMain (l : List (Task × ℚ))
    (strategyOf : Task × ℚ → Strategy) (workingPlans : List StudyPlan)
    (st : UserSettings) (comms : List FixedCommitment) (today : Nat) :
    Evolved workingPlans
      (scheduleTasks l strategyOf workingPlans st comms today).plans := by
  unfold scheduleTasks
  exact evolved_scheduleTasks l strategyOf st comms today ⟨workingPlans, []⟩

theorem evolved_foldl {α : Type} (f : List StudyPlan → α → List StudyPlan)
    (hf : ∀ Q x, Evolved Q (f Q x)) (l : List α) (P : List StudyPlan) :
    Evolved P (l.foldl f P) := by
  induction l generalizing P with
  | nil => exact evolved_refl P
  | cons x rest ih => exact evolved_trans (hf P x) (ih _)

theorem evolved_generateNewStudyPlan (tasks : List Task)
    (settings : UserSettings) (comms : List FixedCommitment)
    (existingPlans : List StudyPlan) (today : Nat) (nowAbs : ℚ) :
    Evolved existingPlans
      (generateNewStudyPlan tasks settings comms existingPlans today nowAbs) := by
  unfold generateNewStudyPlan generateNewStudyPlanFull
  by_cases h : (tasksWithRemainingHours tasks existingPlans).isEmpty
  · rw [if_pos h]; exact evolved_refl existingPlans
  · rw [if_neg h]
    refine evolved_trans
      (evolved_foldl _ (fun Q x => evolved_removeUnlockedTaskSessions x.1.id Q)
        (tasksWithRemainingHours tasks existingPlans) existingPlans) ?_
    cases settings.studyPlanMode with
    | eisenhower =>
      unfold generateEisenhowerPlan
      exact evolved_scheduleTasksMain _ _ _ _ _ _
    | balanced =>
      unfold generateBalancedPriorityPlan
      exact evolved_scheduleTasksMain _ _ _ _ _ _
    | even =>
      unfold generateEvenDistributionPlan
      exact evolved_scheduleTasksMain _ _ _ _ _ _

theorem evolved_processMissedSessions (st : UserSettings)
    (comms : List FixedCommitment) (today : Nat) (nowAbs : ℚ)
    (entries : List MissedEntry) (plans : List StudyPlan) :
    Evolved plans (processMissedSessions st comms today nowAbs entries plans).1 := by
  induction entries generalizing plans with
  | nil => exact evolved_refl plans
  | cons e rest ih =>
    unfold processMissedSessions
    cases findNextAvailableTimeSlot e.session.allocatedHours today plans st comms
        (daysUntilDeadlineCeil (e.task.deadline - st.bufferDays) nowAbs).toNat with
    | some timeSlot =>
      exact evolved_trans (evolved_removeFromOriginPlan e.session e.planDate plans)
        (evolved_trans (evolved_addSessionToPlan _ _ _ _) (ih _))
    | none => exact ih plans

theorem evolved_redistributeMissed (studyPlans : List StudyPlan)
    (settings : UserSettings) (comms : List FixedCommitment)
    (tasks : List Task) (today : Nat) (nowAbs : ℚ) :
    Evolved studyPlans
      (redistributeMissedSessionsWithFeedback studyPlans settings comms tasks
        today nowAbs).updatedPlans := by
  unfold redistributeMissedSessionsWithFeedback
  by_cases h : (collectMissedSessions studyPlans tasks today nowAbs).isEmpty
  · rw [if_pos h]; exact evolved_refl studyPlans
  · rw [if_neg h]; exact evolved_processMissedSessions _ _ _ _ _ _

/-! Consequences of `Evolved`: locked plans survive verbatim, and the
integrity validator stays clean. -/

theorem evolved_locked_mem {P Q : List StudyPlan} (h : Evolved P Q)
    {p : StudyPlan} (hp : p ∈ P) (hl : p.isLocked = true) : p ∈ Q := by
  obtain ⟨Q1, app, rfl, hf, _⟩ := h
  obtain ⟨q, hq, hstep⟩ := forall₂_mem_left hf hp
  rw [hstep.2 hl] at hq
  exact List.mem_append.mpr (Or.inl hq)

theorem forall₂_findPlan_locked {P Q1 : List StudyPlan}
    (hf : List.Forall₂ PlanStep P Q1) {d : Nat} {q : StudyPlan}
    (h : findPlan d P = some q) (hq : q.isLocked = true) :
    findPlan d Q1 = some q := by
  induction hf with
  | nil => cases h
  | @cons p r ps rs hstep htail ih =>
    unfold findPlan at h ⊢
    rw [List.find?_cons] at h ⊢
    cases hd : (p.date == d) with
    | true =>
      rw [hd] at h
      have hpq : p = q := by injection h
      subst hpq
      have hr : r = p := hstep.2 hq
      subst hr
      rw [show (r.date == d) = true from hd]
    | false =>
      rw [hd] at h
      rw [show (r.date == d) = false by rw [hstep.1]; exact hd]
      exact ih h

theorem evolved_findPlan_locked {P Q : List StudyPlan} (h : Evolved P Q)
    {d : Nat} {q : StudyPlan} (hfp : findPlan d P = some q)
    (hq : q.isLocked = true) : findPlan d Q = some q := by
  obtain ⟨Q1, app, rfl, hf, _⟩ := h
  unfold findPlan
  rw [List.find?_append]
  have := forall₂_findPlan_locked hf hfp hq
  unfold findPlan at this
  rw [this]
  rfl

theorem planViolations_evolved {P Q : List StudyPlan} (h : Evolved P Q)
    (op : StudyPlan) (hself : planViolations op P = []) :
    planViolations op Q = [] := by
  unfold planViolations at hself ⊢
  cases hfp : findPlan op.date P with
  | none => rw [hfp] at hself; cases hself
  | some q =>
    rw [hfp] at hself
    dsimp only at hself
    have hq : q.isLocked = true := by
      by_contra hq2
      have hb : (!q.isLocked) = true := by
        cases hbb : q.isLocked
        · rfl
        · exact absurd hbb hq2
      rw [if_pos hb] at hself
      simp at hself
    rw [evolved_findPlan_locked h hfp hq]
    exact hself

theorem validate_evolved {P Q : List StudyPlan} (h : Evolved P Q)
    (hself : (validateLockedDaysIntegrity P P).2 = []) :
    (validateLockedDaysIntegrity P Q).2 = [] := by
  unfold validateLockedDaysIntegrity at hself ⊢
  simp only [List.flatMap_eq_nil_iff] at hself ⊢
  intro op hop
  by_cases hl : op.isLocked = true
  · rw [if_pos hl]
    have hop2 := hself op hop
    rw [if_pos hl] at hop2
    exact planViolations_evolved h op hop2
  · rw [if_neg hl]

/-- C1 (confirmed): every locked plan of the input collection appears
verbatim (same date, lock flag, sessions with unchanged times and hours — in
fact the very same plan value) in the output of `generateNewStudyPlan`,
`redistributeMissedSessionsWithFeedback` and `combineSessionsOnSameDay`; and
whenever `validateLockedDaysIntegrity` accepts the input against itself (its
find-by-date lookups are unambiguous), it reports zero violations between the
input and each of the three outputs. -/
theorem C1_locked_day_immutability (tasks : List Task)
    (settings : UserSettings) (comms : List FixedCommitment)
    (plans : List StudyPlan) (today : Nat) (nowAbs : ℚ) :
    (∀ p ∈ plans, p.isLocked = true →
      p ∈ generateNewStudyPlan tasks settings comms plans today nowAbs ∧
      p ∈ (redistributeMissedSessionsWithFeedback plans settings comms tasks
        today nowAbs).updatedPlans ∧
      p ∈ combineSessionsOnSameDay plans settings) ∧
    ((validateLockedDaysIntegrity plans plans).2 = [] →
      (validateLockedDaysIntegrity plans
        (generateNewStudyPlan tasks settings comms plans today nowAbs)).2 = [] ∧
      (validateLockedDaysIntegrity plans
        (redistributeMissedSessionsWithFeedback plans settings comms tasks
          today nowAbs).updatedPlans).2 = [] ∧
      (validateLockedDaysIntegrity plans
        (combineSessionsOnSameDay plans settings)).2 = []) := by
  refine ⟨fun p hp hl => ⟨?_, ?_, ?_⟩, fun hself => ⟨?_, ?_, ?_⟩⟩
  · exact evolved_locked_mem
      (evolved_generateNewStudyPlan tasks settings comms plans today nowAbs) hp hl
  · exact evolved_locked_mem
      (evolved_redistributeMissed plans settings comms tasks today nowAbs) hp hl
  · exact evolved_locked_mem (evolved_combinePlan settings plans) hp hl
  · exact validate_evolved
      (evolved_generateNewStudyPlan tasks settings comms plans today nowAbs) hself
  · exact validate_evolved
      (evolved_redistributeMissed plans settings comms tasks today nowAbs) hself
  · exact validate_evolved (evolved_combinePlan settings plans) hself

/-- A concrete locked plan (no sessions) used by the C1 witness. -/
def wLockedPlan : StudyPlan :=
  { date := 1, plannedTasks := [], totalStudyHours := 0, availableHours := 0,
    isLocked := true }

/-- Concrete settings used by witnesses. -/
def wSettings : UserSettings :=
  { studyPlanMode := .even, dailyAvailableHours := 8,
    workDays := [0, 1, 2, 3, 4, 5, 6], bufferDays := 0,
    studyWindowStartHour := 8, studyWindowEndHour := 20,
    minSessionLength := 15 }

/-- Witness for C1 at a concrete input: a collection holding one locked plan
keeps it through generation, and the validator accepts the combination
pass. -/
theorem C1_locked_day_immutability_witness :
    wLockedPlan ∈ generateNewStudyPlan [] wSettings [] [wLockedPlan] 1 1440 ∧
    (validateLockedDaysIntegrity [wLockedPlan]
      (combineSessionsOnSameDay [wLockedPlan] wSettings)).2 = [] := by
  have h := C1_locked_day_immutability [] wSettings [] [wLockedPlan] 1 1440
  refine ⟨(h.1 wLockedPlan (List.mem_singleton.mpr rfl) rfl).1, (h.2 ?_).2.2⟩
  simp [validateLockedDaysIntegrity, planViolations, findPlan, wLockedPlan]

/-! ## C7: which operations mutate the caller's collection.

`generateNewStudyPlan` (scheduling.ts:320), `redistributeMissedSessionsWithFeedback`
(scheduling.ts:796) and `redistributeFromLockedDays` (LockDayManager:1495) start
from `JSON.parse(JSON.stringify(...))` deep copies and never write to the
caller's array or plan objects, so the caller's collection after the call is
the input unchanged.  `combineSessionsOnSameDay` only shallow-copies the array
(`[...studyPlans]`) and then assigns `plan.plannedTasks`/`plan.totalStudyHours`
on the shared plan objects, so the caller's collection afterwards holds
exactly the returned plans.  `lockDay`/`unlockDay` take no copy at all: they
push into or mutate the caller's array and return only a boolean. -/

/-- Caller's collection after `generateNewStudyPlan` (deep copy taken). -/
def callerPlansAfterGenerate (existingPlans : List StudyPlan) :
    List StudyPlan := existingPlans

/-- Caller's collection after `redistributeMissedSessionsWithFeedback`. -/
def callerPlansAfterRedistributeMissed (studyPlans : List StudyPlan) :
    List StudyPlan := studyPlans

/-- Caller's collection after `redistributeFromLockedDays`. -/
def callerPlansAfterRedistributeFromLocked (studyPlans : List StudyPlan) :
    List StudyPlan := studyPlans

/-- Caller's collection after `combineSessionsOnSameDay` (shared, mutated
plan objects). -/
def callerPlansAfterCombine (studyPlans : List StudyPlan)
    (settings : UserSettings) : List StudyPlan :=
  combineSessionsOnSameDay studyPlans settings

theorem mem_setLockedOnDate {date : Nat} {p : StudyPlan}
    {plans : List StudyPlan} (hp : p ∈ plans) (hd : p.date ≠ date) :
    p ∈ setLockedOnDate date plans := by
  induction plans with
  | nil => cases hp
  | cons q ps ih =>
    unfold setLockedOnDate
    rcases List.mem_cons.mp hp with rfl | hp2
    · rw [if_neg (by simpa using hd)]
      exact List.mem_cons_self _ _
    · by_cases h : (q.date == date) = true
      · rw [if_pos h]
        exact List.mem_cons_of_mem _ hp2
      · rw [if_neg h]
        exact List.mem_cons_of_mem _ (ih hp2)

theorem mem_setUnlockedOnDate {date : Nat} {settings : UserSettings}
    {p : StudyPlan} {plans : List StudyPlan} (hp : p ∈ plans)
    (hd : p.date ≠ date) : p ∈ setUnlockedOnDate date settings plans := by
  induction plans with
  | nil => cases hp
  | cons q ps ih =>
    unfold setUnlockedOnDate
    rcases List.mem_cons.mp hp with rfl | hp2
    · rw [if_neg (by simpa using hd)]
      exact List.mem_cons_self _ _
    · by_cases h : (q.date == date) = true
      · rw [if_pos h]
        exact List.mem_cons_of_mem _ hp2
      · rw [if_neg h]
        exact List.mem_cons_of_mem _ (ih hp2)

/-- C7 counterexample: `lockDay` pushes a fresh locked plan into the caller's
array (here: locking an empty collection leaves the caller with a non-empty
one), and `unlockDay` flips the lock flag on the caller's plan object in
place — neither operates on a copy as the claim states. -/
theorem C7_counterexample_lockDay_mutates_caller :
    (lockDay 5 []).2 ≠ [] ∧
    (unlockDay 1 [wLockedPlan] wSettings).2 ≠ [wLockedPlan] := by
  constructor
  · simp [lockDay, canLockDay, findPlan]
  · simp [unlockDay, findPlan, setUnlockedOnDate, wLockedPlan]

/-- C7 (amended): the three engine passes that deep-copy
(`generateNewStudyPlan`, both redistribution entry points) leave the caller's
collection unchanged; `combineSessionsOnSameDay` leaves the caller holding
exactly the returned (mutated-in-place) plans; and `lockDay`/`unlockDay`
mutate the caller's collection in place, but touch no plan of another
date. -/
theorem C7_mutation_amended (plans : List StudyPlan) (settings : UserSettings)
    (date : Nat) :
    callerPlansAfterGenerate plans = plans ∧
    callerPlansAfterRedistributeMissed plans = plans ∧
    callerPlansAfterRedistributeFromLocked plans = plans ∧
    callerPlansAfterCombine plans settings =
      combineSessionsOnSameDay plans settings ∧
    (∀ p ∈ plans, p.date ≠ date →
      p ∈ (lockDay date plans).2 ∧ p ∈ (unlockDay date plans settings).2) := by
  refine ⟨rfl, rfl, rfl, rfl, fun p hp hd => ⟨?_, ?_⟩⟩
  · unfold lockDay
    by_cases hc : (!(canLockDay date plans).canLock) = true
    · rw [if_pos hc]
      exact hp
    · rw [if_neg hc]
      cases findPlan date plans with
      | none => exact List.mem_append.mpr (Or.inl hp)
      | some q => exact mem_setLockedOnDate hp hd
  · unfold unlockDay
    cases findPlan date plans with
    | none => exact hp
    | some q => exact mem_setUnlockedOnDate hp hd

/-- Witness for the amended C7 theorem: a plan for day 2 survives locking and
unlocking day 5. -/
theorem C7_mutation_amended_witness :
    wLockedPlan ∈ (lockDay 5 [wLockedPlan]).2 ∧
    wLockedPlan ∈ (unlockDay 5 [wLockedPlan] wSettings).2 :=
  (C7_mutation_amended [wLockedPlan] wSettings 5).2.2.2.2 wLockedPlan
    (List.mem_singleton.mpr rfl) (by simp [wLockedPlan])

/-! ## C6: the `totalStudyHours` invariant -/

/-- Every plan's cached `totalStudyHours` equals the sum of its non-skipped
session hours. -/
def PlanTotalsValid (P : List StudyPlan) : Prop :=
  ∀ p ∈ P, p.totalStudyHours = sessionsTotal p.plannedTasks

theorem totalsValid_removeUnlockedTaskSessions {P : List StudyPlan}
    (h : PlanTotalsValid P) (tid : Nat) :
    PlanTotalsValid (removeUnlockedTaskSessions tid P) := by
  intro p hp
  unfold removeUnlockedTaskSessions at hp
  obtain ⟨q, hq, rfl⟩ := List.mem_map.mp hp
  by_cases hl : q.isLocked = true
  · rw [if_pos hl]
    exact h q hq
  · rw [if_neg hl]

theorem totalsValid_addSessionToPlan {P : List StudyPlan}
    (h : PlanTotalsValid P) (s : StudySession) (d : Nat) (st : UserSettings) :
    PlanTotalsValid (addSessionToPlan s d st P) := by
  induction P with
  | nil =>
    intro p hp
    rcases List.mem_singleton.mp hp with rfl
    rfl
  | cons q ps ih =>
    have hq := h q (List.mem_cons_self _ _)
    have hps : PlanTotalsValid ps := fun r hr => h r (List.mem_cons_of_mem _ hr)
    intro p hp
    unfold addSessionToPlan at hp
    by_cases hd : (q.date == d) = true
    · rw [if_pos hd] at hp
      rcases List.mem_cons.mp hp with rfl | hp2
      · by_cases hl : q.isLocked = true
        · rw [if_pos hl]
          exact hq
        · rw [if_neg hl]
          rfl
      · exact hps p hp2
    · rw [if_neg hd] at hp
      rcases List.mem_cons.mp hp with rfl | hp2
      · exact hq
      · exact ih hps p hp2

theorem totalsValid_scheduleSessionsOnDays {P : List StudyPlan}
    (h : PlanTotalsValid P) (tid : Nat) (st : UserSettings)
    (comms : List FixedCommitment) (items : List (Nat × ℚ)) (num : Nat) :
    PlanTotalsValid (scheduleSessionsOnDays tid st comms items num P).plans := by
  induction items generalizing num P with
  | nil => exact h
  | cons item rest ih =>
    unfold scheduleSessionsOnDays
    split
    · split
      · split
        · exact ih (totalsValid_addSessionToPlan h _ _ _) _
        · exact ih h _
      · exact ih h _
    · exact ih h _

theorem totalsValid_scheduleTaskWithStrategy {P : List StudyPlan}
    (h : PlanTotalsValid P) (t : Task × ℚ) (strategy : Strategy)
    (st : UserSettings) (comms : List FixedCommitment) (today : Nat) :
    PlanTotalsValid (scheduleTaskWithStrategy t strategy P st comms today).plans := by
  unfold scheduleTaskWithStrategy
  by_cases h0 : t.2 ≤ 0
  · rw [if_pos h0]
    exact h
  · rw [if_neg h0]
    by_cases h2 : (getAvailableDaysForTask t.1 P st today).isEmpty
    · rw [if_pos h2]
      exact h
    · rw [if_neg h2]
      exact totalsValid_scheduleSessionsOnDays h _ _ _ _ _

theorem totalsValid_scheduleTasks {acc : ScheduleResult}
    (h : PlanTotalsValid acc.plans) (l : List (Task × ℚ))
    (strategyOf : Task × ℚ → Strategy) (st : UserSettings)
    (comms : List FixedCommitment) (today : Nat) :
    PlanTotalsValid
      ((l.foldl (fun acc t =>
        let r := scheduleTaskWithStrategy t (strategyOf t) acc.plans st comms today
        ⟨r.plans, acc.failed ++ r.failed⟩) acc).plans) := by
  induction l generalizing acc with
  | nil => exact h
  | cons t rest ih =>
    rw [List.foldl_cons]
    exact ih (totalsValid_scheduleTaskWithStrategy h t (strategyOf t) st comms today)

theorem totalsValid_foldl {α : Type} (f : List StudyPlan → α → List StudyPlan)
    (hf : ∀ Q x, PlanTotalsValid Q → PlanTotalsValid (f Q x)) (l : List α)
    {P : List StudyPlan} (h : PlanTotalsValid P) :
    PlanTotalsValid (l.foldl f P) := by
  induction l generalizing P with
  | nil => exact h
  | cons x rest ih => exact ih (hf P x h)

theorem totalsValid_generateNewStudyPlan {plans : List StudyPlan}
    (h : PlanTotalsValid plans) (tasks : List Task) (settings : UserSettings)
    (comms : List FixedCommitment) (today : Nat) (nowAbs : ℚ) :
    PlanTotalsValid (generateNewStudyPlan tasks settings comms plans today nowAbs) := by
  unfold generateNewStudyPlan generateNewStudyPlanFull
  by_cases hr : (tasksWithRemainingHours tasks plans).isEmpty
  · rw [if_pos hr]
    exact h
  · rw [if_neg hr]
    have hrem : PlanTotalsValid
        ((tasksWithRemainingHours tasks plans).foldl
          (fun ps t => removeUnlockedTaskSessions t.1.id ps) plans) :=
      totalsValid_foldl _
        (fun Q x hQ => totalsValid_removeUnlockedTaskSessions hQ x.1.id) _ h
    cases settings.studyPlanMode with
    | eisenhower =>
      unfold generateEisenhowerPlan scheduleTasks
      exact totalsValid_scheduleTasks hrem _ _ _ _ _
    | balanced =>
      unfold generateBalancedPriorityPlan scheduleTasks
      exact totalsValid_scheduleTasks hrem _ _ _ _ _
    | even =>
      unfold generateEvenDistributionPlan scheduleTasks
      exact totalsValid_scheduleTasks hrem _ _ _ _ _

theorem totalsValid_removeFromOriginPlan {P : List StudyPlan}
    (h : PlanTotalsValid P) (s : StudySession) (planDate : Nat) :
    PlanTotalsValid (removeFromOriginPlan s planDate P) := by
  induction P with
  | nil => exact h
  | cons q ps ih =>
    have hq := h q (List.mem_cons_self _ _)
    have hps : PlanTotalsValid ps := fun r hr => h r (List.mem_cons_of_mem _ hr)
    intro p hp
    unfold removeFromOriginPlan at hp
    by_cases hd : (q.date == planDate) = true
    · rw [if_pos hd] at hp
      rcases List.mem_cons.mp hp with rfl | hp2
      · by_cases hl : q.isLocked = true
        · rw [if_pos hl]
          exact hq
        · rw [if_neg hl]
          cases spliceSession s q.plannedTasks with
          | some tasks => rfl
          | none => exact hq
      · exact hps p hp2
    · rw [if_neg hd] at hp
      rcases List.mem_cons.mp hp with rfl | hp2
      · exact hq
      · exact ih hps p hp2

theorem totalsValid_processMissedSessions {P : List StudyPlan}
    (h : PlanTotalsValid P) (st : UserSettings)
    (comms : List FixedCommitment) (today : Nat) (nowAbs : ℚ)
    (entries : List MissedEntry) :
    PlanTotalsValid (processMissedSessions st comms today nowAbs entries P).1 := by
  induction entries generalizing P with
  | nil => exact h
  | cons e rest ih =>
    unfold processMissedSessions
    cases findNextAvailableTimeSlot e.session.allocatedHours today P st comms
        (daysUntilDeadlineCeil (e.task.deadline - st.bufferDays) nowAbs).toNat with
    | some timeSlot =>
      exact ih (totalsValid_addSessionToPlan
        (totalsValid_removeFromOriginPlan h e.session e.planDate) _ _ _)
    | none => exact ih h

theorem totalsValid_redistributeMissed {plans : List StudyPlan}
    (h : PlanTotalsValid plans) (settings : UserSettings)
    (comms : List FixedCommitment) (tasks : List Task) (today : Nat)
    (nowAbs : ℚ) :
    PlanTotalsValid (redistributeMissedSessionsWithFeedback plans settings
      comms tasks today nowAbs).updatedPlans := by
  unfold redistributeMissedSessionsWithFeedback
  by_cases hm : (collectMissedSessions plans tasks today nowAbs).isEmpty
  · rw [if_pos hm]
    exact h
  · rw [if_neg hm]
    exact totalsValid_processMissedSessions h _ _ _ _ _

theorem totalsValid_combineSessionsOnSameDay {plans : List StudyPlan}
    (h : PlanTotalsValid plans) (settings : UserSettings) :
    PlanTotalsValid (combineSessionsOnSameDay plans settings) := by
  intro p hp
  unfold combineSessionsOnSameDay at hp
  obtain ⟨q, hq, rfl⟩ := List.mem_map.mp hp
  unfold combinePlan
  by_cases hl : q.isLocked = true
  · rw [if_pos hl]
    exact h q hq
  · rw [if_neg hl]

/-- An unlocked plan whose cached total (7) does not match its (empty)
session list, to exhibit that generation passes stale totals through. -/
def stalePlan : StudyPlan :=
  { date := 5, plannedTasks := [], totalStudyHours := 7, availableHours := 8,
    isLocked := false }

/-- A skipped 1h session of task 1. -/
def skippedSession : StudySession :=
  { taskId := 1, startTime := 480, endTime := 540, allocatedHours := 1,
    sessionNumber := 1, status := .skipped, done := false }

/-- A locked plan holding only the skipped session; its cached total 0 *does*
satisfy the invariant (skipped sessions do not count). -/
def lockedSkippedPlan : StudyPlan :=
  { date := 2, plannedTasks := [skippedSession], totalStudyHours := 0,
    availableHours := 0, isLocked := true }

/-- A pending task used by the eviction counterexample. -/
def wTask : Task :=
  { id := 1, estimatedHours := 5, deadline := 30, importance := false,
    status := .pending }

/-- C6 counterexample.  (a) `generateNewStudyPlan` with no pending work
returns the collection unchanged, so a stale cached total (7 against an empty
session list) survives in the output — the invariant does not hold
unconditionally after the operation.  (b) Even on an input where every plan
satisfies the invariant, `redistributeFromLockedDays` breaks it: evicting a
*skipped* session from a locked day decrements the origin plan's running
total by hours that were never counted in it, leaving `-1` against a
non-skipped session sum of `0`. -/
theorem C6_counterexample_totals_drift :
    (generateNewStudyPlan [] wSettings [] [stalePlan] 1 1440 = [stalePlan] ∧
      stalePlan.totalStudyHours = 7 ∧
      sessionsTotal stalePlan.plannedTasks = 0 ∧ (7 : ℚ) ≠ 0) ∧
    (PlanTotalsValid [lockedSkippedPlan] ∧
      (redistributeFromLockedDays [lockedSkippedPlan] [wTask] wSettings [] 3
          (3 * 1440)).modifiedPlans.map
        (fun p => (p.totalStudyHours, sessionsTotal p.plannedTasks)) =
        [(-1, 0), (1, 1)] ∧
      (-1 : ℚ) ≠ 0) := by
  refine ⟨⟨?_, rfl, ?_, by norm_num⟩, ⟨?_, ?_, by norm_num⟩⟩
  · norm_num [generateNewStudyPlan, generateNewStudyPlanFull,
      tasksWithRemainingHours]
  · norm_num [stalePlan, sessionsTotal]
  · intro p hp
    rcases List.mem_singleton.mp hp with rfl
    norm_num +decide [lockedSkippedPlan, skippedSession, sessionsTotal]
  · norm_num +decide [redistributeFromLockedDays, collectLockedDaysSessions,
      lockedSkippedPlan, skippedSession, wTask, wSettings,
      lockedEvictionPriority, stableSort, insertSorted, processLockedEntries,
      findBestRedistributionSlot, findBestRedistributionSlotGo,
      findAvailableTimeSlot, commitmentIntervals, dateIsLocked, findPlan,
      evictFromOriginPlan, spliceSession, appendToTargetPlan, sessionsTotal]

/-- C6 (amended): provided every input plan satisfies
`totalStudyHours = sum of non-skipped session hours`, the collections
returned by `generateNewStudyPlan`, `redistributeMissedSessionsWithFeedback`
and `combineSessionsOnSameDay` satisfy it too (these paths recompute totals
after every structural mutation).  `redistributeFromLockedDays` is excluded:
its incremental total updates can drift (see the counterexample). -/
theorem C6_totals_invariant_amended (tasks : List Task)
    (settings : UserSettings) (comms : List FixedCommitment)
    (plans : List StudyPlan) (today : Nat) (nowAbs : ℚ)
    (hinv : PlanTotalsValid plans) :
    PlanTotalsValid
      (generateNewStudyPlan tasks settings comms plans today nowAbs) ∧
    PlanTotalsValid
      (redistributeMissedSessionsWithFeedback plans settings comms tasks
        today nowAbs).updatedPlans ∧
    PlanTotalsValid (combineSessionsOnSameDay plans settings) :=
  ⟨totalsValid_generateNewStudyPlan hinv tasks settings comms today nowAbs,
    totalsValid_redistributeMissed hinv settings comms tasks today nowAbs,
    totalsValid_combineSessionsOnSameDay hinv settings⟩

/-- Witness for the amended C6 theorem at a concrete valid input. -/
theorem C6_totals_invariant_amended_witness :
    PlanTotalsValid (generateNewStudyPlan [] wSettings [] [wLockedPlan] 1 1440) ∧
    PlanTotalsValid (combineSessionsOnSameDay [wLockedPlan] wSettings) := by
  have h := C6_totals_invariant_amended [] wSettings [] [wLockedPlan] 1 1440
    (by
      intro p hp
      rcases List.mem_singleton.mp hp with rfl
      norm_num [wLockedPlan, sessionsTotal])
  exact ⟨h.1, h.2.2⟩

/-! ## Session accounting kit (shared by the session-number and conservation
claims). -/

/-- All sessions of a collection, in plan order. -/
def allSessions (P : List StudyPlan) : List StudySession :=
  P.flatMap (fun p => p.plannedTasks)

/-- Two sessions of the same task never share a session number (taken over
every session of the collection). -/
def SessionNumbersUnique (P : List StudyPlan) : Prop :=
  (allSessions P).Pairwise
    (fun a b => a.taskId = b.taskId → a.sessionNumber ≠ b.sessionNumber)

/-- The inner accumulator of `getNextSessionNumber` as a fold over a flat
session list. -/
def numFold (tid : Nat) (l : List StudySession) (m : Nat) : Nat :=
  l.foldl (fun m s =>
    if s.taskId == tid && s.sessionNumber != 0 then max m s.sessionNumber
    else m) m

theorem numFold_append (tid : Nat) (l₁ l₂ : List StudySession) (m : Nat) :
    numFold tid (l₁ ++ l₂) m = numFold tid l₂ (numFold tid l₁ m) :=
  List.foldl_append _ _ _ _

theorem le_numFold (tid : Nat) (l : List StudySession) (m : Nat) :
    m ≤ numFold tid l m := by
  induction l generalizing m with
  | nil => exact le_refl m
  | cons s rest ih =>
    unfold numFold at ih ⊢
    rw [List.foldl_cons]
    refine le_trans ?_ (ih _)
    split
    · exact le_max_left _ _
    · exact le_refl m

theorem numFold_mono (tid : Nat) (l : List StudySession) {m m' : Nat}
    (h : m ≤ m') : numFold tid l m ≤ numFold tid l m' := by
  induction l generalizing m m' with
  | nil => exact h
  | cons s rest ih =>
    unfold numFold at ih ⊢
    rw [List.foldl_cons, List.foldl_cons]
    refine ih ?_
    split
    · exact max_le_max h (le_refl _)
    · exact h

theorem mem_le_numFold {tid : Nat} {l : List StudySession} {s : StudySession}
    (hs : s ∈ l) (ht : s.taskId = tid) (hn : s.sessionNumber ≠ 0) (m : Nat) :
    s.sessionNumber ≤ numFold tid l m := by
  induction l generalizing m with
  | nil => cases hs
  | cons x rest ih =>
    unfold numFold at ih ⊢
    rw [List.foldl_cons]
    rcases List.mem_cons.mp hs with rfl | hs2
    · rw [if_pos (by simp [ht, hn])]
      exact le_trans (le_max_right _ _) (le_numFold tid rest _)
    · exact ih hs2 _

/-- `getNextSessionNumber` as a fold over `allSessions`. -/
theorem getNextSessionNumber_eq (tid : Nat) (P : List StudyPlan) :
    getNextSessionNumber tid P = numFold tid (allSessions P) 0 + 1 := by
  have hgen : ∀ (Q : List StudyPlan) (m : Nat),
      Q.foldl (fun m plan => numFold tid plan.plannedTasks m) m =
        numFold tid (allSessions Q) m := by
    intro Q
    induction Q with
    | nil => intro m; rfl
    | cons q qs ih =>
      intro m
      rw [List.foldl_cons]
      unfold allSessions
      rw [List.flatMap_cons, numFold_append]
      exact ih _
  show (P.foldl (fun m plan => numFold tid plan.plannedTasks m) 0) + 1 =
    numFold tid (allSessions P) 0 + 1
  rw [hgen]

/-- A session of the collection with a non-zero number is strictly below the
next session number for its task. -/
theorem lt_getNextSessionNumber {P : List StudyPlan} {s : StudySession}
    {tid : Nat} (hs : s ∈ allSessions P) (ht : s.taskId = tid) :
    s.sessionNumber < getNextSessionNumber tid P := by
  rw [getNextSessionNumber_eq]
  by_cases hn : s.sessionNumber = 0
  · omega
  · exact Nat.lt_succ_of_le (mem_le_numFold hs ht hn 0)

/-- Shape of `addSessionToPlan` at the session level: either the insertion is
rejected because the first plan for the date is locked (collection
unchanged), or exactly the new session is spliced into the session list. -/
theorem allSessions_addSessionToPlan (s : StudySession) (d : Nat)
    (st : UserSettings) (P : List StudyPlan) :
    ((∃ q, findPlan d P = some q ∧ q.isLocked = true) ∧
      addSessionToPlan s d st P = P) ∨
    (∃ l₁ l₂, allSessions P = l₁ ++ l₂ ∧
      allSessions (addSessionToPlan s d st P) = l₁ ++ s :: l₂) := by
  induction P with
  | nil =>
    right
    exact ⟨[], [], rfl, by
      show allSessions [pushSession s (freshPlan d st)] = [s]
      simp [allSessions, pushSession, freshPlan]⟩
  | cons p ps ih =>
    by_cases hd : (p.date == d) = true
    · by_cases hl : p.isLocked = true
      · left
        constructor
        · refine ⟨p, ?_, hl⟩
          unfold findPlan
          rw [List.find?_cons, hd]
        · unfold addSessionToPlan
          rw [if_pos hd, if_pos hl]
      · right
        refine ⟨p.plannedTasks, allSessions ps, by simp [allSessions], ?_⟩
        unfold addSessionToPlan
        rw [if_pos hd, if_neg hl]
        show allSessions (pushSession s p :: ps) = _
        simp [allSessions, pushSession]
    · rcases ih with ⟨⟨q, hq, hql⟩, heq⟩ | ⟨l₁, l₂, h1, h2⟩
      · left
        constructor
        · refine ⟨q, ?_, hql⟩
          unfold findPlan at hq ⊢
          rw [List.find?_cons, show (p.date == d) = false by
            cases hb : (p.date == d)
            · rfl
            · exact absurd hb hd]
          exact hq
        · unfold addSessionToPlan
          rw [if_neg hd, heq]
      · right
        refine ⟨p.plannedTasks ++ l₁, l₂, ?_, ?_⟩
        · show allSessions (p :: ps) = _
          unfold allSessions at h1 ⊢
          rw [List.flatMap_cons, h1, List.append_assoc]
        · unfold addSessionToPlan
          rw [if_neg hd]
          show allSessions (p :: addSessionToPlan s d st ps) = _
          unfold allSessions at h2 ⊢
          rw [List.flatMap_cons, h2]
          simp

/-- The pairwise relation of `SessionNumbersUnique` is symmetric. -/
theorem sessionNumRel_symm :
    Symmetric (fun a b : StudySession =>
      a.taskId = b.taskId → a.sessionNumber ≠ b.sessionNumber) := by
  intro a b hab hba
  exact fun hn => (hab hba.symm) hn.symm

theorem mem_allSessions_addSession {x s : StudySession} {d : Nat}
    {st : UserSettings} {P : List StudyPlan}
    (hx : x ∈ allSessions (addSessionToPlan s d st P)) :
    x ∈ allSessions P ∨ x = s := by
  rcases allSessions_addSessionToPlan s d st P with ⟨_, heq⟩ | ⟨l₁, l₂, h1, h2⟩
  · rw [heq] at hx
    exact Or.inl hx
  · rw [h2] at hx
    rcases List.mem_append.mp hx with hx1 | hx2
    · exact Or.inl (by rw [h1]; exact List.mem_append.mpr (Or.inl hx1))
    · rcases List.mem_cons.mp hx2 with rfl | hx3
      · exact Or.inr rfl
      · exact Or.inl (by rw [h1]; exact List.mem_append.mpr (Or.inr hx3))

theorem sessionNumbersUnique_addSession {s : StudySession} {d : Nat}
    {st : UserSettings} {P : List StudyPlan} (hu : SessionNumbersUnique P)
    (hfresh : ∀ x ∈ allSessions P,
      x.taskId = s.taskId → x.sessionNumber ≠ s.sessionNumber) :
    SessionNumbersUnique (addSessionToPlan s d st P) := by
  rcases allSessions_addSessionToPlan s d st P with ⟨_, heq⟩ | ⟨l₁, l₂, h1, h2⟩
  · rw [SessionNumbersUnique, heq]
    exact hu
  · rw [SessionNumbersUnique, h2]
    rw [List.pairwise_middle (fun hxy => sessionNumRel_symm hxy)]
    refine List.Pairwise.cons ?_ (by rw [← h1]; exact hu)
    intro b hb ht
    have hbP : b ∈ allSessions P := by rw [h1]; exact hb
    exact fun hn => (hfresh b hbP ht.symm) hn.symm

theorem numFold_cons (tid : Nat) (s : StudySession) (l : List StudySession)
    (m : Nat) :
    numFold tid (s :: l) m = numFold tid l
      (if s.taskId == tid && s.sessionNumber != 0 then max m s.sessionNumber
        else m) := rfl

theorem getNextSessionNumber_le_addSession (tid : Nat) (s : StudySession)
    (d : Nat) (st : UserSettings) (P : List StudyPlan) :
    getNextSessionNumber tid P ≤
      getNextSessionNumber tid (addSessionToPlan s d st P) := by
  rcases allSessions_addSessionToPlan s d st P with ⟨_, heq⟩ | ⟨l₁, l₂, h1, h2⟩
  · rw [heq]
  · rw [getNextSessionNumber_eq, getNextSessionNumber_eq, h1, h2]
    have h3 : numFold tid (l₁ ++ l₂) 0 ≤ numFold tid (l₁ ++ s :: l₂) 0 := by
      rw [numFold_append, numFold_append, numFold_cons]
      refine numFold_mono tid l₂ ?_
      split
      · exact le_max_left _ _
      · exact le_refl _
    omega

/-- During a scheduling pass starting from the purged collection `W`, every
session of the current state either already existed in `W` or got a number at
least `getNextSessionNumber` of its task in `W`; and next-numbers never
decrease. -/
def SessionsFrom (W Q : List StudyPlan) : Prop :=
  (∀ x ∈ allSessions Q, x ∈ allSessions W ∨
    getNextSessionNumber x.taskId W ≤ x.sessionNumber) ∧
  (∀ tid, getNextSessionNumber tid W ≤ getNextSessionNumber tid Q)

theorem sessionsFrom_refl (W : List StudyPlan) : SessionsFrom W W :=
  ⟨fun _ hx => Or.inl hx, fun _ => le_refl _⟩

theorem sessionsFrom_addSession {W Q : List StudyPlan} {s : StudySession}
    {d : Nat} {st : UserSettings} (h : SessionsFrom W Q)
    (hs : getNextSessionNumber s.taskId W ≤ s.sessionNumber) :
    SessionsFrom W (addSessionToPlan s d st Q) := by
  constructor
  · intro x hx
    rcases mem_allSessions_addSession hx with hx2 | rfl
    · exact h.1 x hx2
    · exact Or.inr hs
  · intro tid
    exact le_trans (h.2 tid) (getNextSessionNumber_le_addSession tid s d st Q)

/-- The freshness and uniqueness invariants through the day loop of
`scheduleTaskWithStrategy`. -/
theorem schedule_days_invariants {W Q : List StudyPlan} {tid : Nat}
    (st : UserSettings) (comms : List FixedCommitment)
    (items : List (Nat × ℚ)) {num : Nat}
    (hfrom : SessionsFrom W Q) (hu : SessionNumbersUnique Q)
    (hnum : ∀ x ∈ allSessions Q, x.taskId = tid → x.sessionNumber < num)
    (hnumW : getNextSessionNumber tid W ≤ num) :
    SessionsFrom W (scheduleSessionsOnDays tid st comms items num Q).plans ∧
    SessionNumbersUnique (scheduleSessionsOnDays tid st comms items num Q).plans := by
  induction items generalizing num Q with
  | nil => exact ⟨hfrom, hu⟩
  | cons item rest ih =>
    unfold scheduleSessionsOnDays
    split
    · split
      · split
        · refine ih (sessionsFrom_addSession hfrom hnumW)
            (sessionNumbersUnique_addSession hu ?fresh) ?bound ?boundW
          case fresh =>
            intro x hx ht
            exact Nat.ne_of_lt (hnum x hx ht)
          case bound =>
            intro x hx ht
            rcases mem_allSessions_addSession hx with hx2 | rfl
            · exact Nat.lt_succ_of_lt (hnum x hx2 ht)
            · exact Nat.lt_succ_self _
          case boundW => exact Nat.le_succ_of_le hnumW
        · exact ih hfrom hu hnum hnumW
      · exact ih hfrom hu hnum hnumW
    · exact ih hfrom hu hnum hnumW

theorem schedule_task_invariants {W Q : List StudyPlan} (t : Task × ℚ)
    (strategy : Strategy) (st : UserSettings)
    (comms : List FixedCommitment) (today : Nat)
    (hfrom : SessionsFrom W Q) (hu : SessionNumbersUnique Q) :
    SessionsFrom W (scheduleTaskWithStrategy t strategy Q st comms today).plans ∧
    SessionNumbersUnique
      (scheduleTaskWithStrategy t strategy Q st comms today).plans := by
  unfold scheduleTaskWithStrategy
  by_cases h0 : t.2 ≤ 0
  · rw [if_pos h0]
    exact ⟨hfrom, hu⟩
  · rw [if_neg h0]
    by_cases h2 : (getAvailableDaysForTask t.1 Q st today).isEmpty
    · rw [if_pos h2]
      exact ⟨hfrom, hu⟩
    · rw [if_neg h2]
      refine schedule_days_invariants st comms _ hfrom hu ?_ (hfrom.2 t.1.id)
      intro x hx ht
      exact lt_getNextSessionNumber hx ht

theorem schedule_tasks_invariants {W : List StudyPlan}
    (l : List (Task × ℚ)) (strategyOf : Task × ℚ → Strategy)
    (st : UserSettings) (comms : List FixedCommitment) (today : Nat)
    {acc : ScheduleResult} (hfrom : SessionsFrom W acc.plans)
    (hu : SessionNumbersUnique acc.plans) :
    SessionsFrom W
      ((l.foldl (fun acc t =>
        let r := scheduleTaskWithStrategy t (strategyOf t) acc.plans st comms today
        ⟨r.plans, acc.failed ++ r.failed⟩) acc).plans) ∧
    SessionNumbersUnique
      ((l.foldl (fun acc t =>
        let r := scheduleTaskWithStrategy t (strategyOf t) acc.plans st comms today
        ⟨r.plans, acc.failed ++ r.failed⟩) acc).plans) := by
  induction l generalizing acc with
  | nil => exact ⟨hfrom, hu⟩
  | cons t rest ih =>
    rw [List.foldl_cons]
    have h := schedule_task_invariants t (strategyOf t) st comms today hfrom hu
    exact ih h.1 h.2

theorem allSessions_removeUnlocked_sublist (tid : Nat) (P : List StudyPlan) :
    (allSessions (removeUnlockedTaskSessions tid P)).Sublist (allSessions P) := by
  induction P with
  | nil => exact List.Sublist.refl _
  | cons p ps ih =>
    unfold removeUnlockedTaskSessions at ih ⊢
    rw [List.map_cons]
    unfold allSessions at ih ⊢
    rw [List.flatMap_cons, List.flatMap_cons]
    by_cases hl : p.isLocked = true
    · rw [if_pos hl]
      exact List.Sublist.append (List.Sublist.refl _) ih
    · rw [if_neg hl]
      exact List.Sublist.append (List.filter_sublist _) ih

theorem sessionNumbersUnique_removeUnlocked {P : List StudyPlan}
    (hu : SessionNumbersUnique P) (tid : Nat) :
    SessionNumbersUnique (removeUnlockedTaskSessions tid P) :=
  List.Pairwise.sublist (allSessions_removeUnlocked_sublist tid P) hu

theorem sessionNumbersUnique_purge {P : List StudyPlan}
    (hu : SessionNumbersUnique P) (l : List (Task × ℚ)) :
    SessionNumbersUnique
      (l.foldl (fun ps t => removeUnlockedTaskSessions t.1.id ps) P) := by
  induction l generalizing P with
  | nil => exact hu
  | cons t rest ih => exact ih (sessionNumbersUnique_removeUnlocked hu t.1.id)

/-- The working collection after step 3 of `generateNewStudyPlan`: the
unlocked pending sessions of every task to be scheduled have been purged. -/
def purgedPlans (tasks : List Task) (plans : List StudyPlan) : List StudyPlan :=
  (tasksWithRemainingHours tasks plans).foldl
    (fun ps t => removeUnlockedTaskSessions t.1.id ps) plans

/-- A task whose only (unlocked, pending) session carries number 1; the
generation pass removes that session and hands the replacement the same
number 1 again. -/
def reuseTask : Task :=
  { id := 1, estimatedHours := 2, deadline := 1, importance := false,
    status := .pending }

def oldSession : StudySession :=
  { taskId := 1, startTime := 540, endTime := 660, allocatedHours := 2,
    sessionNumber := 1, status := .scheduled, done := false }

def oldPlan : StudyPlan :=
  { date := 1, plannedTasks := [oldSession], totalStudyHours := 2,
    availableHours := 8, isLocked := false }

/-- C8 counterexample: the input holds session number 1 of task 1 (at
9:00–11:00); regeneration discards it and creates a *different* session (at
8:00) for the same task carrying session number 1 again —
`getNextSessionNumber` is computed over the current collection only, so
numbers of removed sessions are reused, contradicting "strictly greater than
every sessionNumber previously assigned … including sessions that were since
removed". -/
theorem C8_counterexample_number_reuse :
    (allSessions [oldPlan]).map (fun s => (s.taskId, s.sessionNumber)) =
      [(1, 1)] ∧
    (allSessions (generateNewStudyPlan [reuseTask] wSettings [] [oldPlan] 1
        1440)).map (fun s => (s.taskId, s.sessionNumber, s.startTime)) =
      [(1, 1, 480)] ∧
    (480 : ℚ) ≠ 540 := by
  refine ⟨by norm_num [allSessions, oldPlan, oldSession], ?_, by norm_num⟩
  norm_num +decide [allSessions, generateNewStudyPlan, generateNewStudyPlanFull,
    tasksWithRemainingHours, calculateRemainingTaskHours, isSessionLocked,
    removeUnlockedTaskSessions, keepSession, sessionsTotal,
    generateEvenDistributionPlan, scheduleTasks, stableSort, insertSorted,
    evenTaskLE, scheduleTaskWithStrategy, getAvailableDaysForTask,
    dateIsLocked, findPlan, calculateDailyHoursDistribution, distributeEvenly,
    distributeRemainder, round2, jsRound, getNextSessionNumber,
    scheduleSessionsOnDays, findNextAvailableTimeSlot,
    getDailyAvailableTimeSlots, commitmentIntervals, mergeIntervals,
    collectSlots, minSessionLengthEff, addSessionToPlan, pushSession,
    oldPlan, oldSession, reuseTask, wSettings,
    List.range_succ, List.range_zero, List.map_append, List.filter_append,
    List.zip_cons_cons, List.zip_nil_right, List.zip_nil_left,
    List.flatMap_cons, List.flatMap_nil, List.find?_cons, List.filterMap_cons]

/-- C8 (amended): a generation pass preserves per-task uniqueness of session
numbers, and every session it creates carries a number strictly greater than
every number still present for that task after the purge of its unlocked
pending sessions (`getNextSessionNumber` = current maximum + 1, incremented
per placed session).  Numbers of sessions removed by the purge may be
reused. -/
theorem C8_session_numbers_amended (tasks : List Task)
    (settings : UserSettings) (comms : List FixedCommitment)
    (plans : List StudyPlan) (today : Nat) (nowAbs : ℚ)
    (hu : SessionNumbersUnique plans) :
    SessionNumbersUnique
      (generateNewStudyPlan tasks settings comms plans today nowAbs) ∧
    ∀ x ∈ allSessions
        (generateNewStudyPlan tasks settings comms plans today nowAbs),
      x ∈ allSessions (purgedPlans tasks plans) ∨
      ∀ y ∈ allSessions (purgedPlans tasks plans), y.taskId = x.taskId →
        y.sessionNumber < x.sessionNumber := by
  have key : SessionsFrom (purgedPlans tasks plans)
      (generateNewStudyPlan tasks settings comms plans today nowAbs) ∧
      SessionNumbersUnique
        (generateNewStudyPlan tasks settings comms plans today nowAbs) := by
    unfold generateNewStudyPlan generateNewStudyPlanFull
    by_cases h : (tasksWithRemainingHours tasks plans).isEmpty
    · rw [if_pos h]
      have h2 : tasksWithRemainingHours tasks plans = [] :=
        List.isEmpty_iff.mp h
      unfold purgedPlans
      rw [h2]
      exact ⟨sessionsFrom_refl plans, hu⟩
    · rw [if_neg h]
      have huW : SessionNumbersUnique (purgedPlans tasks plans) :=
        sessionNumbersUnique_purge hu _
      have hW : SessionsFrom (purgedPlans tasks plans) (purgedPlans tasks plans) :=
        sessionsFrom_refl _
      cases settings.studyPlanMode with
      | eisenhower =>
        unfold generateEisenhowerPlan scheduleTasks
        exact And.intro
          (schedule_tasks_invariants _ _ _ _ _ hW huW).1
          (schedule_tasks_invariants _ _ _ _ _ hW huW).2
      | balanced =>
        unfold generateBalancedPriorityPlan scheduleTasks
        exact And.intro
          (schedule_tasks_invariants _ _ _ _ _ hW huW).1
          (schedule_tasks_invariants _ _ _ _ _ hW huW).2
      | even =>
        unfold generateEvenDistributionPlan scheduleTasks
        exact And.intro
          (schedule_tasks_invariants _ _ _ _ _ hW huW).1
          (schedule_tasks_invariants _ _ _ _ _ hW huW).2
  refine ⟨key.2, fun x hx => ?_⟩
  rcases key.1.1 x hx with hold | hge
  · exact Or.inl hold
  · refine Or.inr (fun y hy ht => ?_)
    exact lt_of_lt_of_le (lt_getNextSessionNumber hy ht) hge

/-- Witness for the amended C8 theorem at a concrete input. -/
theorem C8_session_numbers_amended_witness :
    SessionNumbersUnique
      (generateNewStudyPlan [] wSettings [] [wLockedPlan] 1 1440) :=
  (C8_session_numbers_amended [] wSettings [] [wLockedPlan] 1 1440
    (by simp [SessionNumbersUnique, allSessions, wLockedPlan])).1

/-! ## C2: conservation of allocated hours per task -/

/-- Sum of `allocatedHours` over a session list's non-skipped sessions of one
task. -/
def planTaskSum (tid : Nat) (sessions : List StudySession) : ℚ :=
  ((sessions.filter (fun s => s.taskId == tid && s.status != .skipped)).map
    (fun s => s.allocatedHours)).sum

/-- Sum of `allocatedHours` over a task's non-skipped sessions across the
whole collection — the quantity the conservation claim bounds by
`estimatedHours`. -/
def taskSum (tid : Nat) (P : List StudyPlan) : ℚ :=
  (((allSessions P).filter (fun s => s.taskId == tid && s.status != .skipped)).map
    (fun s => s.allocatedHours)).sum

/-- What one session contributes to `taskSum tid`. -/
def sessionContrib (tid : Nat) (s : StudySession) : ℚ :=
  if s.taskId == tid && s.status != .skipped then s.allocatedHours else 0

theorem taskSum_cons (tid : Nat) (p : StudyPlan) (P : List StudyPlan) :
    taskSum tid (p :: P) = planTaskSum tid p.plannedTasks + taskSum tid P := by
  unfold taskSum allSessions planTaskSum
  rw [List.flatMap_cons, List.filter_append, List.map_append, List.sum_append]

/-- Sums of a nonnegative function never grow along a sublist. -/
theorem sum_map_le_of_sublist {α : Type} {f : α → ℚ} {l₁ l₂ : List α}
    (h : l₁.Sublist l₂) (hnn : ∀ x ∈ l₂, 0 ≤ f x) :
    (l₁.map f).sum ≤ (l₂.map f).sum := by
  induction h with
  | slnil => exact le_refl 0
  | cons a h ih =>
    rw [List.map_cons, List.sum_cons]
    have h1 := ih (fun x hx => hnn x (List.mem_cons_of_mem a hx))
    have h2 := hnn a (List.mem_cons_self a _)
    linarith
  | cons₂ a h ih =>
    rw [List.map_cons, List.map_cons, List.sum_cons, List.sum_cons]
    have h1 := ih (fun x hx => hnn x (List.mem_cons_of_mem a hx))
    linarith

/-- Filtering by a pointwise-weaker predicate yields a sublist of the filter
by the stronger one. -/
theorem filter_sublist_filter_of_imp {α : Type} {p q : α → Bool} (l : List α)
    (h : ∀ x ∈ l, p x = true → q x = true) :
    (l.filter p).Sublist (l.filter q) := by
  induction l with
  | nil => exact List.Sublist.refl _
  | cons a t ih =>
    rw [List.filter_cons, List.filter_cons]
    have iht := ih (fun x hx => h x (List.mem_cons_of_mem a hx))
    by_cases hp : p a = true
    · rw [if_pos hp, if_pos (h a (List.mem_cons_self a t) hp)]
      exact iht.cons₂ a
    · rw [if_neg hp]
      by_cases hq : q a = true
      · rw [if_pos hq]
        exact iht.cons a
      · rw [if_neg hq]
        exact iht

/-- Inserting a session either leaves the collection unchanged (locked target
plan) or adds exactly the session's contribution to `taskSum`. -/
theorem taskSum_addSession (tid : Nat) (s : StudySession) (d : Nat)
    (st : UserSettings) (P : List StudyPlan) :
    taskSum tid (addSessionToPlan s d st P) = taskSum tid P ∨
    taskSum tid (addSessionToPlan s d st P) =
      taskSum tid P + sessionContrib tid s := by
  rcases allSessions_addSessionToPlan s d st P with ⟨_, heq⟩ | ⟨l₁, l₂, h1, h2⟩
  · left
    rw [heq]
  · right
    unfold taskSum sessionContrib
    rw [h1, h2, List.filter_append, List.filter_append, List.filter_cons]
    by_cases hc : (s.taskId == tid && s.status != SessionStatus.skipped) = true
    · rw [if_pos hc, if_pos hc]
      simp only [List.map_append, List.sum_append, List.map_cons, List.sum_cons]
      ring
    · rw [if_neg hc, if_neg hc]
      simp only [List.map_append, List.sum_append, add_zero]

/-- When the target date is not locked the insertion genuinely lands. -/
theorem taskSum_addSession_of_unlocked {tid : Nat} {s : StudySession} {d : Nat}
    {st : UserSettings} {P : List StudyPlan} (h : dateIsLocked d P = false) :
    taskSum tid (addSessionToPlan s d st P) =
      taskSum tid P + sessionContrib tid s := by
  rcases allSessions_addSessionToPlan s d st P with ⟨⟨q, hq, hql⟩, _⟩ |
      ⟨l₁, l₂, h1, h2⟩
  · exfalso
    unfold dateIsLocked at h
    rw [hq] at h
    dsimp only at h
    rw [hql] at h
    exact Bool.noConfusion h
  · unfold taskSum sessionContrib
    rw [h1, h2, List.filter_append, List.filter_append, List.filter_cons]
    by_cases hc : (s.taskId == tid && s.status != SessionStatus.skipped) = true
    · rw [if_pos hc, if_pos hc]
      simp only [List.map_append, List.sum_append, List.map_cons, List.sum_cons]
      ring
    · rw [if_neg hc, if_neg hc]
      simp only [List.map_append, List.sum_append, add_zero]

theorem taskSum_addSession_le {tid : Nat} (S : StudySession) (d : Nat)
    (st : UserSettings) (P : List StudyPlan) (h0 : 0 ≤ sessionContrib tid S) :
    taskSum tid (addSessionToPlan S d st P) ≤
      taskSum tid P + sessionContrib tid S := by
  rcases taskSum_addSession tid S d st P with heq | heq
  · rw [heq]
    linarith
  · rw [heq]

theorem taskSum_addSession_other {tid : Nat} {S : StudySession} (d : Nat)
    (st : UserSettings) (P : List StudyPlan) (h : (S.taskId == tid) = false) :
    taskSum tid (addSessionToPlan S d st P) = taskSum tid P := by
  rcases taskSum_addSession tid S d st P with heq | heq
  · exact heq
  · rw [heq]
    unfold sessionContrib
    rw [show (S.taskId == tid && S.status != SessionStatus.skipped) = false from
      by rw [h, Bool.false_and]]
    simp

/-- Day loop of the scheduler, own task: the added hours are bounded by the sum
of the per-day allocations. -/
theorem taskSum_scheduleDays_le (tid : Nat) (st : UserSettings)
    (comms : List FixedCommitment) (items : List (Nat × ℚ)) (num : Nat)
    (P : List StudyPlan) (hpos : ∀ it ∈ items, 0 ≤ it.2) :
    taskSum tid (scheduleSessionsOnDays tid st comms items num P).plans ≤
      taskSum tid P + (items.map (fun it => it.2)).sum := by
  induction items generalizing num P with
  | nil =>
    simp only [List.map_nil, List.sum_nil, add_zero]
    exact le_refl _
  | cons item rest ih =>
    have hpr : ∀ it ∈ rest, 0 ≤ it.2 :=
      fun it h => hpos it (List.mem_cons_of_mem _ h)
    have hpi : 0 ≤ item.2 := hpos item (List.mem_cons_self _ _)
    rw [List.map_cons, List.sum_cons]
    unfold scheduleSessionsOnDays
    split
    · split
      · split
        · refine le_trans (ih _ _ hpr) ?_
          rw [show taskSum tid P + (item.2 + (List.map (fun it => it.2) rest).sum)
              = (taskSum tid P + item.2) + (List.map (fun it => it.2) rest).sum
              from by ring]
          refine add_le_add_right ?_ _
          refine le_trans (taskSum_addSession_le _ item.1 st P ?h0) ?rest
          case h0 =>
            unfold sessionContrib
            split
            · exact hpi
            · exact le_refl 0
          case rest =>
            have hc : sessionContrib tid
                { taskId := tid, startTime := (0 : ℚ), endTime := (0 : ℚ),
                  allocatedHours := item.2, sessionNumber := num,
                  status := .scheduled, done := false } ≤ item.2 := by
              unfold sessionContrib
              split
              · exact le_refl _
              · exact hpi
            unfold sessionContrib
            split
            · exact le_refl _
            · linarith
        · exact le_trans (ih num P hpr) (by linarith)
      · exact le_trans (ih num P hpr) (by linarith)
    · exact le_trans (ih num P hpr) (by linarith)

/-- Day loop of the scheduler for another task: `taskSum` of an unrelated task
is untouched. -/
theorem taskSum_scheduleDays_other {tid tid' : Nat} (st : UserSettings)
    (comms : List FixedCommitment) (items : List (Nat × ℚ)) (num : Nat)
    (P : List StudyPlan) (hne : (tid' == tid) = false) :
    taskSum tid (scheduleSessionsOnDays tid' st comms items num P).plans =
      taskSum tid P := by
  induction items generalizing num P with
  | nil => rfl
  | cons item rest ih =>
    unfold scheduleSessionsOnDays
    split
    · split
      · split
        · rw [ih]
          exact taskSum_addSession_other item.1 st P hne
        · exact ih num P
      · exact ih num P
    · exact ih num P

theorem distributeEvenly_sum_le {H : ℚ} {n : Nat} (hH : 0 ≤ H) (hn : 1 ≤ n) :
    (distributeEvenly H n).sum ≤ H + 1/200 := by
  have h := distributeEvenly_sum hH hn
  rw [abs_le] at h
  linarith [h.2]

theorem distributeFrontLoad_sum_le {H : ℚ} {n : Nat} (hH : 0 ≤ H) (hn : 1 ≤ n) :
    (distributeFrontLoad H n).sum ≤ H + 3/200 := by
  rcases thirds_le n with ⟨h1, h2⟩ | rfl
  · simp only [distributeFrontLoad, List.sum_append]
    have hf1 : 1 ≤ firstThirdLen n := by
      unfold firstThirdLen
      omega
    have hd1 : (distributeEvenly (H * (7/10)) (firstThirdLen n)).sum ≤
        H * (7/10) + 1/200 := distributeEvenly_sum_le (by positivity) hf1
    have hd2 : (if secondThirdMark n - firstThirdLen n > 0 then
        distributeEvenly (H * (2/10)) (secondThirdMark n - firstThirdLen n)
        else []).sum ≤ H * (2/10) + 1/200 := by
      split
      · exact distributeEvenly_sum_le (by positivity) (by omega)
      · simp only [List.sum_nil]
        positivity
    have hd3 : (if n - secondThirdMark n > 0 then
        distributeEvenly (H * (1/10)) (n - secondThirdMark n)
        else []).sum ≤ H * (1/10) + 1/200 := by
      split
      · exact distributeEvenly_sum_le (by positivity) (by omega)
      · simp only [List.sum_nil]
        positivity
    linarith
  · exact absurd hn (by omega)

theorem distributeBackLoad_sum_le {H : ℚ} {n : Nat} (hH : 0 ≤ H) (hn : 1 ≤ n) :
    (distributeBackLoad H n).sum ≤ H + 3/200 := by
  rcases thirds_le n with ⟨h1, h2⟩ | rfl
  · simp only [distributeBackLoad, List.sum_append]
    have hf1 : 1 ≤ firstThirdLen n := by
      unfold firstThirdLen
      omega
    have hd1 : (distributeEvenly (H * (1/10)) (firstThirdLen n)).sum ≤
        H * (1/10) + 1/200 := distributeEvenly_sum_le (by positivity) hf1
    have hd2 : (if secondThirdMark n - firstThirdLen n > 0 then
        distributeEvenly (H * (2/10)) (secondThirdMark n - firstThirdLen n)
        else []).sum ≤ H * (2/10) + 1/200 := by
      split
      · exact distributeEvenly_sum_le (by positivity) (by omega)
      · simp only [List.sum_nil]
        positivity
    have hd3 : (if n - secondThirdMark n > 0 then
        distributeEvenly (H * (7/10)) (n - secondThirdMark n)
        else []).sum ≤ H * (7/10) + 1/200 := by
      split
      · exact distributeEvenly_sum_le (by positivity) (by omega)
      · simp only [List.sum_nil]
        positivity
    linarith
  · exact absurd hn (by omega)

/-- Every strategy's per-day allocations sum to at most the requested hours
plus 0.015 (one half-cent of rounding per nonempty third). -/
theorem calculateDaily_sum_le {H : ℚ} {n : Nat} (hH : 0 ≤ H) (hn : 1 ≤ n)
    (strategy : Strategy) :
    (calculateDailyHoursDistribution H n strategy).sum ≤ H + 3/200 := by
  unfold calculateDailyHoursDistribution
  rw [if_neg (by omega)]
  cases strategy with
  | frontLoad => exact distributeFrontLoad_sum_le hH hn
  | backLoad => exact distributeBackLoad_sum_le hH hn
  | even => linarith [distributeEvenly_sum_le hH hn]

theorem zip_snd_sum {l₁ : List Nat} {l₂ : List ℚ} (h : l₁.length = l₂.length) :
    ((l₁.zip l₂).map (fun it => it.2)).sum = l₂.sum := by
  induction l₂ generalizing l₁ with
  | nil => simp [List.zip_nil_right]
  | cons b bs ih =>
    cases l₁ with
    | nil => simp at h
    | cons a as =>
      rw [List.zip_cons_cons, List.map_cons, List.sum_cons, List.sum_cons,
        ih (by simpa using h)]

/-- Scheduling one task adds at most its remaining hours plus the rounding
allowance to its `taskSum`. -/
theorem taskSum_scheduleTask_le (t : Task × ℚ) (strategy : Strategy)
    (P : List StudyPlan) (st : UserSettings) (comms : List FixedCommitment)
    (today : Nat) (h2 : 0 ≤ t.2) :
    taskSum t.1.id (scheduleTaskWithStrategy t strategy P st comms today).plans ≤
      taskSum t.1.id P + t.2 + 3/200 := by
  unfold scheduleTaskWithStrategy
  by_cases h0 : t.2 ≤ 0
  · rw [if_pos h0]
    linarith
  · rw [if_neg h0]
    by_cases hday : (getAvailableDaysForTask t.1 P st today).isEmpty
    · rw [if_pos hday]
      linarith
    · rw [if_neg hday]
      have hn : 1 ≤ (getAvailableDaysForTask t.1 P st today).length := by
        have : getAvailableDaysForTask t.1 P st today ≠ [] := by
          intro hnil
          rw [hnil] at hday
          exact hday rfl
        have := List.length_pos.mpr this
        omega
      have hlen : (calculateDailyHoursDistribution t.2
          (getAvailableDaysForTask t.1 P st today).length strategy).length =
          (getAvailableDaysForTask t.1 P st today).length :=
        calculateDailyHoursDistribution_length _ _ hn
      refine le_trans (taskSum_scheduleDays_le _ st comms _ _ P ?hpos) ?main
      case hpos =>
        intro it hit
        obtain ⟨d, q⟩ := it
        exact calculateDailyHoursDistribution_nonneg _ strategy h2 q
          (List.of_mem_zip hit).2
      case main =>
        rw [zip_snd_sum hlen.symm]
        have := calculateDaily_sum_le h2 hn strategy
        linarith

theorem taskSum_scheduleTask_other {tid : Nat} (t : Task × ℚ)
    (strategy : Strategy) (P : List StudyPlan) (st : UserSettings)
    (comms : List FixedCommitment) (today : Nat)
    (hne : (t.1.id == tid) = false) :
    taskSum tid (scheduleTaskWithStrategy t strategy P st comms today).plans =
      taskSum tid P := by
  unfold scheduleTaskWithStrategy
  by_cases h0 : t.2 ≤ 0
  · rw [if_pos h0]
  · rw [if_neg h0]
    by_cases hday : (getAvailableDaysForTask t.1 P st today).isEmpty
    · rw [if_pos hday]
    · rw [if_neg hday]
      exact taskSum_scheduleDays_other st comms _ _ P hne

/-- Folding the scheduler over tasks of other ids leaves `taskSum` unchanged. -/
theorem taskSum_fold_other {tid : Nat} (l : List (Task × ℚ))
    (strategyOf : Task × ℚ → Strategy) (st : UserSettings)
    (comms : List FixedCommitment) (today : Nat) (acc : ScheduleResult)
    (hother : ∀ u ∈ l, (u.1.id == tid) = false) :
    taskSum tid ((l.foldl (fun (acc : ScheduleResult) t =>
      let r := scheduleTaskWithStrategy t (strategyOf t) acc.plans st comms today
      ⟨r.plans, acc.failed ++ r.failed⟩) acc).plans) = taskSum tid acc.plans := by
  induction l generalizing acc with
  | nil => rfl
  | cons u rest ih =>
    rw [List.foldl_cons]
    rw [ih _ (fun v hv => hother v (List.mem_cons_of_mem _ hv))]
    exact taskSum_scheduleTask_other u (strategyOf u) acc.plans st comms today
      (hother u (List.mem_cons_self _ _))

/-- A full scheduling pass over an ordered task list containing the task once
(all other entries having different ids) adds at most its remaining hours plus
the rounding allowance. -/
theorem taskSum_scheduleTasks_le (t0 : Task × ℚ)
    (l₁ l₂ : List (Task × ℚ)) (strategyOf : Task × ℚ → Strategy)
    (st : UserSettings) (comms : List FixedCommitment) (today : Nat)
    (W : List StudyPlan) (hrem : 0 ≤ t0.2)
    (h₁ : ∀ u ∈ l₁, (u.1.id == t0.1.id) = false)
    (h₂ : ∀ u ∈ l₂, (u.1.id == t0.1.id) = false) :
    taskSum t0.1.id
      (scheduleTasks (l₁ ++ t0 :: l₂) strategyOf W st comms today).plans ≤
      taskSum t0.1.id W + t0.2 + 3/200 := by
  unfold scheduleTasks
  rw [List.foldl_append, List.foldl_cons]
  rw [taskSum_fold_other l₂ strategyOf st comms today _ h₂]
  have hA : taskSum t0.1.id
      ((l₁.foldl (fun (acc : ScheduleResult) t =>
        let r := scheduleTaskWithStrategy t (strategyOf t) acc.plans st comms today
        ⟨r.plans, acc.failed ++ r.failed⟩) ⟨W, []⟩).plans) = taskSum t0.1.id W :=
    taskSum_fold_other l₁ strategyOf st comms today ⟨W, []⟩ h₁
  have hstep := taskSum_scheduleTask_le t0 (strategyOf t0)
    ((l₁.foldl (fun (acc : ScheduleResult) t =>
      let r := scheduleTaskWithStrategy t (strategyOf t) acc.plans st comms today
      ⟨r.plans, acc.failed ++ r.failed⟩) ⟨W, []⟩).plans) st comms today hrem
  rw [hA] at hstep
  exact hstep

/-- The accumulator inside `calculateRemainingTaskHours`: hours of the task's
sessions that are done, completed, skipped, or on a locked day. -/
def accountedHours (task : Task) (studyPlans : List StudyPlan) : ℚ :=
  (((studyPlans.flatMap
      (fun plan => plan.plannedTasks.filter (fun s => s.taskId == task.id))).filter
    (fun s => s.done || s.status == .completed || s.status == .skipped ||
      isSessionLocked s studyPlans)).map (fun s => s.allocatedHours)).sum

theorem calculateRemainingTaskHours_eq (task : Task) (P : List StudyPlan) :
    calculateRemainingTaskHours task P =
      max 0 (task.estimatedHours - accountedHours task P) := rfl

/-- Under per-task session-number uniqueness, the find-first lock lookup of
`isSessionLocked` resolves to the lock flag of the plan actually holding the
session. -/
theorem isSessionLocked_eq_of_unique {P : List StudyPlan}
    (hu : SessionNumbersUnique P) {q : StudyPlan} {x : StudySession}
    (hq : q ∈ P) (hx : x ∈ q.plannedTasks) :
    isSessionLocked x P = q.isLocked := by
  induction P with
  | nil => cases hq
  | cons p ps ih =>
    have hu2 := hu
    unfold SessionNumbersUnique allSessions at hu2
    rw [List.flatMap_cons, List.pairwise_append] at hu2
    rcases List.mem_cons.mp hq with rfl | hq2
    · unfold isSessionLocked
      rw [List.find?_cons]
      rw [show (q.plannedTasks.any fun s =>
          s.taskId == x.taskId && s.sessionNumber == x.sessionNumber) = true from by
        refine List.any_eq_true.mpr ⟨x, hx, ?_⟩
        simp]
    · have hfalse : (p.plannedTasks.any fun s =>
          s.taskId == x.taskId && s.sessionNumber == x.sessionNumber) = false := by
        by_contra hcon
        have htrue : (p.plannedTasks.any fun s =>
            s.taskId == x.taskId && s.sessionNumber == x.sessionNumber) = true := by
          cases hb : (p.plannedTasks.any fun s =>
              s.taskId == x.taskId && s.sessionNumber == x.sessionNumber)
          · exact absurd hb hcon
          · rfl
        obtain ⟨y, hy, hyeq⟩ := List.any_eq_true.mp htrue
        rw [Bool.and_eq_true, beq_iff_eq, beq_iff_eq] at hyeq
        have hxall : x ∈ ps.flatMap (fun plan => plan.plannedTasks) :=
          List.mem_flatMap.mpr ⟨q, hq2, hx⟩
        exact (hu2.2.2 y hy x hxall hyeq.1) hyeq.2
      unfold isSessionLocked at ih ⊢
      rw [List.find?_cons]
      rw [hfalse]
      exact ih hu2.2.1 hq2

/-- `List.filter` distributes over `List.flatMap`. -/
theorem filter_flatMap {α β : Type} (l : List α) (g : α → List β)
    (p : β → Bool) :
    (l.flatMap g).filter p = l.flatMap (fun a => (g a).filter p) := by
  induction l with
  | nil => rfl
  | cons a t ih =>
    rw [List.flatMap_cons, List.flatMap_cons, List.filter_append, ih]

/-- Summing a mapped `flatMap` plan-by-plan. -/
theorem sum_map_flatMap {α β : Type} (l : List α) (g : α → List β)
    (h : β → ℚ) :
    (((l.flatMap g).map h).sum) = (l.map (fun a => ((g a).map h).sum)).sum := by
  induction l with
  | nil => rfl
  | cons a t ih =>
    rw [List.flatMap_cons, List.map_cons, List.map_append, List.sum_append,
      List.sum_cons, ih]

/-- The per-plan share of `accountedHours`, with the session-lock lookup
replaced by the plan's own lock flag. -/
def planAccount (tid : Nat) (lk : Bool) (sessions : List StudySession) : ℚ :=
  (((sessions.filter (fun s => s.taskId == tid)).filter (fun s =>
    s.done || s.status == .completed || s.status == .skipped || lk)).map
      (fun s => s.allocatedHours)).sum

theorem accountedHours_eq_sum (t : Task) (P : List StudyPlan)
    (hu : SessionNumbersUnique P) :
    accountedHours t P =
      (P.map (fun q => planAccount t.id q.isLocked q.plannedTasks)).sum := by
  unfold accountedHours
  rw [filter_flatMap, sum_map_flatMap]
  refine congrArg List.sum (List.map_congr_left ?_)
  intro q hq
  unfold planAccount
  refine congrArg List.sum (congrArg (List.map _) (List.filter_congr ?_))
  intro s hs
  have hsq : s ∈ q.plannedTasks := List.mem_of_mem_filter hs
  rw [isSessionLocked_eq_of_unique hu hq hsq]

theorem taskSum_eq_sum (tid : Nat) (P : List StudyPlan) :
    taskSum tid P = (P.map (fun p => planTaskSum tid p.plannedTasks)).sum := by
  unfold taskSum allSessions planTaskSum
  rw [filter_flatMap, sum_map_flatMap]

/-- Plan-wise relation along the purge fold of `generateNewStudyPlan`:
locks and dates are untouched, locked plans are verbatim, session lists only
shrink. -/
def ShrinkStep (q w : StudyPlan) : Prop :=
  w.isLocked = q.isLocked ∧ (q.isLocked = true → w = q) ∧
  w.plannedTasks.Sublist q.plannedTasks

/-- After the purge step for `tid` has run: on unlocked plans only the task's
done/completed/skipped sessions survive. -/
def PurgeStep (tid : Nat) (q w : StudyPlan) : Prop :=
  ShrinkStep q w ∧
  (q.isLocked = false → ∀ x ∈ w.plannedTasks, x.taskId = tid →
    x.done = true ∨ x.status = .completed ∨ x.status = .skipped)

theorem shrinkStep_refl (q : StudyPlan) : ShrinkStep q q :=
  ⟨rfl, fun _ => rfl, List.Sublist.refl _⟩

/-- `removeUnlockedTaskSessions` as a `Forall₂`, generic in the plan-wise
postcondition. -/
theorem forall₂_removeUnlocked {R S : StudyPlan → StudyPlan → Prop}
    {P W : List StudyPlan} (h : List.Forall₂ R P W) (tid : Nat)
    (hpt : ∀ q w, R q w → S q (if w.isLocked then w else
      { w with
        plannedTasks := w.plannedTasks.filter (keepSession tid)
        totalStudyHours := sessionsTotal (w.plannedTasks.filter (keepSession tid)) })) :
    List.Forall₂ S P (removeUnlockedTaskSessions tid W) := by
  unfold removeUnlockedTaskSessions
  induction h with
  | nil => exact List.Forall₂.nil
  | cons hqw htail ih =>
    rw [List.map_cons]
    exact List.Forall₂.cons (hpt _ _ hqw) ih

theorem shrinkStep_step (tid : Nat) {q w : StudyPlan} (h : ShrinkStep q w) :
    ShrinkStep q (if w.isLocked then w else
      { w with
        plannedTasks := w.plannedTasks.filter (keepSession tid)
        totalStudyHours := sessionsTotal (w.plannedTasks.filter (keepSession tid)) }) := by
  by_cases hl : w.isLocked = true
  · rw [if_pos hl]
    exact h
  · rw [if_neg hl]
    refine ⟨h.1, ?_, (List.filter_sublist _).trans h.2.2⟩
    intro hql
    exact absurd (h.1.trans hql) hl

theorem purgeStep_of_shrink (tid : Nat) {q w : StudyPlan} (h : ShrinkStep q w) :
    PurgeStep tid q (if w.isLocked then w else
      { w with
        plannedTasks := w.plannedTasks.filter (keepSession tid)
        totalStudyHours := sessionsTotal (w.plannedTasks.filter (keepSession tid)) }) := by
  refine ⟨shrinkStep_step tid h, ?_⟩
  by_cases hl : w.isLocked = true
  · rw [if_pos hl]
    intro hq0
    rw [← h.1] at hq0
    rw [hl] at hq0
    cases hq0
  · rw [if_neg hl]
    intro _ x hx hxtid
    have hkeep : keepSession tid x = true := List.of_mem_filter hx
    unfold keepSession at hkeep
    rw [show (x.taskId != tid) = false from by simp [hxtid]] at hkeep
    simp only [Bool.false_or, Bool.or_eq_true, beq_iff_eq] at hkeep
    tauto

theorem purgeStep_pres (tid tid' : Nat) {q w : StudyPlan}
    (h : PurgeStep tid q w) :
    PurgeStep tid q (if w.isLocked then w else
      { w with
        plannedTasks := w.plannedTasks.filter (keepSession tid')
        totalStudyHours := sessionsTotal (w.plannedTasks.filter (keepSession tid')) }) := by
  refine ⟨shrinkStep_step tid' h.1, ?_⟩
  by_cases hl : w.isLocked = true
  · rw [if_pos hl]
    exact h.2
  · rw [if_neg hl]
    intro hq0 x hx hxtid
    exact h.2 hq0 x (List.mem_of_mem_filter hx) hxtid

theorem forall₂_shrink_fold {P W : List StudyPlan} (l : List (Task × ℚ))
    (h : List.Forall₂ ShrinkStep P W) :
    List.Forall₂ ShrinkStep P
      (l.foldl (fun ps t => removeUnlockedTaskSessions t.1.id ps) W) := by
  induction l generalizing W with
  | nil => exact h
  | cons t rest ih =>
    rw [List.foldl_cons]
    exact ih (forall₂_removeUnlocked h t.1.id
      (fun q w hqw => shrinkStep_step t.1.id hqw))

theorem forall₂_purge_fold {tid : Nat} {P W : List StudyPlan}
    (l : List (Task × ℚ)) (h : List.Forall₂ (PurgeStep tid) P W) :
    List.Forall₂ (PurgeStep tid) P
      (l.foldl (fun ps t => removeUnlockedTaskSessions t.1.id ps) W) := by
  induction l generalizing W with
  | nil => exact h
  | cons t rest ih =>
    rw [List.foldl_cons]
    exact ih (forall₂_removeUnlocked h t.1.id
      (fun q w hqw => purgeStep_pres tid t.1.id hqw))

/-- The purge fold of `generateNewStudyPlan`, relative to any task of the
scheduling list. -/
theorem purge_forall₂ {P : List StudyPlan} {l : List (Task × ℚ)}
    {t0 : Task × ℚ} (hmem : t0 ∈ l) :
    List.Forall₂ (PurgeStep t0.1.id) P
      (l.foldl (fun ps t => removeUnlockedTaskSessions t.1.id ps) P) := by
  obtain ⟨l₁, l₂, rfl⟩ := List.append_of_mem hmem
  rw [List.foldl_append, List.foldl_cons]
  refine forall₂_purge_fold l₂ ?_
  refine forall₂_removeUnlocked
    (forall₂_shrink_fold l₁ (List.forall₂_same.mpr (fun q _ => shrinkStep_refl q)))
    t0.1.id (fun q w hqw => purgeStep_of_shrink t0.1.id hqw)

/-- Per-plan: the purged non-skipped hours of the task are bounded by its
accounted (done/completed/skipped/locked) hours of the original plan. -/
theorem planTaskSum_purge_le {tid : Nat} {q w : StudyPlan}
    (h : PurgeStep tid q w)
    (hnn : ∀ x ∈ q.plannedTasks, 0 ≤ x.allocatedHours) :
    planTaskSum tid w.plannedTasks ≤
      planAccount tid q.isLocked q.plannedTasks := by
  by_cases hl : q.isLocked = true
  · rw [h.1.2.1 hl, hl]
    unfold planTaskSum planAccount
    have hall : (q.plannedTasks.filter (fun s => s.taskId == tid)).filter
        (fun s => s.done || s.status == SessionStatus.completed ||
          s.status == SessionStatus.skipped || true)
        = q.plannedTasks.filter (fun s => s.taskId == tid) := by
      rw [List.filter_congr (fun x _ => by simp : ∀ x ∈ q.plannedTasks.filter
        (fun s => s.taskId == tid), (x.done || x.status == SessionStatus.completed ||
          x.status == SessionStatus.skipped || true) = (fun _ => true) x)]
      exact List.filter_true _
    rw [hall]
    refine sum_map_le_of_sublist
      (filter_sublist_filter_of_imp _ (fun x _ hpx => ?_)) ?_
    · rw [Bool.and_eq_true] at hpx
      exact hpx.1
    · intro x hx
      exact hnn x (List.mem_of_mem_filter hx)
  · have hl0 : q.isLocked = false := by
      cases hq : q.isLocked
      · rfl
      · exact absurd hq hl
    rw [hl0]
    have hsurv := h.2 hl0
    unfold planTaskSum planAccount
    rw [List.filter_filter]
    refine sum_map_le_of_sublist ?_ ?_
    · refine List.Sublist.trans
        (filter_sublist_filter_of_imp _ (fun x hx hpx => ?_))
        (List.Sublist.filter _ h.1.2.2)
      rw [Bool.and_eq_true, beq_iff_eq] at hpx
      rcases hsurv x hx hpx.1 with hd | hc | hs
      · simp [hd, hpx.1]
      · simp [hc, hpx.1]
      · simp [hs, hpx.1]
    · intro x hx
      exact hnn x (List.mem_of_mem_filter hx)

/-- The task's non-skipped hours that survive the purge are bounded by its
accounted hours in the original collection. -/
theorem taskSum_purged_le_accounted {t : Task} {P W : List StudyPlan}
    (hF : List.Forall₂ (PurgeStep t.id) P W)
    (hnn : ∀ q ∈ P, ∀ x ∈ q.plannedTasks, 0 ≤ x.allocatedHours)
    (hu : SessionNumbersUnique P) :
    taskSum t.id W ≤ accountedHours t P := by
  rw [accountedHours_eq_sum t P hu, taskSum_eq_sum]
  clear hu
  induction hF with
  | nil => exact le_refl 0
  | cons hqw htail ih =>
    rw [List.map_cons, List.map_cons, List.sum_cons, List.sum_cons]
    have h1 := planTaskSum_purge_le hqw
      (hnn _ (List.mem_cons_self _ _))
    have h2 := ih (fun p hp => hnn p (List.mem_cons_of_mem _ hp))
    linarith

theorem insertSorted_perm {α : Type} (le : α → α → Bool) (a : α)
    (l : List α) : List.Perm (insertSorted le a l) (a :: l) := by
  induction l with
  | nil => exact List.Perm.refl _
  | cons b t ih =>
    unfold insertSorted
    split
    · exact List.Perm.refl _
    · exact List.Perm.trans (ih.cons b) (List.Perm.swap a b t)

theorem stableSort_perm {α : Type} (le : α → α → Bool) (l : List α) :
    List.Perm (stableSort le l) l := by
  induction l with
  | nil => exact List.Perm.refl _
  | cons a t ih =>
    show List.Perm (insertSorted le a (stableSort le t)) (a :: t)
    exact List.Perm.trans (insertSorted_perm le a _) (ih.cons a)

theorem eisenhowerOrder_perm (l : List (Task × ℚ)) (nowAbs : ℚ) :
    List.Perm (eisenhowerOrder l nowAbs) l := by
  unfold eisenhowerOrder
  have e1 : l.filter (fun t => t.1.importance && isUrgent t nowAbs) =
      (l.filter (fun t => t.1.importance)).filter
        (fun t => isUrgent t nowAbs) := by
    rw [List.filter_filter]
    exact List.filter_congr (fun x _ => Bool.and_comm _ _)
  have e2 : l.filter (fun t => t.1.importance && !isUrgent t nowAbs) =
      (l.filter (fun t => t.1.importance)).filter
        (fun t => !isUrgent t nowAbs) := by
    rw [List.filter_filter]
    exact List.filter_congr (fun x _ => Bool.and_comm _ _)
  have e3 : l.filter (fun t => !t.1.importance && isUrgent t nowAbs) =
      (l.filter (fun t => !t.1.importance)).filter
        (fun t => isUrgent t nowAbs) := by
    rw [List.filter_filter]
    exact List.filter_congr (fun x _ => Bool.and_comm _ _)
  have e4 : l.filter (fun t => !t.1.importance && !isUrgent t nowAbs) =
      (l.filter (fun t => !t.1.importance)).filter
        (fun t => !isUrgent t nowAbs) := by
    rw [List.filter_filter]
    exact List.filter_congr (fun x _ => Bool.and_comm _ _)
  rw [e1, e2, e3, e4]
  have hA : List.Perm
      ((l.filter (fun t => t.1.importance)).filter (fun t => isUrgent t nowAbs) ++
       (l.filter (fun t => t.1.importance)).filter (fun t => !isUrgent t nowAbs))
      (l.filter (fun t => t.1.importance)) :=
    List.filter_append_perm _ _
  have hB : List.Perm
      ((l.filter (fun t => !t.1.importance)).filter (fun t => isUrgent t nowAbs) ++
       (l.filter (fun t => !t.1.importance)).filter (fun t => !isUrgent t nowAbs))
      (l.filter (fun t => !t.1.importance)) :=
    List.filter_append_perm _ _
  have hAB : List.Perm
      (l.filter (fun t => t.1.importance) ++ l.filter (fun t => !t.1.importance))
      l := List.filter_append_perm _ _
  refine List.Perm.trans ?_ ((hA.append hB).trans hAB)
  simp only [← List.append_assoc]
  exact List.Perm.refl _

theorem mem_tasksWithRemainingHours {tasks : List Task}
    {plans : List StudyPlan} {t : Task} (ht : t ∈ tasks)
    (hpend : t.status = .pending)
    (hrem : 0 < calculateRemainingTaskHours t plans) :
    (t, calculateRemainingTaskHours t plans) ∈
      tasksWithRemainingHours tasks plans := by
  unfold tasksWithRemainingHours
  refine List.mem_filter.mpr ⟨?_, ?_⟩
  · exact List.mem_map.mpr
      ⟨t, List.mem_filter.mpr ⟨ht, by simp [hpend]⟩, rfl⟩
  · exact decide_eq_true hrem

/-- Distinct task ids stay distinct through the remaining-hours pipeline. -/
theorem tasksR_ids_nodup (tasks : List Task) (plans : List StudyPlan)
    (hids : (tasks.map Task.id).Nodup) :
    ((tasksWithRemainingHours tasks plans).map (fun u => u.1.id)).Nodup := by
  refine List.Nodup.sublist ?_ hids
  have h1 : ((tasksWithRemainingHours tasks plans).map
      (fun u => u.1.id)).Sublist
      (((tasks.filter (fun t => t.status == TaskStatus.pending)).map
        (fun t => (t, calculateRemainingTaskHours t plans))).map
        (fun u => u.1.id)) :=
    (List.filter_sublist _).map _
  refine h1.trans ?_
  rw [List.map_map]
  show ((tasks.filter (fun t => t.status == TaskStatus.pending)).map
      (fun t => t.id)).Sublist (tasks.map Task.id)
  exact (List.filter_sublist _).map _

/-- Split an ordered task list (a permutation of a list with pairwise-distinct
ids) around a chosen entry: all other entries have a different id. -/
theorem ordered_split {R o : List (Task × ℚ)} {t0 : Task × ℚ}
    (hperm : List.Perm o R) (hmem : t0 ∈ R)
    (hnodup : (R.map (fun u => u.1.id)).Nodup) :
    ∃ l₁ l₂, o = l₁ ++ t0 :: l₂ ∧
      (∀ u ∈ l₁, (u.1.id == t0.1.id) = false) ∧
      (∀ u ∈ l₂, (u.1.id == t0.1.id) = false) := by
  have hmo : t0 ∈ o := hperm.mem_iff.mpr hmem
  obtain ⟨l₁, l₂, rfl⟩ := List.append_of_mem hmo
  refine ⟨l₁, l₂, rfl, ?_, ?_⟩
  all_goals
    have hnod : ((l₁ ++ t0 :: l₂).map (fun u => u.1.id)).Nodup :=
      ((hperm.map _).nodup_iff).mpr hnodup
    rw [List.map_append, List.map_cons, List.nodup_append] at hnod
  · intro u hu
    have hne : u.1.id ≠ t0.1.id := by
      intro heqid
      exact hnod.2.2 (List.mem_map.mpr ⟨u, hu, rfl⟩)
        (by rw [heqid]; exact List.mem_cons_self _ _)
    exact beq_eq_false_iff_ne.mpr hne
  · intro u hu
    have hne : u.1.id ≠ t0.1.id := by
      intro heqid
      have := (List.nodup_cons.mp hnod.2.1).1
      exact this (by rw [← heqid]; exact List.mem_map.mpr ⟨u, hu, rfl⟩)
    exact beq_eq_false_iff_ne.mpr hne

/-- A 3-hour session already marked done, of a task estimated at 2 hours. -/
def doneSession : StudySession :=
  { taskId := 1, startTime := 540, endTime := 720, allocatedHours := 3,
    sessionNumber := 1, status := .scheduled, done := true }

def donePlan : StudyPlan :=
  { date := 0, plannedTasks := [doneSession], totalStudyHours := 3,
    availableHours := 8, isLocked := false }

def overbookedTask : Task :=
  { id := 1, estimatedHours := 2, deadline := 5, importance := false,
    status := .pending }

/-- C2 counterexample: a pending task estimated at 2 hours whose collection
already holds a done 3-hour session.  Its remaining hours clamp to 0, the
task is not rescheduled, and the returned collection keeps a non-skipped
session sum of 3 > 2 — the unconditional bound
`sum(allocatedHours over non-skipped sessions) ≤ estimatedHours` fails. -/
theorem C2_counterexample_done_hours_exceed_estimate :
    generateNewStudyPlan [overbookedTask] wSettings [] [donePlan] 1 1440 =
      [donePlan] ∧
    taskSum 1 [donePlan] = 3 ∧
    overbookedTask.estimatedHours = 2 ∧ ¬ ((3 : ℚ) ≤ 2) := by
  refine ⟨?_, ?_, rfl, by norm_num⟩
  · norm_num +decide [generateNewStudyPlan, generateNewStudyPlanFull,
      tasksWithRemainingHours, calculateRemainingTaskHours, isSessionLocked,
      overbookedTask, donePlan, doneSession, wSettings,
      List.flatMap_cons, List.flatMap_nil, List.find?_cons]
  · norm_num +decide [taskSum, allSessions, donePlan, doneSession,
      List.flatMap_cons, List.flatMap_nil, List.filter_cons, List.filter_nil]

set_option maxHeartbeats 1000000 in
/-- C2 (amended): conservation holds for the tasks a generation pass actually
schedules, up to the documented rounding allowance.  For any task of the input
list that is pending with positive remaining hours — under pairwise-distinct
task ids, per-task unique session numbers and nonnegative session hours — the
collection returned by `generateNewStudyPlan` carries at most
`estimatedHours + 0.015` non-skipped allocated hours for that task (0.005 of
round-half-up slack per nonempty third of the day range; hours already
accounted as done/completed/skipped/locked are conserved, the remainder is
re-scheduled from the purged collection and its per-day allocations sum to at
most the remainder plus the rounding slack). -/
theorem C2_conservation_amended (tasks : List Task) (settings : UserSettings)
    (comms : List FixedCommitment) (plans : List StudyPlan) (today : Nat)
    (nowAbs : ℚ) (t : Task) (ht : t ∈ tasks) (hpend : t.status = .pending)
    (hrem : 0 < calculateRemainingTaskHours t plans)
    (hids : (tasks.map Task.id).Nodup)
    (hu : SessionNumbersUnique plans)
    (hnn : ∀ q ∈ plans, ∀ x ∈ q.plannedTasks, 0 ≤ x.allocatedHours) :
    taskSum t.id (generateNewStudyPlan tasks settings comms plans today nowAbs)
      ≤ t.estimatedHours + 3/200 := by
  have hmem := mem_tasksWithRemainingHours ht hpend hrem
  have hkey : calculateRemainingTaskHours t plans =
      t.estimatedHours - accountedHours t plans := by
    rw [calculateRemainingTaskHours_eq] at hrem ⊢
    rcases le_or_lt (t.estimatedHours - accountedHours t plans) 0 with h | h
    · rw [max_eq_left h] at hrem
      exact absurd hrem (lt_irrefl 0)
    · exact max_eq_right (le_of_lt h)
  have hne : ¬ ((tasksWithRemainingHours tasks plans).isEmpty = true) := by
    intro hcon
    rw [List.isEmpty_iff.mp hcon] at hmem
    cases hmem
  have hF : List.Forall₂ (PurgeStep t.id) plans (purgedPlans tasks plans) :=
    @purge_forall₂ plans _ _ hmem
  have hkept : taskSum t.id (purgedPlans tasks plans) ≤ accountedHours t plans :=
    taskSum_purged_le_accounted hF hnn hu
  unfold purgedPlans at hkept
  have hnodupR := tasksR_ids_nodup tasks plans hids
  have hrem0 : (0 : ℚ) ≤ calculateRemainingTaskHours t plans := le_of_lt hrem
  unfold generateNewStudyPlan generateNewStudyPlanFull
  rw [if_neg hne]
  cases hmode : settings.studyPlanMode with
  | eisenhower =>
    unfold generateEisenhowerPlan
    obtain ⟨l₁, l₂, heq, h₁, h₂⟩ := ordered_split
      (eisenhowerOrder_perm (tasksWithRemainingHours tasks plans) nowAbs)
      hmem hnodupR
    rw [heq]
    dsimp only
    have hstep := taskSum_scheduleTasks_le
      (t, calculateRemainingTaskHours t plans) l₁ l₂
      (fun u => getTaskDistributionStrategy u nowAbs) settings comms today
      (List.foldl (fun ps u => removeUnlockedTaskSessions u.1.id ps) plans
        (tasksWithRemainingHours tasks plans))
      hrem0 h₁ h₂
    refine le_trans hstep ?_
    dsimp only
    linarith
  | balanced =>
    unfold generateBalancedPriorityPlan
    have hpermB : List.Perm
        ((tasksWithRemainingHours tasks plans).filter (fun u => u.1.importance) ++
         (tasksWithRemainingHours tasks plans).filter (fun u => !u.1.importance))
        (tasksWithRemainingHours tasks plans) := List.filter_append_perm _ _
    obtain ⟨l₁, l₂, heq, h₁, h₂⟩ := ordered_split hpermB hmem hnodupR
    rw [heq]
    dsimp only
    have hstep := taskSum_scheduleTasks_le
      (t, calculateRemainingTaskHours t plans) l₁ l₂
      (fun _ => Strategy.even) settings comms today
      (List.foldl (fun ps u => removeUnlockedTaskSessions u.1.id ps) plans
        (tasksWithRemainingHours tasks plans))
      hrem0 h₁ h₂
    refine le_trans hstep ?_
    dsimp only
    linarith
  | even =>
    unfold generateEvenDistributionPlan
    obtain ⟨l₁, l₂, heq, h₁, h₂⟩ := ordered_split
      (stableSort_perm evenTaskLE (tasksWithRemainingHours tasks plans))
      hmem hnodupR
    rw [heq]
    dsimp only
    have hstep := taskSum_scheduleTasks_le
      (t, calculateRemainingTaskHours t plans) l₁ l₂
      (fun _ => Strategy.even) settings comms today
      (List.foldl (fun ps u => removeUnlockedTaskSessions u.1.id ps) plans
        (tasksWithRemainingHours tasks plans))
      hrem0 h₁ h₂
    refine le_trans hstep ?_
    dsimp only
    linarith

/-- Witness for the amended C2 theorem: a fresh 2-hour pending task scheduled
into an empty collection. -/
theorem C2_conservation_amended_witness :
    taskSum 1 (generateNewStudyPlan [reuseTask] wSettings [] [] 1 1440) ≤
      2 + 3/200 :=
  C2_conservation_amended [reuseTask] wSettings [] [] 1 1440 reuseTask
    (List.mem_cons_self _ _) rfl
    (by norm_num [calculateRemainingTaskHours, reuseTask, List.flatMap_nil])
    (by simp)
    (by simp [SessionNumbersUnique, allSessions])
    (by simp)

/-! ## C4: idempotence of generation -/

/-- A pending 4-hour task whose collection holds two sessions that share
`(taskId, sessionNumber) = (1, 2)`: one on a locked day, one on an unlocked
day. -/
def dupTask : Task :=
  { id := 1, estimatedHours := 4, deadline := 2, importance := false,
    status := .pending }

def dupLockedSession : StudySession :=
  { taskId := 1, startTime := 540, endTime := 600, allocatedHours := 1,
    sessionNumber := 2, status := .scheduled, done := false }

def dupLockedPlan : StudyPlan :=
  { date := 1, plannedTasks := [dupLockedSession], totalStudyHours := 1,
    availableHours := 8, isLocked := true }

def dupUnlockedSession : StudySession :=
  { taskId := 1, startTime := 540, endTime := 660, allocatedHours := 2,
    sessionNumber := 2, status := .scheduled, done := false }

def dupUnlockedPlan : StudyPlan :=
  { date := 2, plannedTasks := [dupUnlockedSession], totalStudyHours := 2,
    availableHours := 8, isLocked := false }

/-- C4 counterexample: with duplicated `(taskId, sessionNumber)` pairs the
find-first lookup of `isSessionLocked` aliases the unlocked 2-hour session to
the locked plan, so the first run counts 3 accounted hours (schedules 1h)
while the purge removes the 2-hour session anyway; the second run counts only
1 accounted hour and schedules 3h — the two passes return different
collections, refuting unconditional idempotence. -/
theorem C4_counterexample_not_idempotent :
    (allSessions (generateNewStudyPlan [dupTask] wSettings []
        [dupLockedPlan, dupUnlockedPlan] 1 1440)).map
      (fun s => (s.taskId, s.sessionNumber, s.allocatedHours)) =
      [(1, 2, 1), (1, 3, 1)] ∧
    (allSessions (generateNewStudyPlan [dupTask] wSettings []
        (generateNewStudyPlan [dupTask] wSettings []
          [dupLockedPlan, dupUnlockedPlan] 1 1440) 1 1440)).map
      (fun s => (s.taskId, s.sessionNumber, s.allocatedHours)) =
      [(1, 2, 1), (1, 3, 3)] ∧
    generateNewStudyPlan [dupTask] wSettings []
        (generateNewStudyPlan [dupTask] wSettings []
          [dupLockedPlan, dupUnlockedPlan] 1 1440) 1 1440 ≠
      generateNewStudyPlan [dupTask] wSettings []
        [dupLockedPlan, dupUnlockedPlan] 1 1440 := by
  have h1 : (allSessions (generateNewStudyPlan [dupTask] wSettings []
      [dupLockedPlan, dupUnlockedPlan] 1 1440)).map
      (fun s => (s.taskId, s.sessionNumber, s.allocatedHours)) =
      [(1, 2, 1), (1, 3, 1)] := by
    norm_num +decide [allSessions, generateNewStudyPlan, generateNewStudyPlanFull,
      tasksWithRemainingHours, calculateRemainingTaskHours, isSessionLocked,
      removeUnlockedTaskSessions, keepSession, sessionsTotal,
      generateEvenDistributionPlan, scheduleTasks, stableSort, insertSorted,
      evenTaskLE, scheduleTaskWithStrategy, getAvailableDaysForTask,
      dateIsLocked, findPlan, calculateDailyHoursDistribution, distributeEvenly,
      distributeRemainder, round2, jsRound, getNextSessionNumber,
      scheduleSessionsOnDays, findNextAvailableTimeSlot,
      getDailyAvailableTimeSlots, commitmentIntervals, mergeIntervals,
      collectSlots, minSessionLengthEff, addSessionToPlan, pushSession,
      dupTask, dupLockedSession, dupLockedPlan, dupUnlockedSession,
      dupUnlockedPlan, wSettings,
      List.range_succ, List.range_zero, List.map_append, List.filter_append,
      List.zip_cons_cons, List.zip_nil_right, List.zip_nil_left,
      List.flatMap_cons, List.flatMap_nil, List.find?_cons, List.filterMap_cons,
      List.findSome?_cons, List.findSome?_nil,
      show ((1:Nat) == 2) = false from rfl, show ((2:Nat) == 2) = true from rfl,
      show ((1:Nat) == 1) = true from rfl, show ((2:Nat) == 1) = false from rfl,
      show ((2:Nat) == 3) = false from rfl, show ((3:Nat) == 3) = true from rfl,
      show ((3:Nat) == 2) = false from rfl]
  have h2 : (allSessions (generateNewStudyPlan [dupTask] wSettings []
      (generateNewStudyPlan [dupTask] wSettings []
        [dupLockedPlan, dupUnlockedPlan] 1 1440) 1 1440)).map
      (fun s => (s.taskId, s.sessionNumber, s.allocatedHours)) =
      [(1, 2, 1), (1, 3, 3)] := by
    norm_num +decide [allSessions, generateNewStudyPlan, generateNewStudyPlanFull,
      tasksWithRemainingHours, calculateRemainingTaskHours, isSessionLocked,
      removeUnlockedTaskSessions, keepSession, sessionsTotal,
      generateEvenDistributionPlan, scheduleTasks, stableSort, insertSorted,
      evenTaskLE, scheduleTaskWithStrategy, getAvailableDaysForTask,
      dateIsLocked, findPlan, calculateDailyHoursDistribution, distributeEvenly,
      distributeRemainder, round2, jsRound, getNextSessionNumber,
      scheduleSessionsOnDays, findNextAvailableTimeSlot,
      getDailyAvailableTimeSlots, commitmentIntervals, mergeIntervals,
      collectSlots, minSessionLengthEff, addSessionToPlan, pushSession,
      dupTask, dupLockedSession, dupLockedPlan, dupUnlockedSession,
      dupUnlockedPlan, wSettings,
      List.range_succ, List.range_zero, List.map_append, List.filter_append,
      List.zip_cons_cons, List.zip_nil_right, List.zip_nil_left,
      List.flatMap_cons, List.flatMap_nil, List.find?_cons, List.filterMap_cons,
      List.findSome?_cons, List.findSome?_nil,
      show ((1:Nat) == 2) = false from rfl, show ((2:Nat) == 2) = true from rfl,
      show ((1:Nat) == 1) = true from rfl, show ((2:Nat) == 1) = false from rfl,
      show ((2:Nat) == 3) = false from rfl, show ((3:Nat) == 3) = true from rfl,
      show ((3:Nat) == 2) = false from rfl]
  refine ⟨h1, h2, fun hcon => ?_⟩
  rw [hcon, h1] at h2
  norm_num at h2

/-- An empty unlocked plan (what a freshly created plan looks like after the
second run's purge removes its sessions again). -/
def EmptyPad (p : StudyPlan) : Prop :=
  p.plannedTasks = [] ∧ p.isLocked = false

theorem allSessions_pads {extra : List StudyPlan}
    (hex : ∀ p ∈ extra, EmptyPad p) : allSessions extra = [] := by
  induction extra with
  | nil => rfl
  | cons p ps ih =>
    unfold allSessions at ih ⊢
    rw [List.flatMap_cons, (hex p (List.mem_cons_self _ _)).1,
      ih (fun q hq => hex q (List.mem_cons_of_mem _ hq))]
    rfl

theorem findPlan_append (d : Nat) (S T : List StudyPlan) :
    findPlan d (S ++ T) = match findPlan d S with
      | some p => some p
      | none => findPlan d T := by
  induction S with
  | nil => rfl
  | cons p ps ih =>
    unfold findPlan at ih ⊢
    rw [List.cons_append, List.find?_cons, List.find?_cons]
    cases hd : (p.date == d) with
    | true => rfl
    | false => exact ih

/-- Appending empty unlocked pads never changes a day's lock check. -/
theorem dateIsLocked_append_pads {extra : List StudyPlan}
    (hex : ∀ p ∈ extra, EmptyPad p) (d : Nat) (S : List StudyPlan) :
    dateIsLocked d (S ++ extra) = dateIsLocked d S := by
  unfold dateIsLocked
  rw [findPlan_append]
  cases h : findPlan d S with
  | some p => rfl
  | none =>
    cases h2 : findPlan d extra with
    | none => rfl
    | some p =>
      have hp : p ∈ extra := List.mem_of_find?_eq_some h2
      dsimp only
      exact (hex p hp).2

/-- Appending empty unlocked pads never changes a day's free slots. -/
theorem slots_append_pads {extra : List StudyPlan}
    (hex : ∀ p ∈ extra, EmptyPad p) (d : Nat) (S : List StudyPlan)
    (st : UserSettings) (comms : List FixedCommitment) :
    getDailyAvailableTimeSlots d (S ++ extra) st comms =
      getDailyAvailableTimeSlots d S st comms := by
  unfold getDailyAvailableTimeSlots
  rw [findPlan_append]
  cases h : findPlan d S with
  | some p => rfl
  | none =>
    cases h2 : findPlan d extra with
    | none => rfl
    | some p =>
      have hp : p ∈ extra := List.mem_of_find?_eq_some h2
      dsimp only
      rw [(hex p hp).1, (hex p hp).2]
      simp

theorem findNext_append_pads {extra : List StudyPlan}
    (hex : ∀ p ∈ extra, EmptyPad p) (hreq : ℚ) (d : Nat) (S : List StudyPlan)
    (st : UserSettings) (comms : List FixedCommitment) (n : Nat) :
    findNextAvailableTimeSlot hreq d (S ++ extra) st comms n =
      findNextAvailableTimeSlot hreq d S st comms n := by
  unfold findNextAvailableTimeSlot
  refine congrArg (fun f => List.findSome? f (List.range n)) (funext fun off => ?_)
  dsimp only
  rw [dateIsLocked_append_pads hex, slots_append_pads hex]

theorem getNextSessionNumber_append_pads {extra : List StudyPlan}
    (hex : ∀ p ∈ extra, EmptyPad p) (tid : Nat) (S : List StudyPlan) :
    getNextSessionNumber tid (S ++ extra) = getNextSessionNumber tid S := by
  rw [getNextSessionNumber_eq, getNextSessionNumber_eq]
  unfold allSessions
  rw [List.flatMap_append,
    show extra.flatMap (fun p => p.plannedTasks) = [] from allSessions_pads hex,
    List.append_nil]

theorem availableDays_append_pads {extra : List StudyPlan}
    (hex : ∀ p ∈ extra, EmptyPad p) (t : Task) (S : List StudyPlan)
    (st : UserSettings) (today : Nat) :
    getAvailableDaysForTask t (S ++ extra) st today =
      getAvailableDaysForTask t S st today := by
  unfold getAvailableDaysForTask
  refine List.filter_congr ?_
  intro d _
  rw [dateIsLocked_append_pads hex]

theorem addSession_append_of_found {d : Nat} {S : List StudyPlan}
    {q : StudyPlan} (h : findPlan d S = some q) (s : StudySession)
    (st : UserSettings) (T : List StudyPlan) :
    addSessionToPlan s d st (S ++ T) = addSessionToPlan s d st S ++ T := by
  induction S with
  | nil => cases h
  | cons p ps ih =>
    unfold findPlan at h ih
    rw [List.find?_cons] at h
    cases hd : (p.date == d) with
    | true =>
      rw [List.cons_append]
      unfold addSessionToPlan
      rw [if_pos hd, if_pos hd, List.cons_append]
    | false =>
      rw [hd] at h
      rw [List.cons_append]
      unfold addSessionToPlan
      rw [if_neg (by simp [hd]), if_neg (by simp [hd]), ih h, List.cons_append]

theorem addSession_append_pad_head {d : Nat} {S : List StudyPlan}
    (h : findPlan d S = none) (s : StudySession) (st : UserSettings)
    (T : List StudyPlan) :
    addSessionToPlan s d st (S ++ freshPlan d st :: T) =
      (S ++ [pushSession s (freshPlan d st)]) ++ T := by
  induction S with
  | nil =>
    show addSessionToPlan s d st (freshPlan d st :: T) = _
    unfold addSessionToPlan
    rw [if_pos (by simp [freshPlan])]
    rw [show (freshPlan d st).isLocked = false from rfl]
    simp
  | cons p ps ih =>
    unfold findPlan at h ih
    rw [List.find?_cons] at h
    cases hd : (p.date == d) with
    | true => rw [hd] at h; cases h
    | false =>
      rw [hd] at h
      rw [List.cons_append]
      unfold addSessionToPlan
      rw [if_neg (by simp [hd]), ih h]
      rfl

/-- What one scheduling pass may do to a pre-existing plan: append pending
sessions of scheduled tasks; locked plans stay verbatim. -/
def AddUpd (K : Nat → Prop) (q w : StudyPlan) : Prop :=
  w.date = q.date ∧ w.isLocked = q.isLocked ∧
  w.availableHours = q.availableHours ∧ (q.isLocked = true → w = q) ∧
  ∃ added, w.plannedTasks = q.plannedTasks ++ added ∧
    ∀ s ∈ added, s.status = .scheduled ∧ s.done = false ∧ K s.taskId

/-- A plan created by the pass: unlocked, default available hours, only
pending sessions of scheduled tasks. -/
def CreatedPlan (st : UserSettings) (K : Nat → Prop) (c : StudyPlan) : Prop :=
  c.isLocked = false ∧ c.availableHours = st.dailyAvailableHours ∧
  ∀ s ∈ c.plannedTasks, s.status = .scheduled ∧ s.done = false ∧ K s.taskId

theorem addUpd_refl {K : Nat → Prop} (q : StudyPlan) : AddUpd K q q :=
  ⟨rfl, rfl, rfl, fun _ => rfl, [], (List.append_nil _).symm, nofun⟩

theorem addUpd_mono {K K' : Nat → Prop} (hK : ∀ i, K i → K' i) {q w : StudyPlan}
    (h : AddUpd K q w) : AddUpd K' q w := by
  obtain ⟨h1, h2, h3, h4, added, h5, h6⟩ := h
  exact ⟨h1, h2, h3, h4, added, h5,
    fun s hs => ⟨(h6 s hs).1, (h6 s hs).2.1, hK _ (h6 s hs).2.2⟩⟩

theorem addUpd_trans {K : Nat → Prop} {q w v : StudyPlan}
    (h1 : AddUpd K q w) (h2 : AddUpd K w v) : AddUpd K q v := by
  obtain ⟨a1, a2, a3, a4, added1, a5, a6⟩ := h1
  obtain ⟨b1, b2, b3, b4, added2, b5, b6⟩ := h2
  refine ⟨b1.trans a1, b2.trans a2, b3.trans a3, ?_, added1 ++ added2, ?_, ?_⟩
  · intro hq
    exact (b4 (a2.trans hq)).trans (a4 hq)
  · rw [b5, a5, List.append_assoc]
  · intro s hs
    rcases List.mem_append.mp hs with h | h
    · exact a6 s h
    · exact b6 s h

theorem createdPlan_addUpd {st : UserSettings} {K : Nat → Prop}
    {c w : StudyPlan} (hc : CreatedPlan st K c) (h : AddUpd K c w) :
    CreatedPlan st K w := by
  obtain ⟨h1, h2, h3, _, added, h5, h6⟩ := h
  refine ⟨h2.trans hc.1, h3.trans hc.2.1, ?_⟩
  intro s hs
  rw [h5] at hs
  rcases List.mem_append.mp hs with hmem | hmem
  · exact hc.2.2 s hmem
  · exact h6 s hmem

/-- Pointwise effect of `addSessionToPlan` on a pre-existing plan. -/
def PushStep (s : StudySession) (q w : StudyPlan) : Prop :=
  w = q ∨ (q.isLocked = false ∧ w = pushSession s q)

theorem addSessionToPlan_shape (s : StudySession) (d : Nat) (st : UserSettings)
    (S : List StudyPlan) :
    List.Forall₂ (PushStep s) S (addSessionToPlan s d st S) ∨
    addSessionToPlan s d st S = S ++ [pushSession s (freshPlan d st)] := by
  induction S with
  | nil => right; rfl
  | cons p ps ih =>
    by_cases hd : (p.date == d) = true
    · left
      unfold addSessionToPlan
      rw [if_pos hd]
      refine List.Forall₂.cons ?_ (List.forall₂_same.mpr fun q _ => Or.inl rfl)
      by_cases hl : p.isLocked = true
      · rw [if_pos hl]
        exact Or.inl rfl
      · rw [if_neg hl]
        exact Or.inr ⟨by simpa using hl, rfl⟩
    · rcases ih with h | h
      · left
        unfold addSessionToPlan
        rw [if_neg hd]
        exact List.Forall₂.cons (Or.inl rfl) h
      · right
        unfold addSessionToPlan
        rw [if_neg hd, h]
        rfl

theorem pushStep_addUpd {K : Nat → Prop} {s : StudySession}
    (hs : s.status = .scheduled ∧ s.done = false ∧ K s.taskId)
    {q w v : StudyPlan} (h1 : PushStep s q w) (h2 : AddUpd K w v) :
    AddUpd K q v := by
  rcases h1 with rfl | ⟨hql, rfl⟩
  · exact h2
  · obtain ⟨b1, b2, b3, _, added, b5, b6⟩ := h2
    refine ⟨b1, b2, b3, ?_, s :: added, ?_, ?_⟩
    · intro hq
      rw [hql] at hq
      cases hq
    · rw [b5]
      show _ = q.plannedTasks ++ ([s] ++ added)
      rw [← List.append_assoc]
      rfl
    · intro x hx
      rcases List.mem_cons.mp hx with rfl | hmem
      · exact hs
      · exact b6 x hmem

theorem forall₂_comp {α : Type} {R S T : α → α → Prop} {A B C : List α}
    (h1 : List.Forall₂ R A B) (h2 : List.Forall₂ S B C)
    (hpt : ∀ a b c, R a b → S b c → T a c) : List.Forall₂ T A C := by
  induction h1 generalizing C with
  | nil =>
    cases h2
    exact .nil
  | cons hr _ ih =>
    cases h2 with
    | cons hr2 ht2 => exact .cons (hpt _ _ _ hr hr2) (ih ht2)

/-- Shape of the day loop: the prior plans are updated in place (sessions of
the scheduled task appended) and freshly created plans are appended at the
tail. -/
theorem scheduleDays_shape (tid : Nat) (st : UserSettings)
    (comms : List FixedCommitment) (items : List (Nat × ℚ)) (num : Nat)
    (S : List StudyPlan) :
    ∃ S' C, (scheduleSessionsOnDays tid st comms items num S).plans = S' ++ C ∧
      List.Forall₂ (AddUpd (fun i => i = tid)) S S' ∧
      ∀ c ∈ C, CreatedPlan st (fun i => i = tid) c := by
  induction items generalizing num S with
  | nil =>
    exact ⟨S, [], (List.append_nil S).symm,
      List.forall₂_same.mpr (fun q _ => addUpd_refl q), nofun⟩
  | cons item rest ih =>
    unfold scheduleSessionsOnDays
    split
    · split
      · split
        · rename_i ts hts hdate
          obtain ⟨S', C, hplans, hF, hC⟩ := ih (num + 1)
            (addSessionToPlan
              { taskId := tid
                startTime := ts.startTime
                endTime := ts.endTime
                allocatedHours := item.2
                sessionNumber := num
                status := SessionStatus.scheduled
                done := false } item.1 st S)
          rcases addSessionToPlan_shape
              { taskId := tid
                startTime := ts.startTime
                endTime := ts.endTime
                allocatedHours := item.2
                sessionNumber := num
                status := SessionStatus.scheduled
                done := false } item.1 st S with hsh | hsh
          · exact ⟨S', C, hplans,
              forall₂_comp hsh hF
                (fun a b c h1 h2 => @pushStep_addUpd (fun i => i = tid) _
                  ⟨rfl, rfl, rfl⟩ _ _ _ h1 h2), hC⟩
          · rw [hsh] at hF
            obtain ⟨S'a, S'b, rfl, hFa, hFb⟩ := forall₂_append_split hF
            cases hFb with
            | cons hw htail =>
              cases htail
              rename_i w
              refine ⟨S'a, w :: C, ?_, hFa, ?_⟩
              · rw [hplans, List.append_assoc]
                rfl
              · intro c hc
                rcases List.mem_cons.mp hc with rfl | hmem
                · refine createdPlan_addUpd ⟨rfl, rfl, ?_⟩ hw
                  intro x hx
                  rcases List.mem_cons.mp hx with rfl | hmem2
                  · exact ⟨rfl, rfl, rfl⟩
                  · cases hmem2
                · exact hC c hmem
        · exact ih num S
      · exact ih num S
    · exact ih num S

/-- The session record built by the day loop. -/
def mkSess (tid : Nat) (ts : FoundSlot) (item : Nat × ℚ) (num : Nat) :
    StudySession :=
  { taskId := tid
    startTime := ts.startTime
    endTime := ts.endTime
    allocatedHours := item.2
    sessionNumber := num
    status := .scheduled
    done := false }

theorem scheduleDays_cons_skip {tid : Nat} {st : UserSettings}
    {comms : List FixedCommitment} {item : Nat × ℚ} {rest : List (Nat × ℚ)}
    {num : Nat} (X : List StudyPlan) (hpos : ¬ item.2 > 0) :
    scheduleSessionsOnDays tid st comms (item :: rest) num X =
      scheduleSessionsOnDays tid st comms rest num X := by
  conv_lhs => unfold scheduleSessionsOnDays
  rw [if_neg hpos]

theorem scheduleDays_cons_fail_none {tid : Nat} {st : UserSettings}
    {comms : List FixedCommitment} {item : Nat × ℚ} {rest : List (Nat × ℚ)}
    {num : Nat} (X : List StudyPlan) (hpos : item.2 > 0)
    (hfind : findNextAvailableTimeSlot item.2 item.1 X st comms 1 = none) :
    scheduleSessionsOnDays tid st comms (item :: rest) num X =
      ⟨(scheduleSessionsOnDays tid st comms rest num X).plans,
        ⟨tid, item.1, item.2⟩ ::
          (scheduleSessionsOnDays tid st comms rest num X).failed⟩ := by
  conv_lhs => unfold scheduleSessionsOnDays
  rw [if_pos hpos, hfind]

theorem scheduleDays_cons_fail_date {tid : Nat} {st : UserSettings}
    {comms : List FixedCommitment} {item : Nat × ℚ} {rest : List (Nat × ℚ)}
    {num : Nat} (X : List StudyPlan) (ts : FoundSlot) (hpos : item.2 > 0)
    (hfind : findNextAvailableTimeSlot item.2 item.1 X st comms 1 = some ts)
    (hdate : ¬ (ts.date == item.1) = true) :
    scheduleSessionsOnDays tid st comms (item :: rest) num X =
      ⟨(scheduleSessionsOnDays tid st comms rest num X).plans,
        ⟨tid, item.1, item.2⟩ ::
          (scheduleSessionsOnDays tid st comms rest num X).failed⟩ := by
  conv_lhs => unfold scheduleSessionsOnDays
  rw [if_pos hpos, hfind]
  dsimp only
  rw [if_neg hdate]

theorem scheduleDays_cons_placed {tid : Nat} {st : UserSettings}
    {comms : List FixedCommitment} {item : Nat × ℚ} {rest : List (Nat × ℚ)}
    {num : Nat} (X : List StudyPlan) (ts : FoundSlot) (hpos : item.2 > 0)
    (hfind : findNextAvailableTimeSlot item.2 item.1 X st comms 1 = some ts)
    (hdate : (ts.date == item.1) = true) :
    scheduleSessionsOnDays tid st comms (item :: rest) num X =
      scheduleSessionsOnDays tid st comms rest (num + 1)
        (addSessionToPlan (mkSess tid ts item num) item.1 st X) := by
  conv_lhs => unfold scheduleSessionsOnDays
  rw [if_pos hpos, hfind]
  dsimp only
  rw [if_pos hdate]
  rfl

theorem emptyPad_freshPlans (st : UserSettings) (C : List StudyPlan) :
    ∀ p ∈ C.map (fun c => freshPlan c.date st), EmptyPad p := by
  intro p hmem
  obtain ⟨c, _, rfl⟩ := List.mem_map.mp hmem
  exact ⟨rfl, rfl⟩

theorem emptyPad_append {A B : List StudyPlan}
    (hA : ∀ p ∈ A, EmptyPad p) (hB : ∀ p ∈ B, EmptyPad p) :
    ∀ p ∈ A ++ B, EmptyPad p := by
  intro p hmem
  rcases List.mem_append.mp hmem with h | h
  · exact hA p h
  · exact hB p h

/-- Replay of the day loop: running it again on the state padded with the
emptied versions of the plans the first run created (plus arbitrary empty
pads behind them) re-fills the pads with exactly the first run's plans and
reproduces its failure log. -/
theorem scheduleDays_replay (tid : Nat) (st : UserSettings)
    (comms : List FixedCommitment) (items : List (Nat × ℚ)) (num : Nat)
    (S extra : List StudyPlan) (hex : ∀ p ∈ extra, EmptyPad p) :
    scheduleSessionsOnDays tid st comms items num
      (S ++ ((((scheduleSessionsOnDays tid st comms items num S).plans.drop
        S.length).map (fun c => freshPlan c.date st)) ++ extra)) =
    ⟨(scheduleSessionsOnDays tid st comms items num S).plans ++ extra,
      (scheduleSessionsOnDays tid st comms items num S).failed⟩ := by
  induction items generalizing num S with
  | nil =>
    show scheduleSessionsOnDays tid st comms [] num
      (S ++ (((S.drop S.length).map (fun c => freshPlan c.date st)) ++ extra)) = _
    rw [List.drop_length]
    show (⟨S ++ ([] ++ extra), []⟩ : ScheduleResult) = ⟨S ++ extra, []⟩
    rw [List.nil_append]
  | cons item rest ih =>
    by_cases hpos : item.2 > 0
    · cases hfind : findNextAvailableTimeSlot item.2 item.1 S st comms 1 with
      | none =>
        rw [scheduleDays_cons_fail_none S hpos hfind]
        dsimp only
        rw [scheduleDays_cons_fail_none
          (S ++ ((((scheduleSessionsOnDays tid st comms rest num S).plans.drop
            S.length).map (fun c => freshPlan c.date st)) ++ extra)) hpos
          (by rw [findNext_append_pads
                (emptyPad_append (emptyPad_freshPlans st _) hex)]
              exact hfind)]
        rw [ih num S]
      | some ts =>
        by_cases hdate : (ts.date == item.1) = true
        · cases hplan : findPlan item.1 S with
          | some q =>
            have hlen : S.length = (addSessionToPlan (mkSess tid ts item num)
                item.1 st S).length :=
              (addSessionToPlan_forall₂_of_findPlan_some hplan _ st).length_eq
            rw [scheduleDays_cons_placed S ts hpos hfind hdate, hlen]
            rw [scheduleDays_cons_placed
              (S ++ ((((scheduleSessionsOnDays tid st comms rest (num + 1)
                (addSessionToPlan (mkSess tid ts item num) item.1 st
                  S)).plans.drop (addSessionToPlan (mkSess tid ts item num)
                    item.1 st S).length).map (fun c => freshPlan c.date st)) ++
                extra)) ts hpos
              (by rw [findNext_append_pads
                    (emptyPad_append (emptyPad_freshPlans st _) hex)]
                  exact hfind) hdate]
            rw [addSession_append_of_found hplan]
            exact ih (num + 1) _
          | none =>
            have hS2 : addSessionToPlan (mkSess tid ts item num) item.1 st S =
                S ++ [pushSession (mkSess tid ts item num) (freshPlan item.1 st)] :=
              addSessionToPlan_of_findPlan_none hplan _ st
            obtain ⟨S₃, C₃, hplans, hF, hC⟩ := scheduleDays_shape tid st comms
              rest (num + 1) (addSessionToPlan (mkSess tid ts item num) item.1 st S)
            rw [hS2] at hF
            obtain ⟨S₃a, S₃b, rfl, hFa, hFb⟩ := forall₂_append_split hF
            cases hFb with
            | cons hw htail =>
            cases htail
            rename_i w
            have hlenA : S.length = S₃a.length := hFa.length_eq
            have hwd : w.date = item.1 := hw.1
            have hplans2 : (scheduleSessionsOnDays tid st comms rest (num + 1)
                (addSessionToPlan (mkSess tid ts item num) item.1 st S)).plans =
                S₃a ++ (w :: C₃) := by
              rw [hplans, List.append_assoc]
              rfl
            have hdrop1 : ((scheduleSessionsOnDays tid st comms (item :: rest) num
                S).plans.drop S.length).map (fun c => freshPlan c.date st) =
                freshPlan item.1 st :: C₃.map (fun c => freshPlan c.date st) := by
              rw [scheduleDays_cons_placed S ts hpos hfind hdate, hplans2, hlenA,
                List.drop_left, List.map_cons, hwd]
            have hdrop2 : ((scheduleSessionsOnDays tid st comms rest (num + 1)
                (addSessionToPlan (mkSess tid ts item num) item.1 st
                  S)).plans.drop (addSessionToPlan (mkSess tid ts item num)
                    item.1 st S).length).map (fun c => freshPlan c.date st) =
                C₃.map (fun c => freshPlan c.date st) := by
              rw [hplans2, hS2, List.length_append, hlenA]
              rw [show S₃a.length + [pushSession (mkSess tid ts item num)
                (freshPlan item.1 st)].length = (S₃a ++ [w]).length from by
                  rw [List.length_append]
                  rfl]
              rw [show S₃a ++ (w :: C₃) = (S₃a ++ [w]) ++ C₃ from by
                rw [List.append_assoc]
                rfl]
              rw [List.drop_left]
            rw [hdrop1, scheduleDays_cons_placed S ts hpos hfind hdate]
            rw [scheduleDays_cons_placed
              (S ++ ((freshPlan item.1 st ::
                C₃.map (fun c => freshPlan c.date st)) ++ extra)) ts hpos
              (by rw [findNext_append_pads (emptyPad_append (fun p hp => ?_) hex)]
                  · exact hfind
                  · rcases List.mem_cons.mp hp with rfl | hmem
                    · exact ⟨rfl, rfl⟩
                    · exact emptyPad_freshPlans st C₃ p hmem) hdate]
            rw [List.cons_append, addSession_append_pad_head hplan, ← hS2]
            have hrec := ih (num + 1)
              (addSessionToPlan (mkSess tid ts item num) item.1 st S)
            rw [hdrop2] at hrec
            exact hrec
        · rw [scheduleDays_cons_fail_date S ts hpos hfind hdate]
          dsimp only
          rw [scheduleDays_cons_fail_date
            (S ++ ((((scheduleSessionsOnDays tid st comms rest num S).plans.drop
              S.length).map (fun c => freshPlan c.date st)) ++ extra)) ts hpos
            (by rw [findNext_append_pads
                  (emptyPad_append (emptyPad_freshPlans st _) hex)]
                exact hfind) hdate]
          rw [ih num S]
    · simp only [scheduleDays_cons_skip _ hpos]
      exact ih num S

theorem scheduleTask_shape (t : Task × ℚ) (strategy : Strategy)
    (W : List StudyPlan) (st : UserSettings) (comms : List FixedCommitment)
    (today : Nat) :
    ∃ S' C,
      (scheduleTaskWithStrategy t strategy W st comms today).plans = S' ++ C ∧
      List.Forall₂ (AddUpd (fun i => i = t.1.id)) W S' ∧
      ∀ c ∈ C, CreatedPlan st (fun i => i = t.1.id) c := by
  unfold scheduleTaskWithStrategy
  by_cases h0 : t.2 ≤ 0
  · rw [if_pos h0]
    exact ⟨W, [], (List.append_nil W).symm,
      List.forall₂_same.mpr (fun q _ => addUpd_refl q), nofun⟩
  · rw [if_neg h0]
    by_cases hday : (getAvailableDaysForTask t.1 W st today).isEmpty
    · rw [if_pos hday]
      exact ⟨W, [], (List.append_nil W).symm,
        List.forall₂_same.mpr (fun q _ => addUpd_refl q), nofun⟩
    · rw [if_neg hday]
      exact scheduleDays_shape t.1.id st comms _ _ W

/-- Replay of a single task's scheduling on the padded state. -/
theorem scheduleTask_replay (t : Task × ℚ) (strategy : Strategy)
    (W extra : List StudyPlan) (st : UserSettings)
    (comms : List FixedCommitment) (today : Nat)
    (hex : ∀ p ∈ extra, EmptyPad p) :
    scheduleTaskWithStrategy t strategy
      (W ++ ((((scheduleTaskWithStrategy t strategy W st comms
        today).plans.drop W.length).map (fun c => freshPlan c.date st)) ++
        extra)) st comms today =
    ⟨(scheduleTaskWithStrategy t strategy W st comms today).plans ++ extra,
      (scheduleTaskWithStrategy t strategy W st comms today).failed⟩ := by
  by_cases h0 : t.2 ≤ 0
  · have he : ∀ X : List StudyPlan,
        scheduleTaskWithStrategy t strategy X st comms today = ⟨X, []⟩ := by
      intro X
      unfold scheduleTaskWithStrategy
      rw [if_pos h0]
    simp only [he]
    simp [List.drop_length]
  · by_cases hday : (getAvailableDaysForTask t.1 W st today).isEmpty = true
    · have he1 : scheduleTaskWithStrategy t strategy W st comms today =
          ⟨W, []⟩ := by
        unfold scheduleTaskWithStrategy
        rw [if_neg h0, if_pos hday]
      rw [he1]
      dsimp only
      rw [List.drop_length]
      have hpadsE : ∀ p ∈ (List.map (fun c => freshPlan c.date st)
          ([] : List StudyPlan)) ++ extra, EmptyPad p :=
        emptyPad_append (emptyPad_freshPlans st _) hex
      have he2 : scheduleTaskWithStrategy t strategy
          (W ++ ((List.map (fun c => freshPlan c.date st)
            ([] : List StudyPlan)) ++ extra)) st comms today =
          ⟨W ++ ((List.map (fun c => freshPlan c.date st)
            ([] : List StudyPlan)) ++ extra), []⟩ := by
        unfold scheduleTaskWithStrategy
        rw [if_neg h0, availableDays_append_pads hpadsE, if_pos hday]
      rw [he2]
      simp
    · have he1 : scheduleTaskWithStrategy t strategy W st comms today =
          scheduleSessionsOnDays t.1.id st comms
            ((getAvailableDaysForTask t.1 W st today).zip
              (calculateDailyHoursDistribution t.2
                (getAvailableDaysForTask t.1 W st today).length strategy))
            (getNextSessionNumber t.1.id W) W := by
        unfold scheduleTaskWithStrategy
        rw [if_neg h0, if_neg hday]
      rw [he1]
      have hpadsE : ∀ p ∈ (((scheduleSessionsOnDays t.1.id st comms
          ((getAvailableDaysForTask t.1 W st today).zip
            (calculateDailyHoursDistribution t.2
              (getAvailableDaysForTask t.1 W st today).length strategy))
          (getNextSessionNumber t.1.id W) W).plans.drop W.length).map
            (fun c => freshPlan c.date st)) ++ extra, EmptyPad p :=
        emptyPad_append (emptyPad_freshPlans st _) hex
      have he2 : scheduleTaskWithStrategy t strategy
          (W ++ ((((scheduleSessionsOnDays t.1.id st comms
            ((getAvailableDaysForTask t.1 W st today).zip
              (calculateDailyHoursDistribution t.2
                (getAvailableDaysForTask t.1 W st today).length strategy))
            (getNextSessionNumber t.1.id W) W).plans.drop W.length).map
              (fun c => freshPlan c.date st)) ++ extra)) st comms today =
          scheduleSessionsOnDays t.1.id st comms
            ((getAvailableDaysForTask t.1 W st today).zip
              (calculateDailyHoursDistribution t.2
                (getAvailableDaysForTask t.1 W st today).length strategy))
            (getNextSessionNumber t.1.id W)
            (W ++ ((((scheduleSessionsOnDays t.1.id st comms
              ((getAvailableDaysForTask t.1 W st today).zip
                (calculateDailyHoursDistribution t.2
                  (getAvailableDaysForTask t.1 W st today).length strategy))
              (getNextSessionNumber t.1.id W) W).plans.drop W.length).map
                (fun c => freshPlan c.date st)) ++ extra)) := by
        unfold scheduleTaskWithStrategy
        rw [if_neg h0, availableDays_append_pads hpadsE, if_neg hday,
          getNextSessionNumber_append_pads hpadsE]
      rw [he2]
      exact scheduleDays_replay t.1.id st comms _ _ W extra hex

theorem createdPlan_mono {st : UserSettings} {K K' : Nat → Prop}
    (hK : ∀ i, K i → K' i) {c : StudyPlan} (h : CreatedPlan st K c) :
    CreatedPlan st K' c :=
  ⟨h.1, h.2.1, fun s hs =>
    ⟨(h.2.2 s hs).1, (h.2.2 s hs).2.1, hK _ (h.2.2 s hs).2.2⟩⟩

/-- Updated plans keep their dates, so the pads they induce agree. -/
theorem pads_eq_of_forall₂ {K : Nat → Prop} {A B : List StudyPlan}
    (h : List.Forall₂ (AddUpd K) A B) (st : UserSettings) :
    B.map (fun c => freshPlan c.date st) =
      A.map (fun c => freshPlan c.date st) := by
  induction h with
  | nil => rfl
  | cons hr _ ih =>
    rw [List.map_cons, List.map_cons, ih, hr.1]

theorem scheduleTasks_fold_shape (l : List (Task × ℚ))
    (strategyOf : Task × ℚ → Strategy) (st : UserSettings)
    (comms : List FixedCommitment) (today : Nat) (acc : ScheduleResult) :
    ∃ S' C,
      (l.foldl (fun (acc : ScheduleResult) t =>
        let r := scheduleTaskWithStrategy t (strategyOf t) acc.plans st comms today
        ⟨r.plans, acc.failed ++ r.failed⟩) acc).plans = S' ++ C ∧
      List.Forall₂ (AddUpd (fun i => ∃ u ∈ l, u.1.id = i)) acc.plans S' ∧
      ∀ c ∈ C, CreatedPlan st (fun i => ∃ u ∈ l, u.1.id = i) c := by
  induction l generalizing acc with
  | nil =>
    exact ⟨acc.plans, [], (List.append_nil _).symm,
      List.forall₂_same.mpr (fun q _ => addUpd_refl q), nofun⟩
  | cons u rest ih =>
    rw [List.foldl_cons]
    obtain ⟨S₁, C₁, h1, hF1, hC1⟩ :=
      scheduleTask_shape u (strategyOf u) acc.plans st comms today
    obtain ⟨S₂, C₂, h2, hF2, hC2⟩ := ih
      ⟨(scheduleTaskWithStrategy u (strategyOf u) acc.plans st comms today).plans,
        acc.failed ++
          (scheduleTaskWithStrategy u (strategyOf u) acc.plans st comms
            today).failed⟩
    dsimp only at h2 hF2
    rw [h1] at hF2
    obtain ⟨S₂a, S₂b, rfl, hFa, hFb⟩ := forall₂_append_split hF2
    have hKu : ∀ i, i = u.1.id → ∃ v ∈ u :: rest, v.1.id = i :=
      fun i hi => ⟨u, List.mem_cons_self _ _, hi.symm⟩
    have hKr : ∀ i, (∃ v ∈ rest, v.1.id = i) → ∃ v ∈ u :: rest, v.1.id = i :=
      fun i ⟨v, hv, hvi⟩ => ⟨v, List.mem_cons_of_mem _ hv, hvi⟩
    refine ⟨S₂a, S₂b ++ C₂, ?_, ?_, ?_⟩
    · rw [h2, List.append_assoc]
    · refine forall₂_comp hF1 hFa (fun a b c hab hbc => ?_)
      exact addUpd_trans (addUpd_mono hKu hab) (addUpd_mono hKr hbc)
    · intro c hc
      rcases List.mem_append.mp hc with hmem | hmem
      · obtain ⟨c₁, hc₁, hrel⟩ := forall₂_mem_right hFb hmem
        exact createdPlan_addUpd (createdPlan_mono hKu (hC1 c₁ hc₁))
          (addUpd_mono hKr hrel)
      · exact createdPlan_mono hKr (hC2 c hmem)

/-- Replay of the whole scheduling fold on the padded state. -/
theorem scheduleTasks_fold_replay (l : List (Task × ℚ))
    (strategyOf : Task × ℚ → Strategy) (st : UserSettings)
    (comms : List FixedCommitment) (today : Nat)
    (W extra : List StudyPlan) (F : List FailedAllocation)
    (hex : ∀ p ∈ extra, EmptyPad p) :
    (l.foldl (fun (acc : ScheduleResult) t =>
      let r := scheduleTaskWithStrategy t (strategyOf t) acc.plans st comms today
      ⟨r.plans, acc.failed ++ r.failed⟩)
      ⟨W ++ (((((l.foldl (fun (acc : ScheduleResult) t =>
        let r := scheduleTaskWithStrategy t (strategyOf t) acc.plans st comms today
        ⟨r.plans, acc.failed ++ r.failed⟩) ⟨W, F⟩).plans.drop W.length)).map
          (fun c => freshPlan c.date st)) ++ extra), F⟩) =
    ⟨(l.foldl (fun (acc : ScheduleResult) t =>
      let r := scheduleTaskWithStrategy t (strategyOf t) acc.plans st comms today
      ⟨r.plans, acc.failed ++ r.failed⟩) ⟨W, F⟩).plans ++ extra,
     (l.foldl (fun (acc : ScheduleResult) t =>
      let r := scheduleTaskWithStrategy t (strategyOf t) acc.plans st comms today
      ⟨r.plans, acc.failed ++ r.failed⟩) ⟨W, F⟩).failed⟩ := by
  induction l generalizing W F with
  | nil =>
    show (⟨W ++ (((W.drop W.length).map (fun c => freshPlan c.date st)) ++
      extra), F⟩ : ScheduleResult) = ⟨W ++ extra, F⟩
    rw [List.drop_length]
    rfl
  | cons u rest ih =>
    rw [List.foldl_cons]
    obtain ⟨S₁, C₁, h1, hF1, hC1⟩ :=
      scheduleTask_shape u (strategyOf u) W st comms today
    have hlen1 : W.length = S₁.length := hF1.length_eq
    obtain ⟨S₂, C₂, h2, hF2, hC2⟩ := scheduleTasks_fold_shape rest strategyOf st
      comms today
      ⟨(scheduleTaskWithStrategy u (strategyOf u) W st comms today).plans,
        F ++ (scheduleTaskWithStrategy u (strategyOf u) W st comms today).failed⟩
    dsimp only at h2 hF2
    rw [h1] at hF2
    obtain ⟨S₂a, S₂b, rfl, hFa, hFb⟩ := forall₂_append_split hF2
    have hlen2 : S₁.length = S₂a.length := hFa.length_eq
    -- the fold's pads split into this task's creations and the later ones
    have hsplit : (((u :: rest).foldl (fun (acc : ScheduleResult) t =>
        let r := scheduleTaskWithStrategy t (strategyOf t) acc.plans st comms today
        ⟨r.plans, acc.failed ++ r.failed⟩) ⟨W, F⟩).plans.drop W.length).map
          (fun c => freshPlan c.date st) =
        (C₁.map (fun c => freshPlan c.date st)) ++
        ((rest.foldl (fun (acc : ScheduleResult) t =>
          let r := scheduleTaskWithStrategy t (strategyOf t) acc.plans st comms today
          ⟨r.plans, acc.failed ++ r.failed⟩)
          ⟨(scheduleTaskWithStrategy u (strategyOf u) W st comms today).plans,
            F ++ (scheduleTaskWithStrategy u (strategyOf u) W st comms
              today).failed⟩).plans.drop
          (scheduleTaskWithStrategy u (strategyOf u) W st comms
            today).plans.length).map (fun c => freshPlan c.date st) := by
      rw [List.foldl_cons]
      dsimp only
      rw [h2, h1, hlen1, hlen2]
      rw [show S₂a ++ S₂b ++ C₂ = S₂a ++ (S₂b ++ C₂) from List.append_assoc _ _ _,
        List.drop_left, List.map_append, pads_eq_of_forall₂ hFb st,
        List.length_append, hlen2, hFb.length_eq,
        show S₂a.length + S₂b.length = (S₂a ++ S₂b).length from
          (List.length_append _ _).symm,
        show S₂a ++ (S₂b ++ C₂) = S₂a ++ S₂b ++ C₂ from
          (List.append_assoc _ _ _).symm,
        List.drop_left]
    rw [hsplit]
    rw [List.append_assoc]
    have hstep := scheduleTask_replay u (strategyOf u) W
      ((((rest.foldl (fun (acc : ScheduleResult) t =>
        let r := scheduleTaskWithStrategy t (strategyOf t) acc.plans st comms today
        ⟨r.plans, acc.failed ++ r.failed⟩)
        ⟨(scheduleTaskWithStrategy u (strategyOf u) W st comms today).plans,
          F ++ (scheduleTaskWithStrategy u (strategyOf u) W st comms
            today).failed⟩).plans.drop
        (scheduleTaskWithStrategy u (strategyOf u) W st comms
          today).plans.length).map (fun c => freshPlan c.date st)) ++ extra)
      st comms today
      (emptyPad_append (emptyPad_freshPlans st _) hex)
    rw [show ((scheduleTaskWithStrategy u (strategyOf u) W st comms
        today).plans.drop W.length).map (fun c => freshPlan c.date st) =
        C₁.map (fun c => freshPlan c.date st) from by
      rw [h1, hlen1, List.drop_left]] at hstep
    dsimp only
    rw [hstep]
    rw [List.foldl_cons]
    dsimp only
    exact ih (scheduleTaskWithStrategy u (strategyOf u) W st comms today).plans
      (F ++ (scheduleTaskWithStrategy u (strategyOf u) W st comms today).failed)

/-- The purge fold, per plan. -/
def purgePlanFn (l : List (Task × ℚ)) (p : StudyPlan) : StudyPlan :=
  l.foldl (fun p u =>
    if p.isLocked then p
    else
      let kept := p.plannedTasks.filter (keepSession u.1.id)
      { p with plannedTasks := kept, totalStudyHours := sessionsTotal kept }) p

/-- The purge fold acts plan by plan. -/
theorem purge_eq_map (l : List (Task × ℚ)) (P : List StudyPlan) :
    l.foldl (fun ps u => removeUnlockedTaskSessions u.1.id ps) P =
      P.map (purgePlanFn l) := by
  induction l generalizing P with
  | nil =>
    show P = P.map (fun p => p)
    rw [List.map_id']
  | cons u rest ih =>
    rw [List.foldl_cons, ih]
    unfold removeUnlockedTaskSessions
    rw [List.map_map]
    rfl

/-- The iterated session filter of the purge fold. -/
def iterFilter (l : List (Task × ℚ)) (x : List StudySession) :
    List StudySession :=
  l.foldl (fun x u => x.filter (keepSession u.1.id)) x

theorem purgePlanFn_locked {l : List (Task × ℚ)} {p : StudyPlan}
    (h : p.isLocked = true) : purgePlanFn l p = p := by
  induction l with
  | nil => rfl
  | cons u rest ih =>
    show purgePlanFn rest (if p.isLocked then p else _) = p
    rw [h]
    exact ih

theorem purgePlanFn_unlocked {l : List (Task × ℚ)} (hl : l ≠ [])
    {p : StudyPlan} (h : p.isLocked = false) :
    purgePlanFn l p =
      { p with
        plannedTasks := iterFilter l p.plannedTasks
        totalStudyHours := sessionsTotal (iterFilter l p.plannedTasks) } := by
  induction l generalizing p with
  | nil => exact absurd rfl hl
  | cons u rest ih =>
    show purgePlanFn rest (if p.isLocked = true then p else
      { p with
        plannedTasks := p.plannedTasks.filter (keepSession u.1.id)
        totalStudyHours := sessionsTotal
          (p.plannedTasks.filter (keepSession u.1.id)) }) = _
    rw [if_neg (show ¬ (p.isLocked = true) from by simp [h])]
    cases rest with
    | nil => rfl
    | cons v vs =>
      rw [ih (List.cons_ne_nil v vs)
        (show ({ p with
          plannedTasks := p.plannedTasks.filter (keepSession u.1.id)
          totalStudyHours := sessionsTotal
            (p.plannedTasks.filter (keepSession u.1.id)) } :
              StudyPlan).isLocked = false from h)]
      rfl

theorem iterFilter_mem {l : List (Task × ℚ)} {x : List StudySession}
    {s : StudySession} (hs : s ∈ iterFilter l x) :
    s ∈ x ∧ ∀ u ∈ l, keepSession u.1.id s = true := by
  induction l generalizing x with
  | nil => exact ⟨hs, nofun⟩
  | cons u rest ih =>
    have h2 := @ih (x.filter (keepSession u.1.id)) hs
    refine ⟨List.mem_of_mem_filter h2.1, ?_⟩
    intro v hv
    rcases List.mem_cons.mp hv with rfl | hmem
    · exact List.of_mem_filter h2.1
    · exact h2.2 v hmem

theorem iterFilter_of_all {l : List (Task × ℚ)} {x : List StudySession}
    (hall : ∀ s ∈ x, ∀ u ∈ l, keepSession u.1.id s = true) :
    iterFilter l x = x := by
  induction l generalizing x with
  | nil => rfl
  | cons u rest ih =>
    show iterFilter rest (x.filter (keepSession u.1.id)) = x
    rw [List.filter_eq_self.mpr
      (fun s hs => hall s hs u (List.mem_cons_self _ _))]
    exact ih (fun s hs v hv => hall s hs v (List.mem_cons_of_mem _ hv))

theorem iterFilter_idem (l : List (Task × ℚ)) (x : List StudySession) :
    iterFilter l (iterFilter l x) = iterFilter l x :=
  iterFilter_of_all (fun _ hs => (iterFilter_mem hs).2)

theorem iterFilter_append (l : List (Task × ℚ)) (x y : List StudySession) :
    iterFilter l (x ++ y) = iterFilter l x ++ iterFilter l y := by
  induction l generalizing x y with
  | nil => rfl
  | cons u rest ih =>
    show iterFilter rest ((x ++ y).filter (keepSession u.1.id)) = _
    rw [List.filter_append, ih]
    rfl

theorem iterFilter_removed {l : List (Task × ℚ)} {x : List StudySession}
    (hall : ∀ s ∈ x, ∃ u ∈ l, keepSession u.1.id s = false) :
    iterFilter l x = [] := by
  induction l generalizing x with
  | nil =>
    cases x with
    | nil => rfl
    | cons s t =>
      obtain ⟨u, hu, _⟩ := hall s (List.mem_cons_self _ _)
      cases hu
  | cons u rest ih =>
    show iterFilter rest (x.filter (keepSession u.1.id)) = []
    refine ih ?_
    intro s hs
    have hkeep : keepSession u.1.id s = true := List.of_mem_filter hs
    obtain ⟨v, hv, hkv⟩ := hall s (List.mem_of_mem_filter hs)
    rcases List.mem_cons.mp hv with rfl | hmem
    · rw [hkeep] at hkv
      cases hkv
    · exact ⟨v, hmem, hkv⟩

theorem studyPlan_ext {p q : StudyPlan} (h1 : p.date = q.date)
    (h2 : p.plannedTasks = q.plannedTasks)
    (h3 : p.totalStudyHours = q.totalStudyHours)
    (h4 : p.availableHours = q.availableHours)
    (h5 : p.isLocked = q.isLocked) : p = q := by
  cases p
  cases q
  simp only at h1 h2 h3 h4 h5
  rw [h1, h2, h3, h4, h5]

theorem purgePlanFn_idem {l : List (Task × ℚ)} (hl : l ≠ []) (p : StudyPlan) :
    purgePlanFn l (purgePlanFn l p) = purgePlanFn l p := by
  by_cases hp : p.isLocked = true
  · rw [purgePlanFn_locked hp, purgePlanFn_locked hp]
  · have hp0 : p.isLocked = false := by simpa using hp
    rw [purgePlanFn_unlocked hl hp0]
    rw [@purgePlanFn_unlocked l hl { p with
      plannedTasks := iterFilter l p.plannedTasks
      totalStudyHours := sessionsTotal (iterFilter l p.plannedTasks) } hp0]
    refine studyPlan_ext rfl ?_ ?_ rfl rfl
    · show iterFilter l (iterFilter l p.plannedTasks) = iterFilter l p.plannedTasks
      exact iterFilter_idem l _
    · show sessionsTotal (iterFilter l (iterFilter l p.plannedTasks)) =
        sessionsTotal (iterFilter l p.plannedTasks)
      rw [iterFilter_idem]

/-- A session of a scheduled task that is pending (scheduled, not done) is
dropped by the purge step of its own task. -/
theorem keepSession_false_of_pending {l : List (Task × ℚ)} {s : StudySession}
    (hstat : s.status = .scheduled) (hdone : s.done = false)
    (hK : ∃ u ∈ l, u.1.id = s.taskId) :
    ∃ u ∈ l, keepSession u.1.id s = false := by
  obtain ⟨u, hu, hid⟩ := hK
  refine ⟨u, hu, ?_⟩
  unfold keepSession
  rw [hid, hstat, hdone]
  simp

/-- Purging a freshly created plan empties it back to a fresh pad. -/
theorem purgePlan_created {l : List (Task × ℚ)} (hl : l ≠ [])
    {st : UserSettings} {c : StudyPlan}
    (hc : CreatedPlan st (fun i => ∃ u ∈ l, u.1.id = i) c) :
    purgePlanFn l c = freshPlan c.date st := by
  rw [purgePlanFn_unlocked hl hc.1]
  rw [iterFilter_removed (fun s hs => keepSession_false_of_pending
    (hc.2.2 s hs).1 (hc.2.2 s hs).2.1 (hc.2.2 s hs).2.2)]
  refine studyPlan_ext rfl rfl ?_ ?_ ?_
  · rfl
  · exact hc.2.1
  · exact hc.1

/-- Purging an updated plan recovers the purged original. -/
theorem purgePlanFn_addUpd {l : List (Task × ℚ)} (hl : l ≠ [])
    {q w : StudyPlan}
    (h : AddUpd (fun i => ∃ u ∈ l, u.1.id = i) q w)
    (hq : purgePlanFn l q = q) :
    purgePlanFn l w = q := by
  by_cases hlk : q.isLocked = true
  · rw [h.2.2.2.1 hlk]
    exact hq
  · have hq0 : q.isLocked = false := by simpa using hlk
    have hw0 : w.isLocked = false := h.2.1.trans hq0
    obtain ⟨added, htasks, hprops⟩ := h.2.2.2.2
    have hiq : iterFilter l q.plannedTasks = q.plannedTasks := by
      have := congrArg StudyPlan.plannedTasks
        ((purgePlanFn_unlocked hl hq0).symm.trans hq)
      exact this
    have hiqt : sessionsTotal (iterFilter l q.plannedTasks) =
        q.totalStudyHours := by
      have := congrArg StudyPlan.totalStudyHours
        ((purgePlanFn_unlocked hl hq0).symm.trans hq)
      exact this
    rw [purgePlanFn_unlocked hl hw0]
    have hiw : iterFilter l w.plannedTasks = q.plannedTasks := by
      rw [htasks, iterFilter_append, hiq,
        iterFilter_removed (fun s hs => keepSession_false_of_pending
          (hprops s hs).1 (hprops s hs).2.1 (hprops s hs).2.2),
        List.append_nil]
    refine studyPlan_ext h.1 ?_ ?_ h.2.2.1 h.2.1
    · exact hiw
    · show sessionsTotal (iterFilter l w.plannedTasks) = q.totalStudyHours
      rw [hiw, ← hiq, hiqt]

theorem keepSession_of_accounted {s : StudySession}
    (h : (s.done || s.status == SessionStatus.completed ||
      s.status == SessionStatus.skipped) = true) (tid : Nat) :
    keepSession tid s = true := by
  unfold keepSession
  simp only [Bool.or_eq_true] at h ⊢
  tauto

/-- Sessions that every purge step keeps are untouched by the iterated
filter, and conversely filtering by a purge-stable predicate commutes out. -/
theorem filter_iterFilter {l : List (Task × ℚ)} {y : List StudySession}
    (p : StudySession → Bool)
    (himp : ∀ s ∈ y, p s = true → ∀ u ∈ l, keepSession u.1.id s = true) :
    (iterFilter l y).filter p = y.filter p := by
  induction l generalizing y with
  | nil => rfl
  | cons u rest ih =>
    show (iterFilter rest (y.filter (keepSession u.1.id))).filter p = y.filter p
    rw [ih (fun s hs hp v hv =>
      himp s (List.mem_of_mem_filter hs) hp v (List.mem_cons_of_mem _ hv))]
    rw [List.filter_comm]
    exact List.filter_eq_self.mpr (fun s hs =>
      himp s (List.mem_of_mem_filter hs) (List.of_mem_filter hs) u
        (List.mem_cons_self _ _))

theorem iterFilter_filter_comm (l : List (Task × ℚ))
    (p : StudySession → Bool) (x : List StudySession) :
    (iterFilter l x).filter p = iterFilter l (x.filter p) := by
  induction l generalizing x with
  | nil => rfl
  | cons u rest ih =>
    show (iterFilter rest (x.filter (keepSession u.1.id))).filter p =
      iterFilter rest ((x.filter p).filter (keepSession u.1.id))
    rw [ih, List.filter_comm]

theorem planAccount_created {st : UserSettings} {K : Nat → Prop}
    {c : StudyPlan} (hc : CreatedPlan st K c) (tid : Nat) :
    planAccount tid c.isLocked c.plannedTasks = 0 := by
  rw [hc.1]
  unfold planAccount
  rw [show (c.plannedTasks.filter (fun s => s.taskId == tid)).filter
      (fun s => s.done || s.status == SessionStatus.completed ||
        s.status == SessionStatus.skipped || false) = [] from ?_]
  · rfl
  · rw [List.filter_eq_nil_iff]
    intro s hs
    have hprops := hc.2.2 s (List.mem_of_mem_filter hs)
    rw [hprops.1, hprops.2.1]
    simp

theorem planAccount_addUpd {K : Nat → Prop} {q w : StudyPlan}
    (h : AddUpd K q w) (tid : Nat) :
    planAccount tid w.isLocked w.plannedTasks =
      planAccount tid q.isLocked q.plannedTasks := by
  by_cases hlk : q.isLocked = true
  · rw [h.2.2.2.1 hlk]
  · have hq0 : q.isLocked = false := by simpa using hlk
    obtain ⟨added, htasks, hprops⟩ := h.2.2.2.2
    rw [h.2.1, hq0, htasks]
    unfold planAccount
    rw [List.filter_append, List.filter_append, List.map_append,
      List.sum_append]
    rw [show (added.filter (fun s => s.taskId == tid)).filter
        (fun s => s.done || s.status == SessionStatus.completed ||
          s.status == SessionStatus.skipped || false) = [] from ?_]
    · simp
    · rw [List.filter_eq_nil_iff]
      intro s hs
      have hp := hprops s (List.mem_of_mem_filter hs)
      rw [hp.1, hp.2.1]
      simp

theorem planAccount_purge {l : List (Task × ℚ)} (hl : l ≠ [])
    (p : StudyPlan) (tid : Nat) :
    planAccount tid (purgePlanFn l p).isLocked
      (purgePlanFn l p).plannedTasks =
      planAccount tid p.isLocked p.plannedTasks := by
  by_cases hlk : p.isLocked = true
  · rw [purgePlanFn_locked hlk]
  · have h0 : p.isLocked = false := by simpa using hlk
    rw [purgePlanFn_unlocked hl h0]
    show planAccount tid p.isLocked (iterFilter l p.plannedTasks) = _
    rw [h0]
    unfold planAccount
    rw [iterFilter_filter_comm]
    rw [filter_iterFilter _ (fun s _ hp u _ => by
      refine keepSession_of_accounted ?_ u.1.id
      revert hp
      simp only [Bool.or_eq_true]
      tauto)]

theorem map_eq_of_forall₂ {α β : Type} {R : α → α → Prop} {A B : List α}
    {f : α → β} (h : List.Forall₂ R A B) (hpt : ∀ a b, R a b → f b = f a) :
    B.map f = A.map f := by
  induction h with
  | nil => rfl
  | cons hr _ ih =>
    rw [List.map_cons, List.map_cons, ih, hpt _ _ hr]

theorem map_purge_of_forall₂ {l : List (Task × ℚ)} (hl : l ≠ [])
    {A B : List StudyPlan}
    (hF : List.Forall₂ (AddUpd (fun i => ∃ u ∈ l, u.1.id = i)) A B)
    (hstab : ∀ a ∈ A, purgePlanFn l a = a) :
    B.map (purgePlanFn l) = A := by
  induction hF with
  | nil => rfl
  | cons hr htail ih =>
    rw [List.map_cons, purgePlanFn_addUpd hl hr
      (hstab _ (List.mem_cons_self _ _)),
      ih (fun a ha => hstab a (List.mem_cons_of_mem _ ha))]

/-- A generation pass leaves every task's accounted hours unchanged: the
purge only removes unaccounted sessions, updates only append unaccounted
ones, and created plans hold none. -/
theorem accountedHours_replay (t : Task) {l : List (Task × ℚ)} (hl : l ≠ [])
    {st : UserSettings} {P0 S' C : List StudyPlan}
    (hF : List.Forall₂ (AddUpd (fun i => ∃ u ∈ l, u.1.id = i))
      (P0.map (purgePlanFn l)) S')
    (hC : ∀ c ∈ C, CreatedPlan st (fun i => ∃ u ∈ l, u.1.id = i) c)
    (hu0 : SessionNumbersUnique P0) (hu1 : SessionNumbersUnique (S' ++ C)) :
    accountedHours t (S' ++ C) = accountedHours t P0 := by
  rw [accountedHours_eq_sum t _ hu1, accountedHours_eq_sum t P0 hu0]
  rw [List.map_append, List.sum_append]
  rw [show ((C.map (fun q => planAccount t.id q.isLocked q.plannedTasks)).sum)
      = 0 from List.sum_eq_zero (fun x hx => by
        obtain ⟨c, hc, rfl⟩ := List.mem_map.mp hx
        exact planAccount_created (hC c hc) t.id), add_zero]
  rw [map_eq_of_forall₂ hF (fun a b hr => planAccount_addUpd hr t.id)]
  rw [List.map_map]
  refine congrArg List.sum (List.map_congr_left fun p _ => ?_)
  exact planAccount_purge hl p t.id

/-- Hence the remaining-hours task list itself is reproduced by a pass. -/
theorem tasksR_replay (tasks : List Task) {l : List (Task × ℚ)} (hl : l ≠ [])
    {st : UserSettings} {P0 S' C : List StudyPlan}
    (hF : List.Forall₂ (AddUpd (fun i => ∃ u ∈ l, u.1.id = i))
      (P0.map (purgePlanFn l)) S')
    (hC : ∀ c ∈ C, CreatedPlan st (fun i => ∃ u ∈ l, u.1.id = i) c)
    (hu0 : SessionNumbersUnique P0) (hu1 : SessionNumbersUnique (S' ++ C)) :
    tasksWithRemainingHours tasks (S' ++ C) =
      tasksWithRemainingHours tasks P0 := by
  unfold tasksWithRemainingHours
  refine congrArg (List.filter _) ?_
  refine List.map_congr_left fun u _ => ?_
  rw [calculateRemainingTaskHours_eq, calculateRemainingTaskHours_eq,
    accountedHours_replay u hl hF hC hu0 hu1]

set_option maxHeartbeats 1600000 in
/-- The heart of idempotence: one scheduling pass (purge, then fold the
ordered tasks through the scheduler) leaves the remaining-hours list
unchanged, and running the same pass again on its own output returns that
output unchanged. Stated for any ordering `o` drawing its task ids from the
remaining-hours list. -/
theorem generate_pass_replay (tasks : List Task) (st : UserSettings)
    (comms : List FixedCommitment) (plans : List StudyPlan) (today : Nat)
    (o : List (Task × ℚ)) (strategyOf : Task × ℚ → Strategy)
    (hsub : ∀ i, (∃ u ∈ o, u.1.id = i) →
      (∃ u ∈ tasksWithRemainingHours tasks plans, u.1.id = i))
    (hl : tasksWithRemainingHours tasks plans ≠ [])
    (hu : SessionNumbersUnique plans) :
    tasksWithRemainingHours tasks
      ((scheduleTasks o strategyOf
        ((tasksWithRemainingHours tasks plans).foldl
          (fun ps u => removeUnlockedTaskSessions u.1.id ps) plans)
        st comms today).plans) = tasksWithRemainingHours tasks plans ∧
    (scheduleTasks o strategyOf
      ((tasksWithRemainingHours tasks plans).foldl
        (fun ps u => removeUnlockedTaskSessions u.1.id ps)
        ((scheduleTasks o strategyOf
          ((tasksWithRemainingHours tasks plans).foldl
            (fun ps u => removeUnlockedTaskSessions u.1.id ps) plans)
          st comms today).plans))
      st comms today).plans =
    (scheduleTasks o strategyOf
      ((tasksWithRemainingHours tasks plans).foldl
        (fun ps u => removeUnlockedTaskSessions u.1.id ps) plans)
      st comms today).plans := by
  have hufold : SessionNumbersUnique
      ((tasksWithRemainingHours tasks plans).foldl
        (fun ps u => removeUnlockedTaskSessions u.1.id ps) plans) :=
    sessionNumbersUnique_purge hu _
  unfold scheduleTasks
  obtain ⟨S', C, hplans, hF, hC⟩ := scheduleTasks_fold_shape o strategyOf st
    comms today ⟨(tasksWithRemainingHours tasks plans).foldl
      (fun ps u => removeUnlockedTaskSessions u.1.id ps) plans, []⟩
  dsimp only at hF
  have hF2 : List.Forall₂
      (AddUpd (fun i => ∃ u ∈ tasksWithRemainingHours tasks plans, u.1.id = i))
      (plans.map (purgePlanFn (tasksWithRemainingHours tasks plans))) S' := by
    rw [← purge_eq_map]
    exact List.Forall₂.imp (fun a b hab => addUpd_mono hsub hab) hF
  have hC2 : ∀ c ∈ C, CreatedPlan st
      (fun i => ∃ u ∈ tasksWithRemainingHours tasks plans, u.1.id = i) c :=
    fun c hc => createdPlan_mono hsub (hC c hc)
  have hu1 : SessionNumbersUnique (S' ++ C) := by
    rw [← hplans]
    exact (@schedule_tasks_invariants _ o strategyOf st comms today
      ⟨(tasksWithRemainingHours tasks plans).foldl
        (fun ps u => removeUnlockedTaskSessions u.1.id ps) plans, []⟩
      (sessionsFrom_refl _) hufold).2
  have htR : tasksWithRemainingHours tasks (S' ++ C) =
      tasksWithRemainingHours tasks plans :=
    tasksR_replay tasks hl hF2 hC2 hu hu1
  constructor
  · rw [hplans]
    exact htR
  · have hstab : ∀ a ∈ plans.map
        (purgePlanFn (tasksWithRemainingHours tasks plans)),
        purgePlanFn (tasksWithRemainingHours tasks plans) a = a := by
      intro a ha
      obtain ⟨p, _, rfl⟩ := List.mem_map.mp ha
      exact purgePlanFn_idem hl p
    have hSW : S'.map (purgePlanFn (tasksWithRemainingHours tasks plans)) =
        plans.map (purgePlanFn (tasksWithRemainingHours tasks plans)) :=
      map_purge_of_forall₂ hl hF2 hstab
    have hCmap : C.map (purgePlanFn (tasksWithRemainingHours tasks plans)) =
        C.map (fun c => freshPlan c.date st) :=
      List.map_congr_left (fun c hc => purgePlan_created hl (hC2 c hc))
    have hlen : ((tasksWithRemainingHours tasks plans).foldl
        (fun ps u => removeUnlockedTaskSessions u.1.id ps) plans).length =
        S'.length := hF.length_eq
    have hW1 : (tasksWithRemainingHours tasks plans).foldl
        (fun ps u => removeUnlockedTaskSessions u.1.id ps)
        ((o.foldl (fun (acc : ScheduleResult) t =>
          let r := scheduleTaskWithStrategy t (strategyOf t) acc.plans st comms
            today
          ⟨r.plans, acc.failed ++ r.failed⟩)
          ⟨(tasksWithRemainingHours tasks plans).foldl
            (fun ps u => removeUnlockedTaskSessions u.1.id ps) plans,
            []⟩).plans) =
        ((tasksWithRemainingHours tasks plans).foldl
          (fun ps u => removeUnlockedTaskSessions u.1.id ps) plans) ++
        ((((o.foldl (fun (acc : ScheduleResult) t =>
          let r := scheduleTaskWithStrategy t (strategyOf t) acc.plans st comms
            today
          ⟨r.plans, acc.failed ++ r.failed⟩)
          ⟨(tasksWithRemainingHours tasks plans).foldl
            (fun ps u => removeUnlockedTaskSessions u.1.id ps) plans,
            []⟩).plans).drop
          ((tasksWithRemainingHours tasks plans).foldl
            (fun ps u => removeUnlockedTaskSessions u.1.id ps) plans).length).map
          (fun c => freshPlan c.date st) ++ []) := by
      rw [purge_eq_map, hplans, List.map_append, hSW, hCmap, List.append_nil,
        hlen, List.drop_left, purge_eq_map]
    rw [hW1]
    rw [scheduleTasks_fold_replay o strategyOf st comms today
      ((tasksWithRemainingHours tasks plans).foldl
        (fun ps u => removeUnlockedTaskSessions u.1.id ps) plans) [] [] nofun]
    exact List.append_nil _

set_option maxHeartbeats 1600000 in
/-- C4 (amended): generation is idempotent on collections whose
`(taskId, sessionNumber)` pairs are unique per task: running
`generateNewStudyPlan` on its own output (same tasks, settings, commitments
and clock) returns that output unchanged. -/
theorem C4_idempotence_amended (tasks : List Task) (settings : UserSettings)
    (comms : List FixedCommitment) (plans : List StudyPlan) (today : Nat)
    (nowAbs : ℚ) (hu : SessionNumbersUnique plans) :
    generateNewStudyPlan tasks settings comms
      (generateNewStudyPlan tasks settings comms plans today nowAbs)
      today nowAbs =
    generateNewStudyPlan tasks settings comms plans today nowAbs := by
  by_cases hemp : (tasksWithRemainingHours tasks plans).isEmpty = true
  · have hP1 : generateNewStudyPlan tasks settings comms plans today nowAbs =
        plans := by
      unfold generateNewStudyPlan generateNewStudyPlanFull
      dsimp only
      rw [if_pos hemp]
    rw [hP1]
    exact hP1
  · have hl : tasksWithRemainingHours tasks plans ≠ [] := by
      intro h0
      rw [h0] at hemp
      exact hemp rfl
    cases hmode : settings.studyPlanMode with
    | even =>
      have hsub : ∀ i, (∃ u ∈ stableSort evenTaskLE
          (tasksWithRemainingHours tasks plans), u.1.id = i) →
          (∃ u ∈ tasksWithRemainingHours tasks plans, u.1.id = i) := by
        intro i hi
        obtain ⟨u, humem, hid⟩ := hi
        exact ⟨u, (stableSort_perm evenTaskLE _).subset humem, hid⟩
      have hpair := generate_pass_replay tasks settings comms plans today
        (stableSort evenTaskLE (tasksWithRemainingHours tasks plans))
        (fun _ => Strategy.even) hsub hl hu
      have h1 : generateNewStudyPlan tasks settings comms plans today nowAbs =
          (scheduleTasks
            (stableSort evenTaskLE (tasksWithRemainingHours tasks plans))
            (fun _ => Strategy.even)
            ((tasksWithRemainingHours tasks plans).foldl
              (fun ps u => removeUnlockedTaskSessions u.1.id ps) plans)
            settings comms today).plans := by
        unfold generateNewStudyPlan generateNewStudyPlanFull
        dsimp only
        rw [if_neg hemp, hmode]
        rfl
      rw [h1]
      unfold generateNewStudyPlan generateNewStudyPlanFull
      dsimp only
      rw [hpair.1, if_neg hemp, hmode]
      exact hpair.2
    | balanced =>
      have hsub : ∀ i, (∃ u ∈
          (tasksWithRemainingHours tasks plans).filter
            (fun t => t.1.importance) ++
          (tasksWithRemainingHours tasks plans).filter
            (fun t => !t.1.importance), u.1.id = i) →
          (∃ u ∈ tasksWithRemainingHours tasks plans, u.1.id = i) := by
        intro i hi
        obtain ⟨u, humem, hid⟩ := hi
        rcases List.mem_append.mp humem with hm | hm
        · exact ⟨u, List.mem_of_mem_filter hm, hid⟩
        · exact ⟨u, List.mem_of_mem_filter hm, hid⟩
      have hpair := generate_pass_replay tasks settings comms plans today
        ((tasksWithRemainingHours tasks plans).filter
          (fun t => t.1.importance) ++
         (tasksWithRemainingHours tasks plans).filter
          (fun t => !t.1.importance))
        (fun _ => Strategy.even) hsub hl hu
      have h1 : generateNewStudyPlan tasks settings comms plans today nowAbs =
          (scheduleTasks
            ((tasksWithRemainingHours tasks plans).filter
              (fun t => t.1.importance) ++
             (tasksWithRemainingHours tasks plans).filter
              (fun t => !t.1.importance))
            (fun _ => Strategy.even)
            ((tasksWithRemainingHours tasks plans).foldl
              (fun ps u => removeUnlockedTaskSessions u.1.id ps) plans)
            settings comms today).plans := by
        unfold generateNewStudyPlan generateNewStudyPlanFull
        dsimp only
        rw [if_neg hemp, hmode]
        rfl
      rw [h1]
      unfold generateNewStudyPlan generateNewStudyPlanFull
      dsimp only
      rw [hpair.1, if_neg hemp, hmode]
      exact hpair.2
    | eisenhower =>
      have hsub : ∀ i, (∃ u ∈ eisenhowerOrder
          (tasksWithRemainingHours tasks plans) nowAbs, u.1.id = i) →
          (∃ u ∈ tasksWithRemainingHours tasks plans, u.1.id = i) := by
        intro i hi
        obtain ⟨u, humem, hid⟩ := hi
        exact ⟨u, (eisenhowerOrder_perm _ nowAbs).subset humem, hid⟩
      have hpair := generate_pass_replay tasks settings comms plans today
        (eisenhowerOrder (tasksWithRemainingHours tasks plans) nowAbs)
        (fun t => getTaskDistributionStrategy t nowAbs) hsub hl hu
      have h1 : generateNewStudyPlan tasks settings comms plans today nowAbs =
          (scheduleTasks
            (eisenhowerOrder (tasksWithRemainingHours tasks plans) nowAbs)
            (fun t => getTaskDistributionStrategy t nowAbs)
            ((tasksWithRemainingHours tasks plans).foldl
              (fun ps u => removeUnlockedTaskSessions u.1.id ps) plans)
            settings comms today).plans := by
        unfold generateNewStudyPlan generateNewStudyPlanFull
        dsimp only
        rw [if_neg hemp, hmode]
        rfl
      rw [h1]
      unfold generateNewStudyPlan generateNewStudyPlanFull
      dsimp only
      rw [hpair.1, if_neg hemp, hmode]
      exact hpair.2

theorem C4_idempotence_amended_witness :
    generateNewStudyPlan [reuseTask] wSettings []
      (generateNewStudyPlan [reuseTask] wSettings [] [] 1 1440) 1 1440 =
    generateNewStudyPlan [reuseTask] wSettings [] [] 1 1440 :=
  C4_idempotence_amended [reuseTask] wSettings [] [] 1 1440
    (by simp [SessionNumbersUnique, allSessions])

end Sched
